import Mathlib

/-!
# Verification of the jack-compiler repository against its specification

This file shallowly embeds the parts of the `jack-compiler` Python
repository that the frozen claims are about:

* `src/comptools/_tokenizer.py` (the character-level scanner),
* `src/comptools/_symboltable.py` (the symbol table present in `src`),
* `src/comptools/engines/vm.py` together with `src/comptools/engines/_base.py`
  (the VM compilation engine; `src/compiler/engines/vm.py` emits the same
  instruction sequences for the constructs treated here),
* `src/comptools/_writers/_vm.py` and `src/comptools/_writers/_xml.py`
  (the output writers).

Python strings are embedded as `String`/`List Char`, integers as `Nat`,
dictionaries as association lists, and exceptions as an explicit error
type threaded through `Except`.  Machine integers do not occur: all the
counters are small non-negative Python `int`s.
-/

namespace Jack

/-- Decimal digit character, embedding Python's rendering of a digit. -/
def digitChar (n : Nat) : Char :=
  Char.ofNat (48 + n)

/-- Digit accumulation for `natStr`, structurally recursive on a fuel
bound that dominates the number of digits (compare `Nat.toDigitsCore`
in core). -/
def natStrAux : Nat → Nat → List Char
  | 0, _ => []
  | fuel + 1, n =>
      if n < 10 then [digitChar n]
      else natStrAux fuel (n / 10) ++ [digitChar (n % 10)]

/-- Embedding of Python `str(n)` for a non-negative `int` `n`:
decimal notation, no sign, no padding.  Every place the source
interpolates an integer into output text (`f"...{k}"`, `f"push {seg} {i}"`)
is embedded using this function. -/
def natStr (n : Nat) : String :=
  String.mk (natStrAux (n + 1) n)

/-- The fuel does not matter once it exceeds the number. -/
theorem natStrAux_congr : ∀ n f₁ f₂ : Nat, n < f₁ → n < f₂ →
    natStrAux f₁ n = natStrAux f₂ n := by
  intro n
  induction n using Nat.strong_induction_on with
  | _ n ih =>
    intro f₁ f₂ h₁ h₂
    match f₁, h₁ with
    | g₁ + 1, h₁ =>
      match f₂, h₂ with
      | g₂ + 1, h₂ =>
        by_cases hn : n < 10
        · simp [natStrAux, hn]
        · have hdiv : n / 10 < n := Nat.div_lt_self (by omega) (by omega)
          simp only [natStrAux, hn, if_false]
          rw [ih (n / 10) hdiv g₁ g₂ (by omega) (by omega)]

theorem natStr_eq_small {n : Nat} (h : n < 10) :
    natStr n = String.mk [digitChar n] := by
  simp [natStr, natStrAux, h]

theorem natStr_eq_large {n : Nat} (h : ¬ n < 10) :
    natStr n = natStr (n / 10) ++ String.mk [digitChar (n % 10)] := by
  have hdiv : n / 10 < n := Nat.div_lt_self (by omega) (by omega)
  show String.mk (natStrAux (n + 1) n) = _
  have hstep : natStrAux (n + 1) n
      = natStrAux n (n / 10) ++ [digitChar (n % 10)] := by
    simp [natStrAux, h]
  rw [hstep, natStrAux_congr (n / 10) n (n / 10 + 1) (by omega) (by omega)]
  rfl

theorem digitChar_inj' : ∀ m < 10, ∀ n < 10, digitChar m = digitChar n → m = n := by
  decide

theorem digitChar_inj {m n : Nat} (hm : m < 10) (hn : n < 10) :
    digitChar m = digitChar n → m = n :=
  digitChar_inj' m hm n hn

theorem natStr_data_ne_nil (n : Nat) : (natStr n).data ≠ [] := by
  by_cases h : n < 10
  · rw [natStr_eq_small h]; simp
  · rw [natStr_eq_large h]
    intro hc
    rw [String.data_append] at hc
    simp at hc

theorem natStr_length_pos (n : Nat) : 0 < (natStr n).data.length := by
  cases hd : (natStr n).data with
  | nil => exact absurd hd (natStr_data_ne_nil n)
  | cons a l => simp

/-- `natStr` is injective: distinct counters render to distinct decimal
strings.  Needed to show branch labels with distinct indices differ. -/
theorem natStr_inj : ∀ m n : Nat, natStr m = natStr n → m = n := by
  intro m
  induction m using Nat.strong_induction_on with
  | _ m ih =>
    intro n h
    by_cases hm : m < 10
    · by_cases hn : n < 10
      · rw [natStr_eq_small hm, natStr_eq_small hn] at h
        have := congrArg String.data h
        simp at this
        exact digitChar_inj hm hn this
      · rw [natStr_eq_small hm, natStr_eq_large hn] at h
        have hdata := congrArg String.data h
        rw [String.data_append] at hdata
        cases hd : (natStr (n / 10)).data with
        | nil => exact absurd hd (natStr_data_ne_nil (n / 10))
        | cons a l =>
          rw [hd] at hdata
          have hlen := congrArg List.length hdata
          simp only [List.length_append, List.length_cons, List.length_nil] at hlen
          omega
    · by_cases hn : n < 10
      · rw [natStr_eq_large hm, natStr_eq_small hn] at h
        have hdata := congrArg String.data h
        rw [String.data_append] at hdata
        cases hd : (natStr (m / 10)).data with
        | nil => exact absurd hd (natStr_data_ne_nil (m / 10))
        | cons a l =>
          rw [hd] at hdata
          have hlen := congrArg List.length hdata
          simp only [List.length_append, List.length_cons, List.length_nil] at hlen
          omega
      · rw [natStr_eq_large hm, natStr_eq_large hn] at h
        have hdata := congrArg String.data h
        simp [String.data_append] at hdata
        have hinj := List.append_inj' hdata (by simp)
        have h1 : natStr (m / 10) = natStr (n / 10) := by
          exact String.ext hinj.1
        have h2 : m % 10 = n % 10 := by
          have := hinj.2
          simp at this
          exact digitChar_inj (Nat.mod_lt _ (by omega)) (Nat.mod_lt _ (by omega)) this
        have hdiv : m / 10 = n / 10 :=
          ih (m / 10) (Nat.div_lt_self (by omega) (by omega)) _ h1
        omega

/-! ## Branch labels

`engines/vm.py` mints labels with
`f"ELSE_BRANCH.{self._branch_count}"` and friends
(lines 169-170 and 193-194). -/

def elseLabel (k : Nat) : String := "ELSE_BRANCH." ++ natStr k

def endLabel (k : Nat) : String := "END_BRANCH." ++ natStr k

def loopLabel (k : Nat) : String := "LOOP_BRANCH." ++ natStr k

def breakLabel (k : Nat) : String := "BREAK_BRANCH." ++ natStr k

theorem prefixed_inj {p : String} {a b : String} (h : p ++ a = p ++ b) : a = b := by
  have := congrArg String.data h
  rw [String.data_append, String.data_append] at this
  exact String.ext (List.append_cancel_left this)

@[simp] theorem elseLabel_inj {i j : Nat} : elseLabel i = elseLabel j ↔ i = j := by
  constructor
  · intro h; exact natStr_inj _ _ (prefixed_inj h)
  · intro h; rw [h]

@[simp] theorem endLabel_inj {i j : Nat} : endLabel i = endLabel j ↔ i = j := by
  constructor
  · intro h; exact natStr_inj _ _ (prefixed_inj h)
  · intro h; rw [h]

@[simp] theorem loopLabel_inj {i j : Nat} : loopLabel i = loopLabel j ↔ i = j := by
  constructor
  · intro h; exact natStr_inj _ _ (prefixed_inj h)
  · intro h; rw [h]

@[simp] theorem breakLabel_inj {i j : Nat} : breakLabel i = breakLabel j ↔ i = j := by
  constructor
  · intro h; exact natStr_inj _ _ (prefixed_inj h)
  · intro h; rw [h]

theorem label_prefix_ne {p q : String} {a b : String}
    (hne : ∀ x y : List Char, p.data ++ x ≠ q.data ++ y) : p ++ a ≠ q ++ b := by
  intro h
  have := congrArg String.data h
  rw [String.data_append, String.data_append] at this
  exact hne _ _ this

@[simp] theorem elseLabel_ne_endLabel {i j : Nat} : elseLabel i ≠ endLabel j := by
  apply label_prefix_ne
  intro x y h
  simp [String.data] at h

@[simp] theorem elseLabel_ne_loopLabel {i j : Nat} : elseLabel i ≠ loopLabel j := by
  apply label_prefix_ne
  intro x y h
  simp [String.data] at h

@[simp] theorem elseLabel_ne_breakLabel {i j : Nat} : elseLabel i ≠ breakLabel j := by
  apply label_prefix_ne
  intro x y h
  simp [String.data] at h

@[simp] theorem endLabel_ne_loopLabel {i j : Nat} : endLabel i ≠ loopLabel j := by
  apply label_prefix_ne
  intro x y h
  simp [String.data] at h

@[simp] theorem endLabel_ne_breakLabel {i j : Nat} : endLabel i ≠ breakLabel j := by
  apply label_prefix_ne
  intro x y h
  simp [String.data] at h

@[simp] theorem loopLabel_ne_breakLabel {i j : Nat} : loopLabel i ≠ breakLabel j := by
  apply label_prefix_ne
  intro x y h
  simp [String.data] at h

@[simp] theorem endLabel_ne_elseLabel {i j : Nat} : endLabel i ≠ elseLabel j :=
  fun h => elseLabel_ne_endLabel h.symm

@[simp] theorem loopLabel_ne_elseLabel {i j : Nat} : loopLabel i ≠ elseLabel j :=
  fun h => elseLabel_ne_loopLabel h.symm

@[simp] theorem breakLabel_ne_elseLabel {i j : Nat} : breakLabel i ≠ elseLabel j :=
  fun h => elseLabel_ne_breakLabel h.symm

@[simp] theorem loopLabel_ne_endLabel {i j : Nat} : loopLabel i ≠ endLabel j :=
  fun h => endLabel_ne_loopLabel h.symm

@[simp] theorem breakLabel_ne_endLabel {i j : Nat} : breakLabel i ≠ endLabel j :=
  fun h => endLabel_ne_breakLabel h.symm

@[simp] theorem breakLabel_ne_loopLabel {i j : Nat} : breakLabel i ≠ loopLabel j :=
  fun h => loopLabel_ne_breakLabel h.symm


/-! ## Tokenizer: embedding of `src/comptools/_tokenizer.py`

The input file is embedded as a `List String` of physical lines, each
without its trailing newline.  Python's `readline` returns a nonempty
string for every physical line (it always contains at least the newline
character) and the empty string exactly at end of file, so popping the
head of the list embeds `readline`, and the empty list embeds end of
file. -/

namespace Tok

/-- Python `str.strip()` whitespace test for the characters that can
occur here (ASCII). -/
def isPyWs (c : Char) : Bool :=
  c = ' ' || c = '\t' || c = '\n' || c = '\x0d' || c.toNat = 11 || c.toNat = 12

/-- Embedding of Python `str.strip()` as used by `_go_to_next_line`
(`_tokenizer.py` line 136). -/
def pyStrip (l : List Char) : List Char :=
  ((l.dropWhile isPyWs).reverse.dropWhile isPyWs).reverse

/-- `_START_WORD_CHARS` (lines 196-197): ASCII letters and underscore. -/
def isStartWord (c : Char) : Bool :=
  (97 ≤ c.toNat && c.toNat ≤ 122) || (65 ≤ c.toNat && c.toNat ≤ 90) || c = '_'

/-- `_SYMBOLS` (line 198).  Note that `/` is a member. -/
def symbolChars : List Char :=
  ['{', '}', '(', ')', '[', ']', '.', ',', ';', '+', '-', '*', '/',
   '&', '|', '<', '>', '=', '~']

def isSymbolChar (c : Char) : Bool := symbolChars.contains c

/-- `_DIGITS` (line 199). -/
def isDigitChar (c : Char) : Bool := 48 ≤ c.toNat && c.toNat ≤ 57

/-- `_WORD_CHARS = _START_WORD_CHARS | _DIGITS` (line 201). -/
def isWordChar (c : Char) : Bool := isStartWord c || isDigitChar c

/-- `_KEYWORDS` (lines 206-209). -/
def keywords : List String :=
  ["class", "constructor", "function", "method", "field", "static",
   "var", "int", "char", "boolean", "void", "true", "false", "null",
   "this", "let", "do", "if", "else", "while", "return"]

/-- The mutable attributes of `JackTokenizer` relevant to scanning
(`_reset`, lines 36-48; positions of the previous token do not exist on
this class). -/
structure TokState where
  lines : List String
  hasMore : Bool
  token : Option String
  tokenType : Option String
  line : List Char
  lineNo : Nat
  charNo : Nat
  startLine : List Char
  startLineNo : Nat
  startCharNo : Nat
  deriving Repr, DecidableEq

/-- Outcomes of a tokenizer operation that Python reports by raising:
`JackError` (via `_raise_error`, lines 142-150, which reads the saved
start position), `IndexError` from an out-of-range string index, and
exhaustion of the recursion fuel of the embedding. -/
inductive TokErr where
  | jackError (lineNo : Nat) (line : List Char) (charNo : Nat) (err info : String)
  | indexError
  | fuel
  deriving Repr, DecidableEq

/-- `_raise_error(err, info)` (lines 142-150): raise a `JackError`
carrying the saved start position. -/
def raiseError (st : TokState) (err info : String) : TokErr :=
  .jackError st.startLineNo st.startLine st.startCharNo err info

/-- `_go_to_next_line` (lines 131-140). -/
def goToNextLine (st : TokState) : TokState :=
  let st := { st with lineNo := st.lineNo + 1, charNo := 0 }
  match st.lines with
  | [] =>
      { st with line := [], hasMore := false, token := none, tokenType := none }
  | l :: rest =>
      { st with line := pyStrip l.data, lines := rest }

/-- `_build_token(valid_chars)` (lines 102-107): consume the maximal run
of valid characters starting at the scan position and store it as the
token. -/
def buildToken (valid : Char → Bool) (st : TokState) : TokState :=
  let run := (st.line.drop st.charNo).takeWhile valid
  { st with charNo := st.charNo + run.length, token := some (String.mk run) }

/-- Python `line.find(c, pos)` for a single character: the least index
`≥ pos` holding `c`, if any. -/
def findCharFrom (l : List Char) (pos : Nat) (c : Char) : Option Nat :=
  ((l.drop pos).findIdx? (· = c)).map (pos + ·)

/-- Index of the first occurrence of the two-character sequence `*/` in
`l`, if any. -/
def findStarSlash : List Char → Option Nat
  | a :: rest =>
      match rest with
      | b :: _ =>
          if a = '*' && b = '/' then some 0
          else (findStarSlash rest).map (· + 1)
      | [] => none
  | [] => none

/-- Python `line.find("*/", pos)`. -/
def findStarSlashFrom (l : List Char) (pos : Nat) : Option Nat :=
  (findStarSlash (l.drop pos)).map (pos + ·)

/-- The `while self._has_more_tokens` loop of `_is_comment`
(lines 117-126) that scans for the closing `*/` of a block comment; its
`else` clause raises the unclosed-comment error. -/
def blockCommentLoop : Nat → TokState → Except TokErr (Bool × TokState)
  | 0, _ => .error .fuel
  | fuel + 1, st =>
      if st.hasMore then
        match findStarSlashFrom st.line st.charNo with
        | none => blockCommentLoop fuel (goToNextLine st)
        | some i => .ok (true, { st with charNo := i + 2 })
      else
        .error (raiseError st "EndOfFile" "unclosed multiline comment")

/-- `_is_comment` (lines 109-129).  Note the two `return False` paths:
the scan position has already moved past the slash and is NOT moved
back before control returns to `advance`. -/
def isComment (fuel : Nat) (st : TokState) : Except TokErr (Bool × TokState) :=
  let st := { st with charNo := st.charNo + 1 }
  if st.charNo = st.line.length then .ok (false, st)
  else
    match st.line.get? st.charNo with
    | none => .error .indexError
    | some cur =>
        if cur = '/' then .ok (true, goToNextLine st)
        else if cur = '*' then blockCommentLoop fuel st
        else .ok (false, st)

/-- The classification chain of `advance` (lines 78-99), entered with
`first` the character that was read at the saved start position.  When
`first` is a slash that did not start a comment, `_is_comment` has
already advanced the scan position by one before this chain runs. -/
def classify (first : Char) (st : TokState) : Except TokErr TokState :=
  if isStartWord first then
    let st := buildToken isWordChar st
    .ok { st with
          tokenType := some (if keywords.contains (st.token.getD "")
                             then "keyword" else "identifier") }
  else if isSymbolChar first then
    .ok { st with
          token := some (String.mk [first]),
          tokenType := some "symbol",
          charNo := st.charNo + 1 }
  else if isDigitChar first then
    let st := buildToken isDigitChar st
    .ok { st with tokenType := some "integerConstant" }
  else if first = '"' then
    let pos := st.charNo + 1
    match findCharFrom st.line pos '"' with
    | none => .error (raiseError st "EndOfFile" "unclosed string")
    | some e =>
        .ok { st with
              token := some (String.mk ((st.line.drop pos).take (e - pos))),
              tokenType := some "stringConstant",
              charNo := e + 1 }
  else
    .error (raiseError st "Syntax" "unidentified character")

/-- `advance` (lines 62-100).  The `while self._has_more_tokens` loop is
the fuel recursion; reading `self._line[self._char_no]` with the scan
position strictly beyond the end of the line raises `IndexError` in
Python, embedded as the `indexError` outcome. -/
def advance : Nat → TokState → Except TokErr TokState
  | 0, _ => .error .fuel
  | fuel + 1, st =>
      if st.hasMore then
        if st.charNo = st.line.length then
          advance fuel (goToNextLine st)
        else
          match st.line.get? st.charNo with
          | none => .error .indexError
          | some first =>
              if first = ' ' then
                advance fuel { st with charNo := st.charNo + 1 }
              else
                let st := { st with
                            startLine := st.line,
                            startLineNo := st.lineNo,
                            startCharNo := st.charNo }
                if first = '/' then
                  match isComment fuel st with
                  | .error e => .error e
                  | .ok (true, st') => advance fuel st'
                  | .ok (false, st') => classify first st'
                else
                  classify first st
      else
        .ok st

/-- State of a freshly constructed tokenizer after `load_class`
(`_reset`, lines 36-48) for an input file given as a list of lines. -/
def initState (file : List String) : TokState :=
  { lines := file, hasMore := true, token := none, tokenType := none,
    line := [], lineNo := 0, charNo := 0,
    startLine := [], startLineNo := 0, startCharNo := 0 }

/-- Drive the tokenizer the way its callers do: `advance`, then read the
token while `has_more_tokens`, collecting `(token, token_type)` pairs. -/
def tokenizeFrom : Nat → TokState → List (String × String) →
    Except TokErr (List (String × String))
  | 0, _, _ => .error .fuel
  | fuel + 1, st, acc =>
      match advance (fuel + 1) st with
      | .error e => .error e
      | .ok st' =>
          if st'.hasMore then
            tokenizeFrom fuel st'
              (acc ++ [(st'.token.getD "", st'.tokenType.getD "")])
          else
            .ok acc

/-- The full token stream of a file. -/
def tokens (fuel : Nat) (file : List String) :
    Except TokErr (List (String × String)) :=
  tokenizeFrom fuel (initState file) []

end Tok

/-! ## Tokenizer claims -/

/-- [C4] Evaluation of the tokenizer at the failing input `a/b;`.
The claim states that a `/` that does not begin a comment leaves the
scan position at the character immediately after the slash, so that
`a/b;` tokenizes as `a`, `/`, `b`, `;`.  In the code, `_is_comment`
(line 110) advances the scan position past the slash before returning
`False`, and the symbol branch of `advance` (line 86) then advances it
again, so the character after the slash is skipped: the token stream of
`a/b;` is `a`, `/`, `;` and the identifier `b` is lost. -/
theorem c4_division_slash_swallows_next_char :
    Tok.tokens 100 ["a/b;"] =
      .ok [("a", "identifier"), ("/", "symbol"), (";", "symbol")] := by
  rfl

/-- The tokenizer state reached after tokenizing `a` and then `/` from
the single-line file `a/`: the scan position is `3`, one past the length
`2` of the line. -/
def overrunState : Tok.TokState :=
  { lines := [], hasMore := true, token := some "/",
    tokenType := some "symbol", line := ['a', '/'], lineNo := 1,
    charNo := 3, startLine := ['a', '/'], startLineNo := 1,
    startCharNo := 1 }

/-- [C10] The claim states that the scan position never exceeds the
length of the current line, so `advance` never performs an out-of-range
access.  In the code, after tokenizing a line whose final character is a
lone `/`, the scan position equals `length + 1` (first conjunct), and
the next `advance` call evaluates `self._line[self._char_no]` at that
out-of-range index, raising `IndexError` (second conjunct). -/
theorem c10_scan_position_overruns_line :
    ((Tok.advance 100 (Tok.initState ["a/"])).bind (Tok.advance 100) =
        .ok overrunState
      ∧ overrunState.charNo = overrunState.line.length + 1)
    ∧ Tok.tokens 100 ["a/"] = .error .indexError := by
  exact ⟨⟨rfl, rfl⟩, rfl⟩

/-- [C9, counterexample] The claim states that a tab between two tokens
within a line is skipped as whitespace and that the token sequence is
unchanged when an inter-token space is replaced by a tab.  At the
concrete input `a b;` versus `a\tb;`: the space variant tokenizes as
`a`, `b`, `;`, but the tab variant raises the unidentified-character
`Syntax` error at the tab (line 1, column 1), because `_SPACE`
(line 202) contains only the space character. -/
theorem c9_tab_not_skipped_counterexample :
    Tok.tokens 100 ["a\tb;"] =
        .error (.jackError 1 ['a', '\t', 'b', ';'] 1 "Syntax"
          "unidentified character")
      ∧ Tok.tokens 100 ["a b;"] =
        .ok [("a", "identifier"), ("b", "identifier"), (";", "symbol")] := by
  exact ⟨rfl, rfl⟩

/-- [C9, amended] Only the space character is skipped as whitespace
within a line (tabs and carriage returns disappear only at the line
ends, via `strip`).  Whenever the scan position of a live tokenizer
state holds a tab character, `advance` raises the `Syntax`
`unidentified character` error positioned at that tab. -/
theorem c9_inner_tab_raises_syntax_error (fuel : Nat) (st : Tok.TokState)
    (hm : st.hasMore = true) (hc : st.line.get? st.charNo = some '\t') :
    Tok.advance (fuel + 1) st =
      .error (.jackError st.lineNo st.line st.charNo "Syntax"
        "unidentified character") := by
  have hlt : st.charNo < st.line.length := by
    rcases List.get?_eq_some.mp hc with ⟨h, _⟩
    exact h
  have hne : ¬ st.charNo = st.line.length := by omega
  simp only [Tok.advance, hm, if_true, hne, if_false, hc]
  rfl

/-- [C9, witness] The amended theorem applied to a concrete live state
whose current character is a tab. -/
theorem c9_inner_tab_witness :
    Tok.advance 5 { lines := [], hasMore := true, token := none,
                    tokenType := none, line := ['\t'], lineNo := 1, charNo := 0,
                    startLine := [], startLineNo := 0, startCharNo := 0 } =
      .error (.jackError 1 ['\t'] 0 "Syntax" "unidentified character") :=
  c9_inner_tab_raises_syntax_error 4 _ rfl rfl

/-! ## XML writer: embedding of `src/comptools/_writers/_xml.py`

`src/comptools/engine.py` (line 400), `src/comptools/_writer/xml.py` and
`src/compiler/_writers/_xml.py` contain the identical `_XML_MAP` and the
identical whole-token lookup. -/

namespace XMLW

/-- `_XML_MAP` (line 29 of `_writers/_xml.py`).  Note that the third key
is the apostrophe `'`, not the double quote `"`. -/
def xmlMap : List (String × String) :=
  [("<", "&lt;"), (">", "&gt;"), ("\x27", "&quot;"), ("&", "&amp;")]

/-- The escaping applied by `XMLWriter.write`:
`_XML_MAP.get(token, token)` looks the WHOLE token text up in the map
and falls back to the unmodified text. -/
def xmlGet (tok : String) : String :=
  (xmlMap.lookup tok).getD tok

/-- `XMLWriter.write(token_type, token)` (lines 12-17): one output line
`<tag> text </tag>` at the current indentation. -/
def write (indent tag tok : String) : String :=
  indent ++ "<" ++ tag ++ "> " ++ xmlGet tok ++ " </" ++ tag ++ ">" ++ "\n"

end XMLW

/-- [C7, counterexample] The claim states that every occurrence of `<`,
`>`, `&`, `"` in terminal text is escaped, also inside longer terminal
text such as a string constant.  At the concrete string-constant text
`a<b` the writer emits the `<` verbatim (first conjunct; the claim
requires `a&lt;b`), and a double quote is never escaped because
`_XML_MAP`'s third key is the apostrophe, not the double quote (second
and third conjuncts). -/
theorem c7_escaping_counterexample :
    XMLW.write "" "stringConstant" "a<b" =
        "<stringConstant> a<b </stringConstant>\n"
      ∧ XMLW.xmlGet "\"" = "\""
      ∧ XMLW.xmlGet "\x27" = "&quot;" := by
  exact ⟨rfl, rfl, rfl⟩

/-- [C7, amended] Escaping is whole-token only: a terminal whose entire
text is `<`, `>` or `&` is written as `&lt;`, `&gt;`, `&amp;` (and a
terminal that is exactly an apostrophe as `&quot;`); the double quote
has no mapping, and any terminal text of length at least two — in
particular any string constant containing a special character inside
longer text — is written unchanged. -/
theorem c7_escape_whole_token_only :
    XMLW.xmlGet "<" = "&lt;"
    ∧ XMLW.xmlGet ">" = "&gt;"
    ∧ XMLW.xmlGet "&" = "&amp;"
    ∧ XMLW.xmlGet "\x27" = "&quot;"
    ∧ XMLW.xmlGet "\"" = "\""
    ∧ ∀ t : String, 2 ≤ t.length → XMLW.xmlGet t = t := by
  refine ⟨rfl, rfl, rfl, rfl, rfl, ?_⟩
  intro t ht
  have h1 : ¬ (t = "<") := by
    intro e; subst e; revert ht; decide
  have h2 : ¬ (t = ">") := by
    intro e; subst e; revert ht; decide
  have h3 : ¬ (t = "\x27") := by
    intro e; subst e; revert ht; decide
  have h4 : ¬ (t = "&") := by
    intro e; subst e; revert ht; decide
  have b1 : (t == "<") = false := beq_eq_false_iff_ne.mpr h1
  have b2 : (t == ">") = false := beq_eq_false_iff_ne.mpr h2
  have b3 : (t == "\x27") = false := beq_eq_false_iff_ne.mpr h3
  have b4 : (t == "&") = false := beq_eq_false_iff_ne.mpr h4
  simp [XMLW.xmlGet, XMLW.xmlMap, List.lookup, b1, b2, b3, b4]

/-- [C7, witness] The amended theorem applied to the two-character
terminal text `ab`, which is written unchanged. -/
theorem c7_escape_witness : XMLW.xmlGet "ab" = "ab" :=
  c7_escape_whole_token_only.2.2.2.2.2 "ab" (by decide)

/-! ## VM compilation engine: embedding of `src/comptools/engines/vm.py`
with `src/comptools/engines/_base.py`

The engine pulls tokens from the tokenizer one at a time and only ever
reads `token`, `token_type` and `has_more_tokens`, so the tokenizer is
abstracted to a list of tokens: `advance` pops the next token (or sets
the current token to `None` at end of input, which is when
`has_more_tokens` becomes false for the callers).  Writer calls are
collected into a list of VM instructions.

The engine accesses its symbol table only through the attribute names
`define`, `start_subroutine`, `get_var` and `var_count` (Python duck
typing), so the embedding is parameterized by a record of these
operations.  Two instantiations are given below: the `SymbolTable`
class that is present at `src/comptools/_symboltable.py`, and a table
modelled from the specification (see `SpecTable`). -/

namespace Eng

/-- A token as exposed by the tokenizer: `token` and `token_type`. -/
structure Token where
  text : String
  ttype : String
  deriving Repr, DecidableEq

/-- Keyword token. -/
def kw (s : String) : Token := ⟨s, "keyword"⟩

/-- Symbol token. -/
def sy (s : String) : Token := ⟨s, "symbol"⟩

/-- Identifier token. -/
def ident (s : String) : Token := ⟨s, "identifier"⟩

/-- Integer-constant token. -/
def intTok (s : String) : Token := ⟨s, "integerConstant"⟩

/-- String-constant token. -/
def strTok (s : String) : Token := ⟨s, "stringConstant"⟩

/-- One emitted VM instruction: the writer calls of
`src/comptools/_writers/_vm.py`.  Index and argument-count fields hold
the text that the writer interpolates into the output line (the source
passes sometimes an `int` and sometimes a string, e.g. the raw token of
an integer constant). -/
inductive VMInstr where
  | push (segment index : String)
  | pop (segment index : String)
  | arith (command : String)
  | label (name : String)
  | goto (name : String)
  | ifGoto (name : String)
  | call (name nArgs : String)
  | func (name nVars : String)
  | ret
  deriving Repr, DecidableEq

/-- `VMWriter` (`src/comptools/_writers/_vm.py`): the output line
written for one instruction. -/
def renderInstr : VMInstr → String
  | .push seg idx => "push " ++ seg ++ " " ++ idx ++ "\n"
  | .pop seg idx => "pop " ++ seg ++ " " ++ idx ++ "\n"
  | .arith c => c ++ "\n"
  | .label l => "label " ++ l ++ "\n"
  | .goto l => "goto " ++ l ++ "\n"
  | .ifGoto l => "if-goto " ++ l ++ "\n"
  | .call nm n => "call " ++ nm ++ " " ++ n ++ "\n"
  | .func nm n => "function " ++ nm ++ " " ++ n ++ "\n"
  | .ret => "return\n"

/-- The bytes of the output file: the concatenation of the written
lines. -/
def render (out : List VMInstr) : String :=
  String.join (out.map renderInstr)

/-- A Python exception, as raised by the embedded code:
`JackError(err, info)` from `_raise_error` (with the flag recording
whether the previous token position was requested), `KeyError`,
`AttributeError` from accessing a missing attribute, and exhaustion of
the fuel of the embedding. -/
inductive PyExc where
  | jackError (err info : String) (prev : Bool)
  | keyError (msg : String)
  | attributeError (cls attr : String)
  | fuel
  deriving Repr, DecidableEq

/-- A symbol-table entry `{kind, type, index}`. -/
structure VarInfo where
  kind : String
  type_ : String
  index : Nat
  deriving Repr, DecidableEq

/-- Python dict assignment `m[k] = v`: overwrite an existing binding,
else add one. -/
def dictInsert (m : List (String × VarInfo)) (k : String) (v : VarInfo) :
    List (String × VarInfo) :=
  if (m.lookup k).isSome then
    m.map (fun p => if p.1 = k then (k, v) else p)
  else
    m ++ [(k, v)]

/-- The symbol-table operations the engine invokes on
`self._symboltable` (duck-typed attribute accesses). -/
structure TableOps (σ : Type) where
  fresh : σ
  startSubroutine : σ → σ
  define : σ → String → String → String → Except PyExc σ
  getVar : σ → String → Except PyExc (Option VarInfo)
  varCount : σ → String → Except PyExc Nat

/-! ### The `SymbolTable` class of `src/comptools/_symboltable.py` -/

/-- The state of a `SymbolTable` object (`_symboltable.py` lines 1-10):
two dicts and the `_var_count` dict with keys `static`, `field`,
`argument`, `var`. -/
structure SymbolTable where
  classTable : List (String × VarInfo)
  subroutineTable : List (String × VarInfo)
  countStatic : Nat
  countField : Nat
  countArgument : Nat
  countVar : Nat
  deriving Repr, DecidableEq

/-- `SymbolTable()` (lines 2-10). -/
def SymbolTable.fresh : SymbolTable := ⟨[], [], 0, 0, 0, 0⟩

/-- `SymbolTable.start_subroutine` (lines 12-15). -/
def SymbolTable.start_subroutine (t : SymbolTable) : SymbolTable :=
  { t with subroutineTable := [], countArgument := 0, countVar := 0 }

/-- `SymbolTable.define` (lines 17-32): `_CLASS_VAR` is
`{"static", "field"}` and `_SUBROUTINE_VAR` is `{"argument", "var"}`
(lines 50-51); any other kind raises
`KeyError(f"Invalid variable kind: {kind}.")`. -/
def SymbolTable.define (t : SymbolTable) (name type_ kind : String) :
    Except PyExc SymbolTable :=
  if kind = "static" then
    .ok { t with
          classTable := dictInsert t.classTable name ⟨kind, type_, t.countStatic⟩,
          countStatic := t.countStatic + 1 }
  else if kind = "field" then
    .ok { t with
          classTable := dictInsert t.classTable name ⟨kind, type_, t.countField⟩,
          countField := t.countField + 1 }
  else if kind = "argument" then
    .ok { t with
          subroutineTable := dictInsert t.subroutineTable name ⟨kind, type_, t.countArgument⟩,
          countArgument := t.countArgument + 1 }
  else if kind = "var" then
    .ok { t with
          subroutineTable := dictInsert t.subroutineTable name ⟨kind, type_, t.countVar⟩,
          countVar := t.countVar + 1 }
  else
    .error (.keyError ("Invalid variable kind: " ++ kind ++ "."))

/-- The operations the engine performs on the `SymbolTable` of
`src/comptools/_symboltable.py`.  That class defines no method
`get_var` and no attribute `var_count` (its counters live in the
private `_var_count` and are only reachable through `kind_of` /
`type_of` / `index_of`), so the engine's attribute accesses
`self._symboltable.get_var` (`engines/vm.py` lines 327 and 402) and
`self._symboltable.var_count` (lines 80 and 83) raise
`AttributeError`. -/
def staleOps : TableOps SymbolTable where
  fresh := SymbolTable.fresh
  startSubroutine := SymbolTable.start_subroutine
  define := SymbolTable.define
  getVar := fun _ _ => .error (.attributeError "SymbolTable" "get_var")
  varCount := fun _ _ => .error (.attributeError "SymbolTable" "var_count")

/-! ### The symbol table the engine expects -/

/-- Modelled from the spec: the symbol-table implementation that
`src/comptools/engines/vm.py` is written against — accepting the
normalized kinds `static`/`this`/`argument`/`local`, exposing `get_var`
and the `var_count` counters — is missing from `src` (the file present
at `src/comptools/_symboltable.py` is the stale draft above, and the
`compiler` package's `from _symboltable import SymbolTable` has no
module to resolve to).  Per spec section 4.2: `define` inserts
`{kind, type, index = counter[kind]}` into the class scope for
`static`/`this` and the subroutine scope for `argument`/`local` and
increments the counter, an unknown kind is a programmer error, lookup
consults the subroutine scope before the class scope, and
`start_subroutine` clears the subroutine table and zeroes the
`argument` and `local` counters. -/
structure SpecTable where
  classTable : List (String × VarInfo)
  subroutineTable : List (String × VarInfo)
  countStatic : Nat
  countThis : Nat
  countArgument : Nat
  countLocal : Nat
  deriving Repr, DecidableEq

def SpecTable.fresh : SpecTable := ⟨[], [], 0, 0, 0, 0⟩

def SpecTable.start_subroutine (t : SpecTable) : SpecTable :=
  { t with subroutineTable := [], countArgument := 0, countLocal := 0 }

def SpecTable.define (t : SpecTable) (name type_ kind : String) :
    Except PyExc SpecTable :=
  if kind = "static" then
    .ok { t with
          classTable := dictInsert t.classTable name ⟨kind, type_, t.countStatic⟩,
          countStatic := t.countStatic + 1 }
  else if kind = "this" then
    .ok { t with
          classTable := dictInsert t.classTable name ⟨kind, type_, t.countThis⟩,
          countThis := t.countThis + 1 }
  else if kind = "argument" then
    .ok { t with
          subroutineTable := dictInsert t.subroutineTable name ⟨kind, type_, t.countArgument⟩,
          countArgument := t.countArgument + 1 }
  else if kind = "local" then
    .ok { t with
          subroutineTable := dictInsert t.subroutineTable name ⟨kind, type_, t.countLocal⟩,
          countLocal := t.countLocal + 1 }
  else
    .error (.keyError ("Invalid variable kind: " ++ kind ++ "."))

def SpecTable.get_var (t : SpecTable) (name : String) : Option VarInfo :=
  match t.subroutineTable.lookup name with
  | some v => some v
  | none => t.classTable.lookup name

def SpecTable.count (t : SpecTable) (kind : String) : Except PyExc Nat :=
  if kind = "static" then .ok t.countStatic
  else if kind = "this" then .ok t.countThis
  else if kind = "argument" then .ok t.countArgument
  else if kind = "local" then .ok t.countLocal
  else .error (.keyError kind)

def specOps : TableOps SpecTable where
  fresh := SpecTable.fresh
  startSubroutine := SpecTable.start_subroutine
  define := SpecTable.define
  getVar := fun t n => .ok (SpecTable.get_var t n)
  varCount := SpecTable.count

/-! ### Engine state and monad -/

/-- The engine-visible state: the current token and the remaining
stream (the tokenizer abstraction), the branch counter, the symbol
table and the class name. -/
structure EngState (σ : Type) where
  cur : Option Token
  rest : List Token
  branch : Nat
  table : σ
  className : String
  deriving Repr, DecidableEq

/-- The engine computation monad: state, an output list of emitted
instructions, and Python exceptions. -/
def M (σ : Type) (α : Type) : Type :=
  EngState σ → Except PyExc (α × List VMInstr × EngState σ)

def M.pure {σ α : Type} (a : α) : M σ α := fun s => .ok (a, [], s)

def M.bind {σ α β : Type} (m : M σ α) (f : α → M σ β) : M σ β := fun s =>
  match m s with
  | .error e => .error e
  | .ok (a, o₁, s₁) =>
      match f a s₁ with
      | .error e => .error e
      | .ok (b, o₂, s₂) => .ok (b, o₁ ++ o₂, s₂)

instance : Monad (M σ) where
  pure := M.pure
  bind := M.bind

def M.throw {σ α : Type} (e : PyExc) : M σ α := fun _ => .error e

/-- A writer call: append one instruction to the output. -/
def emit {σ : Type} (i : VMInstr) : M σ Unit := fun s => .ok ((), [i], s)

/-- `self._tokenizer.advance()`: move to the next token; at end of
input the current token becomes `None` and `has_more_tokens` becomes
false. -/
def advanceT {σ : Type} : M σ Unit := fun s =>
  match s.rest with
  | [] => .ok ((), [], { s with cur := none })
  | t :: ts => .ok ((), [], { s with cur := some t, rest := ts })

/-- `self._tokenizer.token`; comparisons against `None` behave like
comparisons against a text no token can have, embedded by `""` (every
comparison in the engine is against a nonempty literal or a membership
test in a set of nonempty strings). -/
def curText {σ : Type} : M σ String := fun s =>
  .ok ((s.cur.map Token.text).getD "", [], s)

/-- `self._tokenizer.token_type`. -/
def curType {σ : Type} : M σ String := fun s =>
  .ok ((s.cur.map Token.ttype).getD "", [], s)

/-- `self._tokenizer.has_more_tokens`. -/
def hasMoreT {σ : Type} : M σ Bool := fun s => .ok (s.cur.isSome, [], s)

def getTable {σ : Type} : M σ σ := fun s => .ok (s.table, [], s)

def setTable {σ : Type} (t : σ) : M σ Unit := fun s =>
  .ok ((), [], { s with table := t })

def getClassName {σ : Type} : M σ String := fun s => .ok (s.className, [], s)

def setClassName {σ : Type} (c : String) : M σ Unit := fun s =>
  .ok ((), [], { s with className := c })

/-- `self._branch_count += 1`, returning the incremented value that the
label f-strings interpolate. -/
def incBranch {σ : Type} : M σ Nat := fun s =>
  .ok (s.branch + 1, [], { s with branch := s.branch + 1 })

/-- Run an effect-free computation (a symbol-table operation) that may
raise. -/
def liftE {σ α : Type} (x : Except PyExc α) : M σ α := fun s =>
  match x with
  | .error e => .error e
  | .ok a => .ok (a, [], s)

end Eng

namespace Eng

/-! ### Keyword sets (`engines/vm.py` lines 412-430, `_base.py`
lines 150-151) -/

def classVarDecKeywords : List String := ["static", "field"]

def subroutineDecKeywords : List String := ["constructor", "function", "method"]

def typeKeywords : List String := ["int", "char", "boolean"]

def subroutineTypeKeywords : List String := ["void", "int", "char", "boolean"]

def zeroConstants : List String := ["false", "null"]

def binaryOps : List String := ["+", "-", "*", "/", "&", "|", "<", ">", "="]

def termTokens : List String := ["(", "-", "~", "true", "false", "null", "this"]

def termTypes : List String := ["integerConstant", "stringConstant", "identifier"]

/-- `_BIN_OP_MAP[op]` (lines 420-428); a missing key would raise
`KeyError` as in Python. -/
def binOpCmd (op : String) : Except PyExc String :=
  if op = "+" then .ok "add"
  else if op = "-" then .ok "sub"
  else if op = "&" then .ok "and"
  else if op = "|" then .ok "or"
  else if op = "<" then .ok "lt"
  else if op = ">" then .ok "gt"
  else if op = "=" then .ok "eq"
  else .error (.keyError op)

/-! ### Assertion and checking helpers (`_base.py` lines 53-147,
`engines/vm.py` lines 355-409) -/

/-- `_raise_error(err, info, prev)` (`_base.py` lines 113-129). -/
def raiseErr {σ α : Type} (err info : String) (prev : Bool) : M σ α :=
  M.throw (.jackError err info prev)

/-- `_assert_has_more_tokens` (`_base.py` lines 53-59). -/
def assertHasMore {σ : Type} (prev : Bool) : M σ Unit := do
  let hm ← hasMoreT
  if hm then pure ()
  else raiseErr "EndOfFile" "class block left unclosed" prev

/-- `_assert_token(token, advance, prev)`
(`_base.py` lines 65-72 and `engines/vm.py` lines 355-358). -/
def assertToken {σ : Type} (token : String) (adv prev : Bool) : M σ Unit := do
  assertHasMore false
  let t ← curText
  if t = token then
    if adv then advanceT else pure ()
  else
    raiseErr "Syntax"
      ("expected \x27" ++ token ++ "\x27 but got \x27" ++ t ++ "\x27") prev

/-- `_assert_identifier` (`_base.py` lines 74-84,
`engines/vm.py` lines 360-363). -/
def assertIdentifier {σ : Type} (adv prev : Bool) : M σ Unit := do
  assertHasMore false
  let ty ← curType
  if ty = "identifier" then
    if adv then advanceT else pure ()
  else
    raiseErr "Syntax" ("expected an identifier but got a " ++ ty) prev

/-- `_assert_type` (`_base.py` lines 86-97,
`engines/vm.py` lines 365-368). -/
def assertType {σ : Type} (adv prev : Bool) : M σ Unit := do
  assertHasMore false
  let t ← curText
  let ty ← curType
  if typeKeywords.contains t || ty = "identifier" then
    if adv then advanceT else pure ()
  else
    raiseErr "Syntax"
      ("expected a type keyword (int/char/boolean/<class name>) but got \x27"
        ++ t ++ "\x27") prev

/-- `_assert_subroutine_type` (`_base.py` lines 99-110,
`engines/vm.py` lines 370-373). -/
def assertSubroutineType {σ : Type} (adv prev : Bool) : M σ Unit := do
  assertHasMore false
  let t ← curText
  let ty ← curType
  if subroutineTypeKeywords.contains t || ty = "identifier" then
    if adv then advanceT else pure ()
  else
    raiseErr "Syntax"
      ("expected a return type (void/int/char/boolean/<class name>) but got \x27"
        ++ t ++ "\x27") prev

/-- `_check_token(token, advance)` with a string argument
(`engines/vm.py` lines 376-385). -/
def checkTokenStr {σ : Type} (token : String) (adv : Bool) : M σ Bool := do
  let t ← curText
  if t = token then do
    if adv then advanceT else pure ()
    pure true
  else pure false

/-- `_check_token(token, advance)` with a set argument. -/
def checkTokenMem {σ : Type} (tokens : List String) (adv : Bool) : M σ Bool := do
  let t ← curText
  if tokens.contains t then do
    if adv then advanceT else pure ()
    pure true
  else pure false

/-- `_get_assert()` with no assertion (`engines/vm.py` lines 393-399):
read the token, advance, return the token. -/
def getAssertPlain {σ : Type} : M σ String := do
  let v ← curText
  advanceT
  pure v

/-- `_get_assert(assertion, prev)`: the token is read before the
assertion runs (and the assertion advances). -/
def getAssertWith {σ : Type} (assertion : M σ Unit) : M σ String := do
  let v ← curText
  assertion
  pure v

/-- `_get_var(name, prev)` (`engines/vm.py` lines 401-409). -/
def getVarE {σ : Type} (ops : TableOps σ) (name : String) (prev : Bool) :
    M σ VarInfo := do
  let t ← getTable
  let v ← liftE (ops.getVar t name)
  match v with
  | none =>
      raiseErr "Variable"
        ("Variable \x27" ++ name ++ "\x27 has not been declared.") prev
  | some var => pure var

/-- `_define(type_, kind)` with the default `name=None`
(`engines/vm.py` lines 388-391). -/
def defineVar {σ : Type} (ops : TableOps σ) (type_ kind : String) :
    M σ Unit := do
  let name ← getAssertWith (assertIdentifier true false)
  let t ← getTable
  let t' ← liftE (ops.define t name type_ kind)
  setTable t'

/-- The `for c in string` loop of the string-constant branch of
`_compile_term` (`engines/vm.py` lines 268-270): `ord(c)` is the code
point of `c`, and `String.appendChar` is called with two arguments. -/
def emitStringChars {σ : Type} : List Char → M σ Unit
  | [] => pure ()
  | c :: cs => do
      emit (.push "constant" (natStr c.toNat))
      emit (.call "String.appendChar" (natStr 2))
      emitStringChars cs

/-! ### The recursive-descent compiler (`engines/vm.py` lines 25-352)

Each `while` loop of the source is embedded as a recursive function;
the fuel argument bounds the recursion depth and loop iterations, with
exhaustion reported as the distinguished `PyExc.fuel` outcome (a real
run of the Python code corresponds to a sufficiently large fuel). -/

/-- The recursive-descent compiler of `engines/vm.py`, one field per
compiled production or source `while` loop, at one recursion depth. -/
structure Engine (σ : Type) where
  compileClass : M σ Unit
  compileClassVarDec : M σ Unit
  commaDefineLoop : String → String → M σ Unit
  compileSubroutine : M σ Unit
  compileSubroutineBody : M σ Unit
  compileParameterList : M σ Unit
  paramCommaLoop : M σ Unit
  compileVarDec : M σ Unit
  compileStatements : M σ Unit
  compileLet : M σ Unit
  compileIf : M σ Unit
  compileWhile : M σ Unit
  compileDo : M σ Unit
  compileReturn : M σ Unit
  compileExpression : M σ Unit
  exprOpLoop : M σ Unit
  compileTerm : M σ Unit
  compileExpressionList : M σ Nat
  exprListCommaLoop : M σ Nat
  compileSubroutineCall : String → Bool → M σ Bool

/-- Depth zero: fuel of the embedding exhausted. -/
def engineZero {σ : Type} : Engine σ where
  compileClass := M.throw .fuel
  compileClassVarDec := M.throw .fuel
  commaDefineLoop := fun _ _ => M.throw .fuel
  compileSubroutine := M.throw .fuel
  compileSubroutineBody := M.throw .fuel
  compileParameterList := M.throw .fuel
  paramCommaLoop := M.throw .fuel
  compileVarDec := M.throw .fuel
  compileStatements := M.throw .fuel
  compileLet := M.throw .fuel
  compileIf := M.throw .fuel
  compileWhile := M.throw .fuel
  compileDo := M.throw .fuel
  compileReturn := M.throw .fuel
  compileExpression := M.throw .fuel
  exprOpLoop := M.throw .fuel
  compileTerm := M.throw .fuel
  compileExpressionList := M.throw .fuel
  exprListCommaLoop := M.throw .fuel
  compileSubroutineCall := fun _ _ => M.throw .fuel

/-- `_compile_class` (lines 25-41). -/
def compileClassStep {σ : Type} (ops : TableOps σ) (prev : Engine σ) : M σ Unit :=
 do
  setTable ops.fresh
  assertToken "class" true false
  let cn ← getAssertWith (assertIdentifier true false)
  setClassName cn
  assertToken "\x7b" true false
  prev.compileClassVarDec
  prev.compileSubroutine
  assertToken "\x7d" true false
  let hm ← hasMoreT
  if hm then
    raiseErr "Class" "All code should be within a single class block." false
  else pure ()

/-- The `while` loop of `_compile_class_var_dec` (lines 48-56). -/
def compileClassVarDecStep {σ : Type} (ops : TableOps σ) (prev : Engine σ) : M σ Unit :=
 do
  let t ← curText
  if classVarDecKeywords.contains t then do
    let kind ← getAssertPlain
    let kind := if kind = "field" then "this" else kind
    let type_ ← getAssertWith (assertType true false)
    defineVar ops type_ kind
    prev.commaDefineLoop type_ kind
    assertToken ";" true false
    prev.compileClassVarDec
  else pure ()

/-- The `while self._check_token(",")` loops of
`_compile_class_var_dec` (lines 54-55) and `_compile_var_dec`
(lines 114-115): define one more variable of the same type and kind per
comma. -/
def commaDefineLoopStep {σ : Type} (ops : TableOps σ) (prev : Engine σ) (type_ kind : String) : M σ Unit :=
 do
  let b ← checkTokenStr "," true
  if b then do
    defineVar ops type_ kind
    prev.commaDefineLoop type_ kind
  else pure ()

/-- The `while` loop of `_compile_subroutine` (line 64). -/
def compileSubroutineStep {σ : Type} (ops : TableOps σ) (prev : Engine σ) : M σ Unit :=
 do
  let t ← curText
  if subroutineDecKeywords.contains t then do
    prev.compileSubroutineBody
    prev.compileSubroutine
  else pure ()

/-- The body of the `while` loop of `_compile_subroutine`
(lines 65-90): one subroutine declaration. -/
def compileSubroutineBodyStep {σ : Type} (ops : TableOps σ) (prev : Engine σ) : M σ Unit :=
 do
  let t0 ← getTable
  setTable (ops.startSubroutine t0)
  let kind ← getAssertPlain
  let _type ← getAssertWith (assertSubroutineType true false)
  let nm ← getAssertWith (assertIdentifier true false)
  let cls ← getClassName
  let name := cls ++ "." ++ nm
  if kind = "method" then do
    let t ← getTable
    let t' ← liftE (ops.define t "this" cls "argument")
    setTable t'
  else pure ()
  assertToken "(" true false
  prev.compileParameterList
  assertToken ")" true false
  assertToken "\x7b" true false
  prev.compileVarDec
  let t ← getTable
  let nloc ← liftE (ops.varCount t "local")
  emit (.func name (natStr nloc))
  if kind = "constructor" then do
    let t ← getTable
    let nf ← liftE (ops.varCount t "this")
    emit (.push "constant" (natStr nf))
    emit (.call "Memory.alloc" (natStr 1))
    emit (.pop "pointer" (natStr 0))
  else if kind = "method" then do
    emit (.push "argument" (natStr 0))
    emit (.pop "pointer" (natStr 0))
  else pure ()
  prev.compileStatements
  assertToken "\x7d" true false

/-- `_compile_parameter_list` (lines 92-104). -/
def compileParameterListStep {σ : Type} (ops : TableOps σ) (prev : Engine σ) : M σ Unit :=
 do
  let t ← curText
  let ty ← curType
  if typeKeywords.contains t || ty = "identifier" then do
    let type_ ← getAssertPlain
    defineVar ops type_ "argument"
    prev.paramCommaLoop
  else pure ()

/-- The `while self._check_token(",")` loop of
`_compile_parameter_list` (lines 102-104). -/
def paramCommaLoopStep {σ : Type} (ops : TableOps σ) (prev : Engine σ) : M σ Unit :=
 do
  let b ← checkTokenStr "," true
  if b then do
    let type_ ← getAssertPlain
    defineVar ops type_ "argument"
    prev.paramCommaLoop
  else pure ()

/-- The `while self._check_token("var")` loop of `_compile_var_dec`
(lines 106-116). -/
def compileVarDecStep {σ : Type} (ops : TableOps σ) (prev : Engine σ) : M σ Unit :=
 do
  let b ← checkTokenStr "var" true
  if b then do
    let type_ ← getAssertWith (assertType true false)
    defineVar ops type_ "local"
    prev.commaDefineLoop type_ "local"
    assertToken ";" true false
    prev.compileVarDec
  else pure ()

/-- `_compile_statements` (lines 118-135). -/
def compileStatementsStep {σ : Type} (ops : TableOps σ) (prev : Engine σ) : M σ Unit :=
 do
  let bLet ← checkTokenStr "let" true
  if bLet then do
    prev.compileLet
    prev.compileStatements
  else do
    let bIf ← checkTokenStr "if" true
    if bIf then do
      prev.compileIf
      prev.compileStatements
    else do
      let bWhile ← checkTokenStr "while" true
      if bWhile then do
        prev.compileWhile
        prev.compileStatements
      else do
        let bDo ← checkTokenStr "do" true
        if bDo then do
          prev.compileDo
          prev.compileStatements
        else do
          let bRet ← checkTokenStr "return" true
          if bRet then do
            prev.compileReturn
            prev.compileStatements
          else pure ()

/-- `_compile_let` (lines 137-160). -/
def compileLetStep {σ : Type} (ops : TableOps σ) (prev : Engine σ) : M σ Unit :=
 do
  let name ← getAssertWith (assertIdentifier true false)
  let var ← getVarE ops name true
  let isArr ← checkTokenStr "[" true
  if isArr then do
    emit (.push var.kind (natStr var.index))
    prev.compileExpression
    emit (.arith "add")
    assertToken "]" true false
  else pure ()
  assertToken "=" true false
  prev.compileExpression
  if isArr then do
    emit (.pop "temp" (natStr 0))
    emit (.pop "pointer" (natStr 1))
    emit (.push "temp" (natStr 0))
    emit (.pop "that" (natStr 0))
  else
    emit (.pop var.kind (natStr var.index))
  assertToken ";" true false

/-- `_compile_if` (lines 162-185): the labels interpolate the branch
counter value just after the increment. -/
def compileIfStep {σ : Type} (ops : TableOps σ) (prev : Engine σ) : M σ Unit :=
 do
  let k ← incBranch
  assertToken "(" true false
  prev.compileExpression
  assertToken ")" true false
  emit (.arith "not")
  emit (.ifGoto (elseLabel k))
  assertToken "\x7b" true false
  prev.compileStatements
  assertToken "\x7d" true false
  emit (.goto (endLabel k))
  emit (.label (elseLabel k))
  let b ← checkTokenStr "else" true
  if b then do
    assertToken "\x7b" true false
    prev.compileStatements
    assertToken "\x7d" true false
  else pure ()
  emit (.label (endLabel k))

/-- `_compile_while` (lines 187-205). -/
def compileWhileStep {σ : Type} (ops : TableOps σ) (prev : Engine σ) : M σ Unit :=
 do
  let k ← incBranch
  emit (.label (loopLabel k))
  assertToken "(" true false
  prev.compileExpression
  assertToken ")" true false
  emit (.arith "not")
  emit (.ifGoto (breakLabel k))
  assertToken "\x7b" true false
  prev.compileStatements
  assertToken "\x7d" true false
  emit (.goto (loopLabel k))
  emit (.label (breakLabel k))

/-- `_compile_do` (lines 207-218). -/
def compileDoStep {σ : Type} (ops : TableOps σ) (prev : Engine σ) : M σ Unit :=
 do
  let name ← getAssertWith (assertIdentifier true false)
  let _r ← prev.compileSubroutineCall name true
  emit (.pop "temp" (natStr 0))
  assertToken ";" true false

/-- `_compile_return` (lines 220-231); the source tests
`token != ";"`, so the branches appear here in the other order. -/
def compileReturnStep {σ : Type} (ops : TableOps σ) (prev : Engine σ) : M σ Unit :=
 do
  let t ← curText
  if t = ";" then do
    emit (.push "constant" (natStr 0))
    emit .ret
  else do
    prev.compileExpression
    emit .ret
  assertToken ";" true false

/-- `_compile_expression` (lines 233-247). -/
def compileExpressionStep {σ : Type} (ops : TableOps σ) (prev : Engine σ) : M σ Unit :=
 do
  prev.compileTerm
  prev.exprOpLoop

/-- The `while self._check_token(_OPS, advance=False)` loop of
`_compile_expression` (lines 239-247). -/
def exprOpLoopStep {σ : Type} (ops : TableOps σ) (prev : Engine σ) : M σ Unit :=
 do
  let b ← checkTokenMem binaryOps false
  if b then do
    let op ← getAssertPlain
    prev.compileTerm
    if op = "*" then
      emit (.call "Math.multiply" (natStr 2))
    else if op = "/" then
      emit (.call "Math.divide" (natStr 2))
    else do
      let cmd ← liftE (binOpCmd op)
      emit (.arith cmd)
    prev.exprOpLoop
  else pure ()

/-- `_compile_term` (lines 249-302). -/
def compileTermStep {σ : Type} (ops : TableOps σ) (prev : Engine σ) : M σ Unit :=
 do
  let ty ← curType
  if ty = "integerConstant" then do
    let t ← curText
    emit (.push "constant" t)
    advanceT
  else if ty = "stringConstant" then do
    let str ← getAssertPlain
    emit (.push "constant" (natStr str.length))
    emit (.call "String.new" (natStr 1))
    emitStringChars str.data
  else do
    let bTrue ← checkTokenStr "true" true
    if bTrue then do
      emit (.push "constant" (natStr 0))
      emit (.arith "not")
    else do
      let bZero ← checkTokenMem zeroConstants true
      if bZero then
        emit (.push "constant" (natStr 0))
      else do
        let bThis ← checkTokenStr "this" true
        if bThis then
          emit (.push "pointer" (natStr 0))
        else if ty = "identifier" then do
          let name ← getAssertPlain
          let r ← prev.compileSubroutineCall name false
          if r then pure ()
          else do
            let bBracket ← checkTokenStr "[" false
            if bBracket then do
              let arr ← getVarE ops name true
              advanceT
              emit (.push arr.kind (natStr arr.index))
              prev.compileExpression
              emit (.arith "add")
              emit (.pop "pointer" (natStr 1))
              emit (.push "that" (natStr 0))
              assertToken "]" true false
            else do
              let var ← getVarE ops name true
              emit (.push var.kind (natStr var.index))
        else do
          let bParen ← checkTokenStr "(" true
          if bParen then do
            prev.compileExpression
            assertToken ")" true false
          else do
            let bNeg ← checkTokenStr "-" true
            if bNeg then do
              prev.compileTerm
              emit (.arith "neg")
            else do
              let bNot ← checkTokenStr "~" true
              if bNot then do
                prev.compileTerm
                emit (.arith "not")
              else pure ()

/-- `_compile_expression_list` (lines 304-317): returns the number of
expressions compiled. -/
def compileExpressionListStep {σ : Type} (ops : TableOps σ) (prev : Engine σ) : M σ Nat :=
 do
  let t ← curText
  let ty ← curType
  if termTokens.contains t || termTypes.contains ty then do
    prev.compileExpression
    let n ← prev.exprListCommaLoop
    pure (n + 1)
  else pure 0

/-- The `while self._check_token(",")` loop of
`_compile_expression_list` (lines 314-316). -/
def exprListCommaLoopStep {σ : Type} (ops : TableOps σ) (prev : Engine σ) : M σ Nat :=
 do
  let b ← checkTokenStr "," true
  if b then do
    prev.compileExpression
    let n ← prev.exprListCommaLoop
    pure (n + 1)
  else pure 0

/-- `_compile_subroutine_call(name, assertion)` (lines 319-352). -/
def compileSubroutineCallStep {σ : Type} (ops : TableOps σ) (prev : Engine σ) (name : String) (assertion : Bool) : M σ Bool :=
 do
  let hasDot ← checkTokenStr "." true
  let r ←
    if hasDot then do
      let sub ← getAssertWith (assertIdentifier true false)
      let t ← getTable
      let v ← liftE (ops.getVar t name)
      match v with
      | none => pure (name ++ "." ++ sub, 0, false)
      | some var => do
          emit (.push var.kind (natStr var.index))
          pure (var.type_ ++ "." ++ sub, 1, false)
    else pure (name, 0, true)
  let name2 := r.1
  let nArgs0 := r.2.1
  let localMethod := r.2.2
  let hasParen ← checkTokenStr "(" false
  if hasParen then do
    let r2 ←
      if localMethod then do
        let cls ← getClassName
        emit (.push "pointer" (natStr 0))
        pure (cls ++ "." ++ name2, 1)
      else pure (name2, nArgs0)
    advanceT
    let nExprs ← prev.compileExpressionList
    assertToken ")" true false
    emit (.call r2.1 (natStr (r2.2 + nExprs)))
    pure true
  else if assertion then
    raiseErr "Subroutine Error" "Expected subroutine call" false
  else pure false

/-- One more level of recursion: each field runs its body, making
recursive calls through the previous level `prev` (the fuel bounds the
recursion depth; a real run of the Python code corresponds to any
sufficiently large fuel). -/
def engine {σ : Type} (ops : TableOps σ) : Nat → Engine σ
  | 0 => engineZero
  | fuel + 1 =>
      let prev := engine ops fuel
      { compileClass := compileClassStep ops prev,
        compileClassVarDec := compileClassVarDecStep ops prev,
        commaDefineLoop := fun type_ kind => commaDefineLoopStep ops prev type_ kind,
        compileSubroutine := compileSubroutineStep ops prev,
        compileSubroutineBody := compileSubroutineBodyStep ops prev,
        compileParameterList := compileParameterListStep ops prev,
        paramCommaLoop := paramCommaLoopStep ops prev,
        compileVarDec := compileVarDecStep ops prev,
        compileStatements := compileStatementsStep ops prev,
        compileLet := compileLetStep ops prev,
        compileIf := compileIfStep ops prev,
        compileWhile := compileWhileStep ops prev,
        compileDo := compileDoStep ops prev,
        compileReturn := compileReturnStep ops prev,
        compileExpression := compileExpressionStep ops prev,
        exprOpLoop := exprOpLoopStep ops prev,
        compileTerm := compileTermStep ops prev,
        compileExpressionList := compileExpressionListStep ops prev,
        exprListCommaLoop := exprListCommaLoopStep ops prev,
        compileSubroutineCall := fun name assertion => compileSubroutineCallStep ops prev name assertion }

/-- `_compile_class` (lines 25-41). (projection of `engine`). -/
def compileClass {σ : Type} (ops : TableOps σ) (fuel : Nat) : M σ Unit :=
  (engine ops fuel).compileClass

/-- The `while` loop of `_compile_class_var_dec` (lines 48-56). (projection of `engine`). -/
def compileClassVarDec {σ : Type} (ops : TableOps σ) (fuel : Nat) : M σ Unit :=
  (engine ops fuel).compileClassVarDec

/-- The `while self._check_token(",")` loops of
`_compile_class_var_dec` (lines 54-55) and `_compile_var_dec`
(lines 114-115): define one more variable of the same type and kind per
comma. (projection of `engine`). -/
def commaDefineLoop {σ : Type} (ops : TableOps σ) (type_ kind : String) (fuel : Nat) : M σ Unit :=
  (engine ops fuel).commaDefineLoop type_ kind

/-- The `while` loop of `_compile_subroutine` (line 64). (projection of `engine`). -/
def compileSubroutine {σ : Type} (ops : TableOps σ) (fuel : Nat) : M σ Unit :=
  (engine ops fuel).compileSubroutine

/-- The body of the `while` loop of `_compile_subroutine`
(lines 65-90): one subroutine declaration. (projection of `engine`). -/
def compileSubroutineBody {σ : Type} (ops : TableOps σ) (fuel : Nat) : M σ Unit :=
  (engine ops fuel).compileSubroutineBody

/-- `_compile_parameter_list` (lines 92-104). (projection of `engine`). -/
def compileParameterList {σ : Type} (ops : TableOps σ) (fuel : Nat) : M σ Unit :=
  (engine ops fuel).compileParameterList

/-- The `while self._check_token(",")` loop of
`_compile_parameter_list` (lines 102-104). (projection of `engine`). -/
def paramCommaLoop {σ : Type} (ops : TableOps σ) (fuel : Nat) : M σ Unit :=
  (engine ops fuel).paramCommaLoop

/-- The `while self._check_token("var")` loop of `_compile_var_dec`
(lines 106-116). (projection of `engine`). -/
def compileVarDec {σ : Type} (ops : TableOps σ) (fuel : Nat) : M σ Unit :=
  (engine ops fuel).compileVarDec

/-- `_compile_statements` (lines 118-135). (projection of `engine`). -/
def compileStatements {σ : Type} (ops : TableOps σ) (fuel : Nat) : M σ Unit :=
  (engine ops fuel).compileStatements

/-- `_compile_let` (lines 137-160). (projection of `engine`). -/
def compileLet {σ : Type} (ops : TableOps σ) (fuel : Nat) : M σ Unit :=
  (engine ops fuel).compileLet

/-- `_compile_if` (lines 162-185): the labels interpolate the branch
counter value just after the increment. (projection of `engine`). -/
def compileIf {σ : Type} (ops : TableOps σ) (fuel : Nat) : M σ Unit :=
  (engine ops fuel).compileIf

/-- `_compile_while` (lines 187-205). (projection of `engine`). -/
def compileWhile {σ : Type} (ops : TableOps σ) (fuel : Nat) : M σ Unit :=
  (engine ops fuel).compileWhile

/-- `_compile_do` (lines 207-218). (projection of `engine`). -/
def compileDo {σ : Type} (ops : TableOps σ) (fuel : Nat) : M σ Unit :=
  (engine ops fuel).compileDo

/-- `_compile_return` (lines 220-231); the source tests
`token != ";"`, so the branches appear here in the other order. (projection of `engine`). -/
def compileReturn {σ : Type} (ops : TableOps σ) (fuel : Nat) : M σ Unit :=
  (engine ops fuel).compileReturn

/-- `_compile_expression` (lines 233-247). (projection of `engine`). -/
def compileExpression {σ : Type} (ops : TableOps σ) (fuel : Nat) : M σ Unit :=
  (engine ops fuel).compileExpression

/-- The `while self._check_token(_OPS, advance=False)` loop of
`_compile_expression` (lines 239-247). (projection of `engine`). -/
def exprOpLoop {σ : Type} (ops : TableOps σ) (fuel : Nat) : M σ Unit :=
  (engine ops fuel).exprOpLoop

/-- `_compile_term` (lines 249-302). (projection of `engine`). -/
def compileTerm {σ : Type} (ops : TableOps σ) (fuel : Nat) : M σ Unit :=
  (engine ops fuel).compileTerm

/-- `_compile_expression_list` (lines 304-317): returns the number of
expressions compiled. (projection of `engine`). -/
def compileExpressionList {σ : Type} (ops : TableOps σ) (fuel : Nat) : M σ Nat :=
  (engine ops fuel).compileExpressionList

/-- The `while self._check_token(",")` loop of
`_compile_expression_list` (lines 314-316). (projection of `engine`). -/
def exprListCommaLoop {σ : Type} (ops : TableOps σ) (fuel : Nat) : M σ Nat :=
  (engine ops fuel).exprListCommaLoop

/-- `_compile_subroutine_call(name, assertion)` (lines 319-352). (projection of `engine`). -/
def compileSubroutineCall {σ : Type} (ops : TableOps σ) (name : String) (assertion : Bool) (fuel : Nat) : M σ Bool :=
  (engine ops fuel).compileSubroutineCall name assertion

@[simp] theorem engine_compileClass {σ : Type} (ops : TableOps σ) (fuel : Nat) :
    (engine ops fuel).compileClass = compileClass ops fuel := rfl

@[simp] theorem engine_compileClassVarDec {σ : Type} (ops : TableOps σ) (fuel : Nat) :
    (engine ops fuel).compileClassVarDec = compileClassVarDec ops fuel := rfl

@[simp] theorem engine_commaDefineLoop {σ : Type} (ops : TableOps σ) (fuel : Nat) :
    (engine ops fuel).commaDefineLoop = fun type_ kind => commaDefineLoop ops type_ kind fuel := rfl

@[simp] theorem engine_compileSubroutine {σ : Type} (ops : TableOps σ) (fuel : Nat) :
    (engine ops fuel).compileSubroutine = compileSubroutine ops fuel := rfl

@[simp] theorem engine_compileSubroutineBody {σ : Type} (ops : TableOps σ) (fuel : Nat) :
    (engine ops fuel).compileSubroutineBody = compileSubroutineBody ops fuel := rfl

@[simp] theorem engine_compileParameterList {σ : Type} (ops : TableOps σ) (fuel : Nat) :
    (engine ops fuel).compileParameterList = compileParameterList ops fuel := rfl

@[simp] theorem engine_paramCommaLoop {σ : Type} (ops : TableOps σ) (fuel : Nat) :
    (engine ops fuel).paramCommaLoop = paramCommaLoop ops fuel := rfl

@[simp] theorem engine_compileVarDec {σ : Type} (ops : TableOps σ) (fuel : Nat) :
    (engine ops fuel).compileVarDec = compileVarDec ops fuel := rfl

@[simp] theorem engine_compileStatements {σ : Type} (ops : TableOps σ) (fuel : Nat) :
    (engine ops fuel).compileStatements = compileStatements ops fuel := rfl

@[simp] theorem engine_compileLet {σ : Type} (ops : TableOps σ) (fuel : Nat) :
    (engine ops fuel).compileLet = compileLet ops fuel := rfl

@[simp] theorem engine_compileIf {σ : Type} (ops : TableOps σ) (fuel : Nat) :
    (engine ops fuel).compileIf = compileIf ops fuel := rfl

@[simp] theorem engine_compileWhile {σ : Type} (ops : TableOps σ) (fuel : Nat) :
    (engine ops fuel).compileWhile = compileWhile ops fuel := rfl

@[simp] theorem engine_compileDo {σ : Type} (ops : TableOps σ) (fuel : Nat) :
    (engine ops fuel).compileDo = compileDo ops fuel := rfl

@[simp] theorem engine_compileReturn {σ : Type} (ops : TableOps σ) (fuel : Nat) :
    (engine ops fuel).compileReturn = compileReturn ops fuel := rfl

@[simp] theorem engine_compileExpression {σ : Type} (ops : TableOps σ) (fuel : Nat) :
    (engine ops fuel).compileExpression = compileExpression ops fuel := rfl

@[simp] theorem engine_exprOpLoop {σ : Type} (ops : TableOps σ) (fuel : Nat) :
    (engine ops fuel).exprOpLoop = exprOpLoop ops fuel := rfl

@[simp] theorem engine_compileTerm {σ : Type} (ops : TableOps σ) (fuel : Nat) :
    (engine ops fuel).compileTerm = compileTerm ops fuel := rfl

@[simp] theorem engine_compileExpressionList {σ : Type} (ops : TableOps σ) (fuel : Nat) :
    (engine ops fuel).compileExpressionList = compileExpressionList ops fuel := rfl

@[simp] theorem engine_exprListCommaLoop {σ : Type} (ops : TableOps σ) (fuel : Nat) :
    (engine ops fuel).exprListCommaLoop = exprListCommaLoop ops fuel := rfl

@[simp] theorem engine_compileSubroutineCall {σ : Type} (ops : TableOps σ) (fuel : Nat) :
    (engine ops fuel).compileSubroutineCall = fun name assertion => compileSubroutineCall ops name assertion fuel := rfl

theorem compileClass_succ {σ : Type} (ops : TableOps σ) (fuel : Nat) :
    compileClass ops (fuel + 1) = compileClassStep ops (engine ops fuel) := rfl

theorem compileClassVarDec_succ {σ : Type} (ops : TableOps σ) (fuel : Nat) :
    compileClassVarDec ops (fuel + 1) = compileClassVarDecStep ops (engine ops fuel) := rfl

theorem commaDefineLoop_succ {σ : Type} (ops : TableOps σ) (type_ kind : String) (fuel : Nat) :
    commaDefineLoop ops type_ kind (fuel + 1) = commaDefineLoopStep ops (engine ops fuel) type_ kind := rfl

theorem compileSubroutine_succ {σ : Type} (ops : TableOps σ) (fuel : Nat) :
    compileSubroutine ops (fuel + 1) = compileSubroutineStep ops (engine ops fuel) := rfl

theorem compileSubroutineBody_succ {σ : Type} (ops : TableOps σ) (fuel : Nat) :
    compileSubroutineBody ops (fuel + 1) = compileSubroutineBodyStep ops (engine ops fuel) := rfl

theorem compileParameterList_succ {σ : Type} (ops : TableOps σ) (fuel : Nat) :
    compileParameterList ops (fuel + 1) = compileParameterListStep ops (engine ops fuel) := rfl

theorem paramCommaLoop_succ {σ : Type} (ops : TableOps σ) (fuel : Nat) :
    paramCommaLoop ops (fuel + 1) = paramCommaLoopStep ops (engine ops fuel) := rfl

theorem compileVarDec_succ {σ : Type} (ops : TableOps σ) (fuel : Nat) :
    compileVarDec ops (fuel + 1) = compileVarDecStep ops (engine ops fuel) := rfl

theorem compileStatements_succ {σ : Type} (ops : TableOps σ) (fuel : Nat) :
    compileStatements ops (fuel + 1) = compileStatementsStep ops (engine ops fuel) := rfl

theorem compileLet_succ {σ : Type} (ops : TableOps σ) (fuel : Nat) :
    compileLet ops (fuel + 1) = compileLetStep ops (engine ops fuel) := rfl

theorem compileIf_succ {σ : Type} (ops : TableOps σ) (fuel : Nat) :
    compileIf ops (fuel + 1) = compileIfStep ops (engine ops fuel) := rfl

theorem compileWhile_succ {σ : Type} (ops : TableOps σ) (fuel : Nat) :
    compileWhile ops (fuel + 1) = compileWhileStep ops (engine ops fuel) := rfl

theorem compileDo_succ {σ : Type} (ops : TableOps σ) (fuel : Nat) :
    compileDo ops (fuel + 1) = compileDoStep ops (engine ops fuel) := rfl

theorem compileReturn_succ {σ : Type} (ops : TableOps σ) (fuel : Nat) :
    compileReturn ops (fuel + 1) = compileReturnStep ops (engine ops fuel) := rfl

theorem compileExpression_succ {σ : Type} (ops : TableOps σ) (fuel : Nat) :
    compileExpression ops (fuel + 1) = compileExpressionStep ops (engine ops fuel) := rfl

theorem exprOpLoop_succ {σ : Type} (ops : TableOps σ) (fuel : Nat) :
    exprOpLoop ops (fuel + 1) = exprOpLoopStep ops (engine ops fuel) := rfl

theorem compileTerm_succ {σ : Type} (ops : TableOps σ) (fuel : Nat) :
    compileTerm ops (fuel + 1) = compileTermStep ops (engine ops fuel) := rfl

theorem compileExpressionList_succ {σ : Type} (ops : TableOps σ) (fuel : Nat) :
    compileExpressionList ops (fuel + 1) = compileExpressionListStep ops (engine ops fuel) := rfl

theorem exprListCommaLoop_succ {σ : Type} (ops : TableOps σ) (fuel : Nat) :
    exprListCommaLoop ops (fuel + 1) = exprListCommaLoopStep ops (engine ops fuel) := rfl

theorem compileSubroutineCall_succ {σ : Type} (ops : TableOps σ) (name : String) (assertion : Bool) (fuel : Nat) :
    compileSubroutineCall ops name assertion (fuel + 1) = compileSubroutineCallStep ops (engine ops fuel) name assertion := rfl


end Eng

namespace Eng

/-- Outcome of `CompilationEngine.run` (`_base.py` lines 11-47) for one
file: on success the output file holds the emitted instructions and the
engine object survives with its branch counter (`run` and
`_compile_class` never reset `self._branch_count`; only `__init__`
sets it, `engines/vm.py` line 21); a raised `JackError` is caught,
`run` returns failure and `os.remove` deletes the output file; any
other exception propagates out of `run` uncaught, so the output file is
NOT removed. -/
inductive RunResult where
  | success (out : List VMInstr) (branch : Nat)
  | failedRemoved (err info : String) (prev : Bool)
  | crashed (e : PyExc)
  deriving Repr, DecidableEq

/-- `run(class_name)` (`_base.py` lines 11-47) over a token stream: the
first `advance`, the `has_more_tokens` guard, `_compile_class`, the
trailing code-outside-class check, and the success / remove / propagate
paths.  The initial table slot mirrors `self._symboltable = None`
being overwritten at the start of `_compile_class`; the branch counter
is whatever the engine object currently holds. -/
def runVM {σ : Type} (ops : TableOps σ) (fuel : Nat) (toks : List Token)
    (branch : Nat) : RunResult :=
  match toks with
  | [] => .success [] branch
  | t :: ts =>
      match compileClass ops fuel
          { cur := some t, rest := ts, branch := branch,
            table := ops.fresh, className := "" } with
      | .ok (_, out, s') =>
          if s'.cur.isSome then
            .failedRemoved "Syntax" "all code should be within a single class block" false
          else
            .success out s'.branch
      | .error (.jackError err info prev) => .failedRemoved err info prev
      | .error e => .crashed e

end Eng

namespace Eng

/-! ### Reasoning machinery for the engine monad -/

theorem run_bind {σ α β : Type} (m : M σ α) (f : α → M σ β) (s : EngState σ) :
    (m >>= f) s =
      match m s with
      | .error e => .error e
      | .ok (a, o₁, s₁) =>
          match f a s₁ with
          | .error e => .error e
          | .ok (b, o₂, s₂) => .ok (b, o₁ ++ o₂, s₂) := rfl

theorem run_pure {σ α : Type} (a : α) (s : EngState σ) :
    (pure a : M σ α) s = .ok (a, [], s) := rfl

/-- Decomposition of a successful bind. -/
theorem bind_eq_ok {σ α β : Type} {m : M σ α} {f : α → M σ β}
    {s s₂ : EngState σ} {b : β} {o : List VMInstr} :
    (m >>= f) s = .ok (b, o, s₂) ↔
      ∃ a o₁ s₁ o₂, m s = .ok (a, o₁, s₁) ∧ f a s₁ = .ok (b, o₂, s₂)
        ∧ o = o₁ ++ o₂ := by
  show M.bind m f s = _ ↔ _
  unfold M.bind
  constructor
  · intro hok
    cases h : m s with
    | error e =>
        rw [h] at hok
        simp at hok
    | ok x =>
        obtain ⟨a, o₁, s₁⟩ := x
        rw [h] at hok
        dsimp only at hok
        cases h2 : f a s₁ with
        | error e =>
            rw [h2] at hok
            simp at hok
        | ok y =>
            obtain ⟨b', o₂, s₂'⟩ := y
            rw [h2] at hok
            dsimp only at hok
            simp only [Except.ok.injEq, Prod.mk.injEq] at hok
            obtain ⟨hb, ho, hs⟩ := hok
            subst hb; subst hs
            exact ⟨a, o₁, s₁, o₂, rfl, h2, ho.symm⟩
  · rintro ⟨a, o₁, s₁, o₂, ha, hf, rfl⟩
    rw [ha]
    simp [hf]

theorem pure_eq_ok {σ α : Type} {a b : α} {s s' : EngState σ} {o : List VMInstr} :
    (pure a : M σ α) s = .ok (b, o, s') ↔ a = b ∧ o = [] ∧ s' = s := by
  show M.pure a s = _ ↔ _
  unfold M.pure
  constructor
  · intro h
    injection h with h
    injection h with h1 h
    injection h with h2 h3
    exact ⟨h1, h2.symm, h3.symm⟩
  · rintro ⟨rfl, rfl, rfl⟩
    rfl

end Eng

namespace Eng

/-! ### Execution equations for the atomic engine operations -/

theorem advanceT_run {σ : Type} (s : EngState σ) :
    advanceT s = .ok ((), [], { s with cur := s.rest.head?, rest := s.rest.tail }) := by
  cases hr : s.rest with
  | nil => simp [advanceT, hr]
  | cons t ts => simp [advanceT, hr]

theorem getAssertPlain_run {σ : Type} (s : EngState σ) :
    getAssertPlain s = .ok ((s.cur.map Token.text).getD "", [],
      { s with cur := s.rest.head?, rest := s.rest.tail }) := by
  simp only [getAssertPlain, run_bind, advanceT_run, run_pure, curText]
  rfl

theorem emitStringChars_run {σ : Type} (cs : List Char) (s : EngState σ) :
    emitStringChars cs s =
      .ok ((), (cs.map fun c =>
        [VMInstr.push "constant" (natStr c.toNat),
         VMInstr.call "String.appendChar" (natStr 2)]).flatten, s) := by
  induction cs generalizing s with
  | nil => rfl
  | cons c cs ih =>
      simp only [emitStringChars, run_bind, emit, ih]
      rfl

/-! ### Values of `natStr` at the small counters of the concrete runs -/

theorem natStr_zero : natStr 0 = "0" := by
  rw [natStr_eq_small (by omega)]; decide

theorem natStr_one : natStr 1 = "1" := by
  rw [natStr_eq_small (by omega)]; decide

theorem natStr_two : natStr 2 = "2" := by
  rw [natStr_eq_small (by omega)]; decide

end Eng

/-! ## Claims about the symbol table and the undeclared-variable path -/

/-- Token stream of `class C { field int x; }`. -/
def fieldClassTokens : List Eng.Token :=
  [Eng.kw "class", Eng.ident "C", Eng.sy "\x7b",
   Eng.kw "field", Eng.kw "int", Eng.ident "x", Eng.sy ";", Eng.sy "\x7d"]

/-- [C2] The claim states that compiling a `field` class-variable
declaration succeeds, inserting the name under the internal kind `this`
with the per-kind counter incremented.  In the code as wired,
`_compile_class_var_dec` (`engines/vm.py` lines 48-56) normalizes
`field` to `this` and passes it to `SymbolTable.define` of
`src/comptools/_symboltable.py`, whose kind sets are
`{static, field}` and `{argument, var}` (lines 50-51), so the call
raises `KeyError("Invalid variable kind: this.")`: the first conjunct
evaluates the class-variable compiler on `field int x ;`, the second
the whole engine run on `class C { field int x; }`, which crashes with
that `KeyError` (uncaught, since `run` catches only `JackError`). -/
theorem c2_field_define_raises_keyerror :
    Eng.compileClassVarDec Eng.staleOps 10
        { cur := some (Eng.kw "field"),
          rest := [Eng.kw "int", Eng.ident "x", Eng.sy ";", Eng.sy "\x7d"],
          branch := 0, table := Eng.SymbolTable.fresh, className := "C" } =
      .error (.keyError "Invalid variable kind: this.")
    ∧ Eng.runVM Eng.staleOps 50 fieldClassTokens 0 =
      .crashed (.keyError "Invalid variable kind: this.") := by
  exact ⟨rfl, rfl⟩

/-- Token stream of
`class C { function void f() { let z = 1; return; } }`, in which `z` is
never declared. -/
def undeclaredVarTokens : List Eng.Token :=
  [Eng.kw "class", Eng.ident "C", Eng.sy "\x7b",
   Eng.kw "function", Eng.kw "void", Eng.ident "f",
   Eng.sy "(", Eng.sy ")", Eng.sy "\x7b",
   Eng.kw "let", Eng.ident "z", Eng.sy "=", Eng.intTok "1", Eng.sy ";",
   Eng.kw "return", Eng.sy ";", Eng.sy "\x7d", Eng.sy "\x7d"]

set_option maxHeartbeats 2000000 in
/-- [C3] The claim states that a `let` referencing an undeclared
variable makes the compiler raise its `Variable` error at the
identifier and that no output file remains.  In the code as wired the
run never reaches that path: `_compile_subroutine` reads
`self._symboltable.var_count` (`engines/vm.py` line 80), an attribute
the `SymbolTable` of `src/comptools/_symboltable.py` does not have
(its counters live in the private `_var_count`; the class also lacks
the `get_var` method that `_get_var` at line 402 would need next, and
the tokenizer lacks the `prev_start_*` properties that
`_raise_error(prev=True)` at `_base.py` lines 115-117 would read).
The run therefore crashes with `AttributeError`, which `run` does not
catch — so `os.remove` (`_base.py` line 46) never runs and the output
file is left on disk, embedded as the `crashed` outcome. -/
theorem c3_undeclared_variable_crashes_before_variable_error :
    Eng.runVM Eng.staleOps 50 undeclaredVarTokens 0 =
      .crashed (.attributeError "SymbolTable" "var_count") := by
  rfl

namespace Eng

/-- Two successive calls of `run` on the same engine object with the
same file: the second call starts from the branch counter the first
call left behind (`__init__` is the only place that resets it).  After
a failed run the engine would also survive, but the claims only concern
successful compilations, so the result is simply repeated there. -/
def runTwice {σ : Type} (ops : TableOps σ) (fuel : Nat) (toks : List Token)
    (b : Nat) : RunResult × RunResult :=
  match runVM ops fuel toks b with
  | .success out b' => (.success out b', runVM ops fuel toks b')
  | r => (r, r)

end Eng

/-- Token stream of
`class C { static int x; function void f() { while (x < 10) { let x = x + 1; } return; } }`. -/
def whileClassTokens : List Eng.Token :=
  [Eng.kw "class", Eng.ident "C", Eng.sy "\x7b",
   Eng.kw "static", Eng.kw "int", Eng.ident "x", Eng.sy ";",
   Eng.kw "function", Eng.kw "void", Eng.ident "f",
   Eng.sy "(", Eng.sy ")", Eng.sy "\x7b",
   Eng.kw "while", Eng.sy "(", Eng.ident "x", Eng.sy "<", Eng.intTok "10",
   Eng.sy ")", Eng.sy "\x7b",
   Eng.kw "let", Eng.ident "x", Eng.sy "=", Eng.ident "x", Eng.sy "+",
   Eng.intTok "1", Eng.sy ";", Eng.sy "\x7d",
   Eng.kw "return", Eng.sy ";", Eng.sy "\x7d", Eng.sy "\x7d"]

/-- The VM code the engine emits for `whileClassTokens` when the while
statement draws branch index `k`. -/
def whileClassOut (k : Nat) : List Eng.VMInstr :=
  [.func "C.f" (Jack.natStr 0),
   .label (Jack.loopLabel k),
   .push "static" (Jack.natStr 0),
   .push "constant" "10",
   .arith "lt",
   .arith "not",
   .ifGoto (Jack.breakLabel k),
   .push "static" (Jack.natStr 0),
   .push "constant" "1",
   .arith "add",
   .pop "static" (Jack.natStr 0),
   .goto (Jack.loopLabel k),
   .label (Jack.breakLabel k),
   .push "constant" (Jack.natStr 0),
   .ret]

set_option maxHeartbeats 4000000 in
/-- [C5, counterexample] The claim states that two successive calls of
`run` on the same syntactically valid file produce byte-identical
output because the branch counter is freshly constructed per file.  At
the concrete file `whileClassTokens`: the first run (engine counter 0)
numbers the loop labels with 1 and leaves the counter at 1; the second
run on the same engine starts from 1, numbers them with 2, and the two
output files differ byte-wise.  (`_branch_count` is initialized once in
`VMCompilationEngine.__init__`, `engines/vm.py` line 21, and never
reset by `run` or `_compile_class`; the symbol table, by contrast, is
fresh per run, line 30.) -/
theorem c5_rerun_not_byte_identical :
    Eng.runVM Eng.specOps 80 whileClassTokens 0 = .success (whileClassOut 1) 1
    ∧ Eng.runVM Eng.specOps 80 whileClassTokens 1 = .success (whileClassOut 2) 2
    ∧ Eng.render (whileClassOut 1) ≠ Eng.render (whileClassOut 2) := by
  refine ⟨rfl, rfl, ?_⟩
  simp only [whileClassOut, Eng.render, Eng.renderInstr, loopLabel, breakLabel,
    Eng.natStr_zero, Eng.natStr_one, Eng.natStr_two, List.map_cons, List.map_nil]
  decide

/-- [C5, amended] The branch counter is per-engine, not per-file: it
persists across `run` calls.  Two successive `run` calls on the same
file produce byte-identical output exactly in the runs that leave the
branch counter unchanged (in particular whenever the file contains no
`if` or `while` statement); otherwise the second run's labels continue
from the first run's counter, as the counterexample shows. -/
theorem c5_rerun_identical_when_counter_unchanged {σ : Type}
    (ops : Eng.TableOps σ) (fuel : Nat) (toks : List Eng.Token) (b : Nat)
    (out : List Eng.VMInstr)
    (h : Eng.runVM ops fuel toks b = .success out b) :
    Eng.runTwice ops fuel toks b = (.success out b, .success out b) := by
  simp [Eng.runTwice, h]

/-- Token stream of `class Main { function void main() { return; } }`. -/
def mainClassTokens : List Eng.Token :=
  [Eng.kw "class", Eng.ident "Main", Eng.sy "\x7b",
   Eng.kw "function", Eng.kw "void", Eng.ident "main",
   Eng.sy "(", Eng.sy ")", Eng.sy "\x7b",
   Eng.kw "return", Eng.sy ";", Eng.sy "\x7d", Eng.sy "\x7d"]

/-- The VM code emitted for `mainClassTokens`. -/
def mainClassOut : List Eng.VMInstr :=
  [.func "Main.main" (Jack.natStr 0),
   .push "constant" (Jack.natStr 0),
   .ret]

set_option maxHeartbeats 4000000 in
/-- [C5, witness] A branch-free file compiled twice on the same engine:
both runs return the identical output. -/
theorem c5_rerun_witness :
    Eng.runTwice Eng.specOps 50 mainClassTokens 0 =
      (.success mainClassOut 0, .success mainClassOut 0) :=
  c5_rerun_identical_when_counter_unchanged Eng.specOps 50 mainClassTokens 0
    mainClassOut rfl

/-- [C8] For every term whose current token is a string constant `s`,
`_compile_term` (`engines/vm.py` lines 264-270) emits
`push constant |s|`, `call String.new 1`, and then, for each character
of `s` in order, `push constant ord(c)`, `call String.appendChar 2` —
and nothing else; the token is consumed.  For the empty string the
character list is empty, so the code is exactly `push constant 0`,
`call String.new 1` with no `appendChar` calls (see the witness). -/
theorem c8_string_constant_emission {σ : Type} (ops : Eng.TableOps σ)
    (fuel : Nat) (s : Eng.EngState σ) (txt : String)
    (h : s.cur = some (Eng.strTok txt)) :
    Eng.compileTerm ops (fuel + 1) s =
      .ok ((), Eng.VMInstr.push "constant" (natStr txt.length)
              :: Eng.VMInstr.call "String.new" (natStr 1)
              :: (txt.data.map fun c =>
                    [Eng.VMInstr.push "constant" (natStr c.toNat),
                     Eng.VMInstr.call "String.appendChar" (natStr 2)]).flatten,
          { s with cur := s.rest.head?, rest := s.rest.tail }) := by
  simp [Eng.compileTerm_succ, Eng.compileTermStep, Eng.run_bind, Eng.curType,
    h, Eng.strTok, Option.map_some, Option.getD_some, Eng.getAssertPlain_run,
    Eng.emit, Eng.emitStringChars_run, Eng.run_pure]

/-- [C8, witness] The theorem applied to the empty string constant:
exactly `push constant 0`, `call String.new 1`, no `appendChar`. -/
theorem c8_empty_string_witness :
    Eng.compileTerm Eng.specOps 10
        { cur := some (Eng.strTok ""), rest := [Eng.sy ";"], branch := 0,
          table := Eng.SpecTable.fresh, className := "C" } =
      .ok ((), [Eng.VMInstr.push "constant" (natStr 0),
                Eng.VMInstr.call "String.new" (natStr 1)],
          { cur := some (Eng.sy ";"), rest := [], branch := 0,
            table := Eng.SpecTable.fresh, className := "C" }) :=
  c8_string_constant_emission Eng.specOps 9
    { cur := some (Eng.strTok ""), rest := [Eng.sy ";"], branch := 0,
      table := Eng.SpecTable.fresh, className := "C" } "" rfl

namespace Eng

/-! ### Shape of emitted branch code

The uniqueness claims about `if`/`while` labels are settled through a
counting invariant on the instruction lists that statement compilation
emits. -/

/-- Instructions that carry no label, jump or `function` directive:
stack operations, calls and `return`. -/
def VMInstr.isPlain : VMInstr → Bool
  | .push _ _ | .pop _ _ | .arith _ | .call _ _ | .ret => true
  | _ => false

def VMInstr.isFunc : VMInstr → Bool
  | .func _ _ => true
  | _ => false

/-- All instructions plain (no labels, jumps, `function` directives or
`return`). -/
def plainOut (out : List VMInstr) : Prop := ∀ i ∈ out, i.isPlain = true

/-- No `function` directive. -/
def funcFree (out : List VMInstr) : Prop := ∀ i ∈ out, i.isFunc = false

/-- Occurrences of `label lab`. -/
def cntL (out : List VMInstr) (lab : String) : Nat :=
  out.count (VMInstr.label lab)

/-- Occurrences of `if-goto lab`. -/
def cntIG (out : List VMInstr) (lab : String) : Nat :=
  out.count (VMInstr.ifGoto lab)

/-- Branch index `k` is untouched. -/
def freeAt (k : Nat) (out : List VMInstr) : Prop :=
  cntL out (elseLabel k) = 0 ∧ cntL out (endLabel k) = 0
  ∧ cntL out (loopLabel k) = 0 ∧ cntL out (breakLabel k) = 0
  ∧ cntIG out (elseLabel k) = 0 ∧ cntIG out (breakLabel k) = 0

/-- Branch index `k` was consumed by an `if`: its two labels appear
exactly once, its conditional jump targets `ELSE_BRANCH.k` exactly
once. -/
def ifAt (k : Nat) (out : List VMInstr) : Prop :=
  cntL out (elseLabel k) = 1 ∧ cntL out (endLabel k) = 1
  ∧ cntL out (loopLabel k) = 0 ∧ cntL out (breakLabel k) = 0
  ∧ cntIG out (elseLabel k) = 1 ∧ cntIG out (breakLabel k) = 0

/-- Branch index `k` was consumed by a `while`. -/
def whileAt (k : Nat) (out : List VMInstr) : Prop :=
  cntL out (elseLabel k) = 0 ∧ cntL out (endLabel k) = 0
  ∧ cntL out (loopLabel k) = 1 ∧ cntL out (breakLabel k) = 1
  ∧ cntIG out (elseLabel k) = 0 ∧ cntIG out (breakLabel k) = 1

/-- Invariant of statement compilation that runs the branch counter
from `b` to `b'`: indices outside `(b, b']` are untouched, each index
inside was consumed by one `if`, one `while`, or not at all, and every
emitted `if-goto` targets the `ELSE`/`BREAK` label of an index inside
the interval. -/
def StInv (b b' : Nat) (out : List VMInstr) : Prop :=
  b ≤ b'
  ∧ (∀ k, ¬(b < k ∧ k ≤ b') → freeAt k out)
  ∧ (∀ k, b < k → k ≤ b' → ifAt k out ∨ whileAt k out ∨ freeAt k out)
  ∧ (∀ lab, VMInstr.ifGoto lab ∈ out →
      ∃ k, b < k ∧ k ≤ b' ∧ (lab = elseLabel k ∨ lab = breakLabel k))

theorem cntL_append (o₁ o₂ : List VMInstr) (lab : String) :
    cntL (o₁ ++ o₂) lab = cntL o₁ lab + cntL o₂ lab :=
  List.count_append _ _ _

theorem cntIG_append (o₁ o₂ : List VMInstr) (lab : String) :
    cntIG (o₁ ++ o₂) lab = cntIG o₁ lab + cntIG o₂ lab :=
  List.count_append _ _ _

theorem plainOut_cntL {out : List VMInstr} (h : plainOut out) (lab : String) :
    cntL out lab = 0 := by
  rw [cntL, List.count_eq_zero]
  intro hm
  have := h _ hm
  simp [VMInstr.isPlain] at this

theorem plainOut_cntIG {out : List VMInstr} (h : plainOut out) (lab : String) :
    cntIG out lab = 0 := by
  rw [cntIG, List.count_eq_zero]
  intro hm
  have := h _ hm
  simp [VMInstr.isPlain] at this

theorem plainOut_funcFree {out : List VMInstr} (h : plainOut out) :
    funcFree out := by
  intro i hm
  have := h _ hm
  cases i <;> simp [VMInstr.isPlain] at this <;> simp [VMInstr.isFunc]

theorem plainOut_append {o₁ o₂ : List VMInstr}
    (h₁ : plainOut o₁) (h₂ : plainOut o₂) : plainOut (o₁ ++ o₂) := by
  intro i hm
  rcases List.mem_append.mp hm with hm | hm
  · exact h₁ _ hm
  · exact h₂ _ hm

theorem funcFree_append {o₁ o₂ : List VMInstr}
    (h₁ : funcFree o₁) (h₂ : funcFree o₂) : funcFree (o₁ ++ o₂) := by
  intro i hm
  rcases List.mem_append.mp hm with hm | hm
  · exact h₁ _ hm
  · exact h₂ _ hm

theorem freeAt_of_plain {out : List VMInstr} (h : plainOut out) (k : Nat) :
    freeAt k out :=
  ⟨plainOut_cntL h _, plainOut_cntL h _, plainOut_cntL h _,
   plainOut_cntL h _, plainOut_cntIG h _, plainOut_cntIG h _⟩

theorem freeAt_append {k : Nat} {o₁ o₂ : List VMInstr}
    (h₁ : freeAt k o₁) (h₂ : freeAt k o₂) : freeAt k (o₁ ++ o₂) := by
  obtain ⟨a1, a2, a3, a4, a5, a6⟩ := h₁
  obtain ⟨b1, b2, b3, b4, b5, b6⟩ := h₂
  refine ⟨?_, ?_, ?_, ?_, ?_, ?_⟩ <;>
    simp [cntL_append, cntIG_append, a1, a2, a3, a4, a5, a6, b1, b2, b3, b4, b5, b6]

theorem ifAt_append_free {k : Nat} {o₁ o₂ : List VMInstr}
    (h₁ : ifAt k o₁) (h₂ : freeAt k o₂) : ifAt k (o₁ ++ o₂) := by
  obtain ⟨a1, a2, a3, a4, a5, a6⟩ := h₁
  obtain ⟨b1, b2, b3, b4, b5, b6⟩ := h₂
  refine ⟨?_, ?_, ?_, ?_, ?_, ?_⟩ <;>
    simp [cntL_append, cntIG_append, a1, a2, a3, a4, a5, a6, b1, b2, b3, b4, b5, b6]

theorem free_append_ifAt {k : Nat} {o₁ o₂ : List VMInstr}
    (h₁ : freeAt k o₁) (h₂ : ifAt k o₂) : ifAt k (o₁ ++ o₂) := by
  obtain ⟨a1, a2, a3, a4, a5, a6⟩ := h₁
  obtain ⟨b1, b2, b3, b4, b5, b6⟩ := h₂
  refine ⟨?_, ?_, ?_, ?_, ?_, ?_⟩ <;>
    simp [cntL_append, cntIG_append, a1, a2, a3, a4, a5, a6, b1, b2, b3, b4, b5, b6]

theorem whileAt_append_free {k : Nat} {o₁ o₂ : List VMInstr}
    (h₁ : whileAt k o₁) (h₂ : freeAt k o₂) : whileAt k (o₁ ++ o₂) := by
  obtain ⟨a1, a2, a3, a4, a5, a6⟩ := h₁
  obtain ⟨b1, b2, b3, b4, b5, b6⟩ := h₂
  refine ⟨?_, ?_, ?_, ?_, ?_, ?_⟩ <;>
    simp [cntL_append, cntIG_append, a1, a2, a3, a4, a5, a6, b1, b2, b3, b4, b5, b6]

theorem free_append_whileAt {k : Nat} {o₁ o₂ : List VMInstr}
    (h₁ : freeAt k o₁) (h₂ : whileAt k o₂) : whileAt k (o₁ ++ o₂) := by
  obtain ⟨a1, a2, a3, a4, a5, a6⟩ := h₁
  obtain ⟨b1, b2, b3, b4, b5, b6⟩ := h₂
  refine ⟨?_, ?_, ?_, ?_, ?_, ?_⟩ <;>
    simp [cntL_append, cntIG_append, a1, a2, a3, a4, a5, a6, b1, b2, b3, b4, b5, b6]

/-- Composing two statement blocks that run the counter `b → m → b'`. -/
theorem StInv_append {b m b' : Nat} {o₁ o₂ : List VMInstr}
    (h₁ : StInv b m o₁) (h₂ : StInv m b' o₂) : StInv b b' (o₁ ++ o₂) := by
  obtain ⟨hb₁, hout₁, hin₁, hig₁⟩ := h₁
  obtain ⟨hb₂, hout₂, hin₂, hig₂⟩ := h₂
  refine ⟨by omega, ?_, ?_, ?_⟩
  · intro k hk
    exact freeAt_append (hout₁ k (by omega)) (hout₂ k (by omega))
  · intro k hk1 hk2
    by_cases hm : k ≤ m
    · rcases hin₁ k hk1 hm with h | h | h
      · exact .inl (ifAt_append_free h (hout₂ k (by omega)))
      · exact .inr (.inl (whileAt_append_free h (hout₂ k (by omega))))
      · exact .inr (.inr (freeAt_append h (hout₂ k (by omega))))
    · rcases hin₂ k (by omega) hk2 with h | h | h
      · exact .inl (free_append_ifAt (hout₁ k (by omega)) h)
      · exact .inr (.inl (free_append_whileAt (hout₁ k (by omega)) h))
      · exact .inr (.inr (freeAt_append (hout₁ k (by omega)) h))
  · intro lab hm
    rcases List.mem_append.mp hm with hm | hm
    · obtain ⟨k, hk1, hk2, hor⟩ := hig₁ lab hm
      exact ⟨k, hk1, by omega, hor⟩
    · obtain ⟨k, hk1, hk2, hor⟩ := hig₂ lab hm
      exact ⟨k, by omega, hk2, hor⟩

theorem StInv_plain {out : List VMInstr} (h : plainOut out) (b : Nat) :
    StInv b b out := by
  refine ⟨le_refl b, ?_, ?_, ?_⟩
  · intro k _
    exact freeAt_of_plain h k
  · intro k hk1 hk2
    omega
  · intro lab hm
    have := h _ hm
    simp [VMInstr.isPlain] at this

theorem StInv_nil (b : Nat) : StInv b b [] :=
  StInv_plain (by intro i hm; simp at hm) b

/-- The central consequence: within a statement block, every emitted
`if-goto lab` has exactly one matching `label lab`. -/
theorem StInv_unique_label {b b' : Nat} {out : List VMInstr}
    (h : StInv b b' out) :
    ∀ lab, VMInstr.ifGoto lab ∈ out → cntL out lab = 1 := by
  intro lab hm
  obtain ⟨_, _, hin, hig⟩ := h
  obtain ⟨k, hk1, hk2, hor⟩ := hig lab hm
  have hpos : 0 < cntIG out lab := by
    rw [cntIG, List.count_pos_iff]
    exact hm
  rcases hor with rfl | rfl
  · rcases hin k hk1 hk2 with hs | hs | hs
    · exact hs.1
    · exact absurd hs.2.2.2.2.1 (by omega)
    · exact absurd hs.2.2.2.2.1 (by omega)
  · rcases hin k hk1 hk2 with hs | hs | hs
    · exact absurd hs.2.2.2.2.2 (by omega)
    · exact hs.2.2.2.1
    · exact absurd hs.2.2.2.2.2 (by omega)

end Eng

namespace Eng

theorem cntL_cons (i : VMInstr) (out : List VMInstr) (lab : String) :
    cntL (i :: out) lab = (if i = VMInstr.label lab then 1 else 0) + cntL out lab := by
  by_cases h : i = VMInstr.label lab <;>
    simp [cntL, List.count_cons, h] <;> omega

theorem cntIG_cons (i : VMInstr) (out : List VMInstr) (lab : String) :
    cntIG (i :: out) lab = (if i = VMInstr.ifGoto lab then 1 else 0) + cntIG out lab := by
  by_cases h : i = VMInstr.ifGoto lab <;>
    simp [cntIG, List.count_cons, h] <;> omega

/-- The instruction skeleton emitted by `_compile_if` around the
condition, then-branch and else-branch outputs. -/
def ifSkel (k : Nat) (cond thn els : List VMInstr) : List VMInstr :=
  cond ++ VMInstr.arith "not" :: VMInstr.ifGoto (elseLabel k) ::
    (thn ++ VMInstr.goto (endLabel k) :: VMInstr.label (elseLabel k) ::
      (els ++ [VMInstr.label (endLabel k)]))

/-- The instruction skeleton emitted by `_compile_while` around the
condition and body outputs. -/
def whileSkel (k : Nat) (cond bod : List VMInstr) : List VMInstr :=
  VMInstr.label (loopLabel k) :: (cond ++ VMInstr.arith "not" ::
    VMInstr.ifGoto (breakLabel k) ::
      (bod ++ [VMInstr.goto (loopLabel k), VMInstr.label (breakLabel k)]))

theorem ifSkel_cntL (k : Nat) (cond thn els : List VMInstr) (lab : String) :
    cntL (ifSkel k cond thn els) lab
      = cntL cond lab + cntL thn lab + cntL els lab
        + (if elseLabel k = lab then 1 else 0)
        + (if endLabel k = lab then 1 else 0) := by
  simp only [ifSkel, cntL_append, cntL_cons]
  by_cases h1 : elseLabel k = lab <;> by_cases h2 : endLabel k = lab <;>
    simp [cntL, h1, h2] <;> omega

theorem ifSkel_cntIG (k : Nat) (cond thn els : List VMInstr) (lab : String) :
    cntIG (ifSkel k cond thn els) lab
      = cntIG cond lab + cntIG thn lab + cntIG els lab
        + (if elseLabel k = lab then 1 else 0) := by
  simp only [ifSkel, cntIG_append, cntIG_cons]
  by_cases h1 : elseLabel k = lab <;>
    simp [cntIG, h1] <;> omega

theorem whileSkel_cntL (k : Nat) (cond bod : List VMInstr) (lab : String) :
    cntL (whileSkel k cond bod) lab
      = cntL cond lab + cntL bod lab
        + (if loopLabel k = lab then 1 else 0)
        + (if breakLabel k = lab then 1 else 0) := by
  simp only [whileSkel, cntL_append, cntL_cons]
  by_cases h1 : loopLabel k = lab <;> by_cases h2 : breakLabel k = lab <;>
    simp [cntL, h1, h2] <;> omega

theorem whileSkel_cntIG (k : Nat) (cond bod : List VMInstr) (lab : String) :
    cntIG (whileSkel k cond bod) lab
      = cntIG cond lab + cntIG bod lab
        + (if breakLabel k = lab then 1 else 0) := by
  simp only [whileSkel, cntIG_append, cntIG_cons]
  by_cases h1 : breakLabel k = lab <;>
    simp [cntIG, h1] <;> omega

theorem ifSkel_ifGoto_mem {k : Nat} {cond thn els : List VMInstr} {lab : String}
    (hm : VMInstr.ifGoto lab ∈ ifSkel k cond thn els) :
    VMInstr.ifGoto lab ∈ cond ∨ lab = elseLabel k
      ∨ VMInstr.ifGoto lab ∈ thn ∨ VMInstr.ifGoto lab ∈ els := by
  simp only [ifSkel, List.mem_append, List.mem_cons, List.mem_singleton] at hm
  rcases hm with h | h | h | h | h | h | h | h <;> simp_all

theorem whileSkel_ifGoto_mem {k : Nat} {cond bod : List VMInstr} {lab : String}
    (hm : VMInstr.ifGoto lab ∈ whileSkel k cond bod) :
    VMInstr.ifGoto lab ∈ cond ∨ lab = breakLabel k ∨ VMInstr.ifGoto lab ∈ bod := by
  simp only [whileSkel, List.mem_append, List.mem_cons, List.mem_singleton] at hm
  rcases hm with h | h | h | h | h | h <;> simp_all

/-- Wrapping a plain condition, a then-block `(b+1 → b₂)` and an
else-block `(b₂ → b₃)` in the `if` skeleton with index `b+1` yields a
statement block `(b → b₃)`. -/
theorem StInv_if_wrap {b b₂ b₃ : Nat} {cond thn els : List VMInstr}
    (hc : plainOut cond) (ht : StInv (b + 1) b₂ thn) (he : StInv b₂ b₃ els) :
    StInv b b₃ (ifSkel (b + 1) cond thn els) := by
  obtain ⟨hb₂, htout, htin, htig⟩ := ht
  obtain ⟨hb₃, heout, hein, heig⟩ := he
  refine ⟨by omega, ?_, ?_, ?_⟩
  · intro k hk
    have h1 : ¬ (elseLabel (b + 1) = elseLabel k) := by simp; omega
    have h2 : ¬ (endLabel (b + 1) = endLabel k) := by simp; omega
    obtain ⟨t1, t2, t3, t4, t5, t6⟩ := htout k (by omega)
    obtain ⟨e1, e2, e3, e4, e5, e6⟩ := heout k (by omega)
    refine ⟨?_, ?_, ?_, ?_, ?_, ?_⟩ <;>
      simp [ifSkel_cntL, ifSkel_cntIG, plainOut_cntL hc, plainOut_cntIG hc,
        t1, t2, t3, t4, t5, t6, e1, e2, e3, e4, e5, e6, h1, h2]
  · intro k hk1 hk2
    by_cases hkb : k = b + 1
    · subst hkb
      left
      obtain ⟨t1, t2, t3, t4, t5, t6⟩ := htout (b + 1) (by omega)
      obtain ⟨e1, e2, e3, e4, e5, e6⟩ := heout (b + 1) (by omega)
      refine ⟨?_, ?_, ?_, ?_, ?_, ?_⟩ <;>
        simp [ifSkel_cntL, ifSkel_cntIG, plainOut_cntL hc, plainOut_cntIG hc,
          t1, t2, t3, t4, t5, t6, e1, e2, e3, e4, e5, e6]
    · have h1 : ¬ (elseLabel (b + 1) = elseLabel k) := by simp; omega
      have h2 : ¬ (endLabel (b + 1) = endLabel k) := by simp; omega
      by_cases hkm : k ≤ b₂
      · obtain ⟨e1, e2, e3, e4, e5, e6⟩ := heout k (by omega)
        rcases htin k (by omega) hkm with hs | hs | hs <;>
            obtain ⟨t1, t2, t3, t4, t5, t6⟩ := hs
        · refine .inl ⟨?_, ?_, ?_, ?_, ?_, ?_⟩ <;>
            simp [ifSkel_cntL, ifSkel_cntIG, plainOut_cntL hc, plainOut_cntIG hc,
              t1, t2, t3, t4, t5, t6, e1, e2, e3, e4, e5, e6, h1, h2]
        · refine .inr (.inl ⟨?_, ?_, ?_, ?_, ?_, ?_⟩) <;>
            simp [ifSkel_cntL, ifSkel_cntIG, plainOut_cntL hc, plainOut_cntIG hc,
              t1, t2, t3, t4, t5, t6, e1, e2, e3, e4, e5, e6, h1, h2]
        · refine .inr (.inr ⟨?_, ?_, ?_, ?_, ?_, ?_⟩) <;>
            simp [ifSkel_cntL, ifSkel_cntIG, plainOut_cntL hc, plainOut_cntIG hc,
              t1, t2, t3, t4, t5, t6, e1, e2, e3, e4, e5, e6, h1, h2]
      · obtain ⟨t1, t2, t3, t4, t5, t6⟩ := htout k (by omega)
        rcases hein k (by omega) hk2 with hs | hs | hs <;>
            obtain ⟨e1, e2, e3, e4, e5, e6⟩ := hs
        · refine .inl ⟨?_, ?_, ?_, ?_, ?_, ?_⟩ <;>
            simp [ifSkel_cntL, ifSkel_cntIG, plainOut_cntL hc, plainOut_cntIG hc,
              t1, t2, t3, t4, t5, t6, e1, e2, e3, e4, e5, e6, h1, h2]
        · refine .inr (.inl ⟨?_, ?_, ?_, ?_, ?_, ?_⟩) <;>
            simp [ifSkel_cntL, ifSkel_cntIG, plainOut_cntL hc, plainOut_cntIG hc,
              t1, t2, t3, t4, t5, t6, e1, e2, e3, e4, e5, e6, h1, h2]
        · refine .inr (.inr ⟨?_, ?_, ?_, ?_, ?_, ?_⟩) <;>
            simp [ifSkel_cntL, ifSkel_cntIG, plainOut_cntL hc, plainOut_cntIG hc,
              t1, t2, t3, t4, t5, t6, e1, e2, e3, e4, e5, e6, h1, h2]
  · intro lab hm
    rcases ifSkel_ifGoto_mem hm with h | h | h | h
    · have := hc _ h
      simp [VMInstr.isPlain] at this
    · exact ⟨b + 1, by omega, by omega, .inl h⟩
    · obtain ⟨k, hk1, hk2, hor⟩ := htig lab h
      exact ⟨k, by omega, by omega, hor⟩
    · obtain ⟨k, hk1, hk2, hor⟩ := heig lab h
      exact ⟨k, by omega, by omega, hor⟩

/-- Wrapping a plain condition and a body block `(b+1 → b₂)` in the
`while` skeleton with index `b+1` yields a statement block `(b → b₂)`. -/
theorem StInv_while_wrap {b b₂ : Nat} {cond bod : List VMInstr}
    (hc : plainOut cond) (hb : StInv (b + 1) b₂ bod) :
    StInv b b₂ (whileSkel (b + 1) cond bod) := by
  obtain ⟨hb₂, hbout, hbin, hbig⟩ := hb
  refine ⟨by omega, ?_, ?_, ?_⟩
  · intro k hk
    have h1 : ¬ (loopLabel (b + 1) = loopLabel k) := by simp; omega
    have h2 : ¬ (breakLabel (b + 1) = breakLabel k) := by simp; omega
    obtain ⟨t1, t2, t3, t4, t5, t6⟩ := hbout k (by omega)
    refine ⟨?_, ?_, ?_, ?_, ?_, ?_⟩ <;>
      simp [whileSkel_cntL, whileSkel_cntIG, plainOut_cntL hc, plainOut_cntIG hc,
        t1, t2, t3, t4, t5, t6, h1, h2]
  · intro k hk1 hk2
    by_cases hkb : k = b + 1
    · subst hkb
      right; left
      obtain ⟨t1, t2, t3, t4, t5, t6⟩ := hbout (b + 1) (by omega)
      refine ⟨?_, ?_, ?_, ?_, ?_, ?_⟩ <;>
        simp [whileSkel_cntL, whileSkel_cntIG, plainOut_cntL hc, plainOut_cntIG hc,
          t1, t2, t3, t4, t5, t6]
    · have h1 : ¬ (loopLabel (b + 1) = loopLabel k) := by simp; omega
      have h2 : ¬ (breakLabel (b + 1) = breakLabel k) := by simp; omega
      rcases hbin k (by omega) hk2 with hs | hs | hs <;>
          obtain ⟨t1, t2, t3, t4, t5, t6⟩ := hs
      · refine .inl ⟨?_, ?_, ?_, ?_, ?_, ?_⟩ <;>
          simp [whileSkel_cntL, whileSkel_cntIG, plainOut_cntL hc, plainOut_cntIG hc,
            t1, t2, t3, t4, t5, t6, h1, h2]
      · refine .inr (.inl ⟨?_, ?_, ?_, ?_, ?_, ?_⟩) <;>
          simp [whileSkel_cntL, whileSkel_cntIG, plainOut_cntL hc, plainOut_cntIG hc,
            t1, t2, t3, t4, t5, t6, h1, h2]
      · refine .inr (.inr ⟨?_, ?_, ?_, ?_, ?_, ?_⟩) <;>
          simp [whileSkel_cntL, whileSkel_cntIG, plainOut_cntL hc, plainOut_cntIG hc,
            t1, t2, t3, t4, t5, t6, h1, h2]
  · intro lab hm
    rcases whileSkel_ifGoto_mem hm with h | h | h
    · have := hc _ h
      simp [VMInstr.isPlain] at this
    · exact ⟨b + 1, by omega, by omega, .inr h⟩
    · obtain ⟨k, hk1, hk2, hor⟩ := hbig lab h
      exact ⟨k, by omega, by omega, hor⟩

theorem ifSkel_funcFree {k : Nat} {cond thn els : List VMInstr}
    (hc : funcFree cond) (ht : funcFree thn) (he : funcFree els) :
    funcFree (ifSkel k cond thn els) := by
  intro i hm
  simp only [ifSkel, List.mem_append, List.mem_cons, List.mem_singleton] at hm
  rcases hm with h | h | h | h | h | h | h | h | h
  · exact hc _ h
  · subst h; rfl
  · subst h; rfl
  · exact ht _ h
  · subst h; rfl
  · subst h; rfl
  · exact he _ h
  · subst h; rfl
  · simp at h

theorem whileSkel_funcFree {k : Nat} {cond bod : List VMInstr}
    (hc : funcFree cond) (hb : funcFree bod) :
    funcFree (whileSkel k cond bod) := by
  intro i hm
  simp only [whileSkel, List.mem_append, List.mem_cons, List.mem_singleton] at hm
  rcases hm with h | h | h | h | h | h | h
  · subst h; rfl
  · exact hc _ h
  · subst h; rfl
  · subst h; rfl
  · exact hb _ h
  · subst h; rfl
  · rcases h with h | h
    · subst h; rfl
    · simp at h

end Eng

namespace Eng

/-! ### Effect classification of the engine operations -/

theorem incBranch_run {σ : Type} (s : EngState σ) :
    (incBranch : M σ Nat) s =
      .ok (s.branch + 1, [], { s with branch := s.branch + 1 }) := rfl

theorem emit_run {σ : Type} (i : VMInstr) (s : EngState σ) :
    (emit i : M σ Unit) s = .ok ((), [i], s) := rfl

theorem throw_not_ok {σ α : Type} {e : PyExc} {s s' : EngState σ} {a : α}
    {out : List VMInstr} : ¬ ((M.throw e : M σ α) s = .ok (a, out, s')) := by
  simp [M.throw]

/-- Operations that only look at or advance the token stream: no
output, branch counter and symbol table untouched. -/
def TokOnly {σ α : Type} (m : M σ α) : Prop :=
  ∀ s a out s', m s = .ok (a, out, s') →
    out = [] ∧ s'.branch = s.branch ∧ s'.table = s.table

theorem TokOnly.bindT {σ α β : Type} {m : M σ α} {f : α → M σ β}
    (hm : TokOnly m) (hf : ∀ a, TokOnly (f a)) : TokOnly (m >>= f) := by
  intro s a out s' h
  rcases bind_eq_ok.mp h with ⟨x, o₁, s₁, o₂, h₁, h₂, rfl⟩
  obtain ⟨rfl, hb₁, ht₁⟩ := hm _ _ _ _ h₁
  obtain ⟨rfl, hb₂, ht₂⟩ := hf _ _ _ _ _ h₂
  exact ⟨rfl, by rw [hb₂, hb₁], by rw [ht₂, ht₁]⟩

theorem TokOnly.pure' {σ α : Type} (a : α) : TokOnly (pure a : M σ α) := by
  intro s b out s' h
  obtain ⟨_, rfl, rfl⟩ := pure_eq_ok.mp h
  exact ⟨rfl, rfl, rfl⟩

theorem TokOnly.throwT {σ α : Type} (e : PyExc) : TokOnly (M.throw e : M σ α) := by
  intro s b out s' h
  exact absurd h throw_not_ok

theorem TokOnly.iteT {σ α : Type} {c : Prop} [Decidable c] {m₁ m₂ : M σ α}
    (h₁ : TokOnly m₁) (h₂ : TokOnly m₂) : TokOnly (if c then m₁ else m₂) := by
  split <;> assumption

theorem advanceT_tokOnly {σ : Type} : TokOnly (advanceT : M σ Unit) := by
  intro s a out s' h
  rw [advanceT_run] at h
  simp only [Except.ok.injEq, Prod.mk.injEq] at h
  obtain ⟨-, rfl, rfl⟩ := h
  exact ⟨rfl, rfl, rfl⟩

theorem curText_tokOnly {σ : Type} : TokOnly (curText : M σ String) := by
  intro s a out s' h
  simp only [curText, Except.ok.injEq, Prod.mk.injEq] at h
  obtain ⟨-, rfl, rfl⟩ := h
  exact ⟨rfl, rfl, rfl⟩

theorem curType_tokOnly {σ : Type} : TokOnly (curType : M σ String) := by
  intro s a out s' h
  simp only [curType, Except.ok.injEq, Prod.mk.injEq] at h
  obtain ⟨-, rfl, rfl⟩ := h
  exact ⟨rfl, rfl, rfl⟩

theorem hasMoreT_tokOnly {σ : Type} : TokOnly (hasMoreT : M σ Bool) := by
  intro s a out s' h
  simp only [hasMoreT, Except.ok.injEq, Prod.mk.injEq] at h
  obtain ⟨-, rfl, rfl⟩ := h
  exact ⟨rfl, rfl, rfl⟩

theorem getTable_tokOnly {σ : Type} : TokOnly (getTable : M σ σ) := by
  intro s a out s' h
  simp only [getTable, Except.ok.injEq, Prod.mk.injEq] at h
  obtain ⟨-, rfl, rfl⟩ := h
  exact ⟨rfl, rfl, rfl⟩

theorem getClassName_tokOnly {σ : Type} : TokOnly (getClassName : M σ String) := by
  intro s a out s' h
  simp only [getClassName, Except.ok.injEq, Prod.mk.injEq] at h
  obtain ⟨-, rfl, rfl⟩ := h
  exact ⟨rfl, rfl, rfl⟩

theorem liftE_tokOnly {σ α : Type} (x : Except PyExc α) :
    TokOnly (liftE x : M σ α) := by
  intro s a out s' h
  cases x with
  | error e => exact absurd h (by simp [liftE])
  | ok v =>
      simp only [liftE, Except.ok.injEq, Prod.mk.injEq] at h
      obtain ⟨-, rfl, rfl⟩ := h
      exact ⟨rfl, rfl, rfl⟩

theorem raiseErr_tokOnly {σ α : Type} (err info : String) (prev : Bool) :
    TokOnly (raiseErr err info prev : M σ α) :=
  TokOnly.throwT _

theorem assertHasMore_tokOnly {σ : Type} (prev : Bool) :
    TokOnly (assertHasMore prev : M σ Unit) := by
  unfold assertHasMore
  exact TokOnly.bindT hasMoreT_tokOnly fun hm =>
    TokOnly.iteT (TokOnly.pure' _) (raiseErr_tokOnly _ _ _)

theorem assertToken_tokOnly {σ : Type} (tok : String) (adv prev : Bool) :
    TokOnly (assertToken tok adv prev : M σ Unit) := by
  unfold assertToken
  exact TokOnly.bindT (assertHasMore_tokOnly _) fun _ =>
    TokOnly.bindT curText_tokOnly fun t =>
      TokOnly.iteT (TokOnly.iteT advanceT_tokOnly (TokOnly.pure' _))
        (raiseErr_tokOnly _ _ _)

theorem assertIdentifier_tokOnly {σ : Type} (adv prev : Bool) :
    TokOnly (assertIdentifier adv prev : M σ Unit) := by
  unfold assertIdentifier
  exact TokOnly.bindT (assertHasMore_tokOnly _) fun _ =>
    TokOnly.bindT curType_tokOnly fun ty =>
      TokOnly.iteT (TokOnly.iteT advanceT_tokOnly (TokOnly.pure' _))
        (raiseErr_tokOnly _ _ _)

theorem assertType_tokOnly {σ : Type} (adv prev : Bool) :
    TokOnly (assertType adv prev : M σ Unit) := by
  unfold assertType
  exact TokOnly.bindT (assertHasMore_tokOnly _) fun _ =>
    TokOnly.bindT curText_tokOnly fun t =>
      TokOnly.bindT curType_tokOnly fun ty =>
        TokOnly.iteT (TokOnly.iteT advanceT_tokOnly (TokOnly.pure' _))
          (raiseErr_tokOnly _ _ _)

theorem assertSubroutineType_tokOnly {σ : Type} (adv prev : Bool) :
    TokOnly (assertSubroutineType adv prev : M σ Unit) := by
  unfold assertSubroutineType
  exact TokOnly.bindT (assertHasMore_tokOnly _) fun _ =>
    TokOnly.bindT curText_tokOnly fun t =>
      TokOnly.bindT curType_tokOnly fun ty =>
        TokOnly.iteT (TokOnly.iteT advanceT_tokOnly (TokOnly.pure' _))
          (raiseErr_tokOnly _ _ _)

theorem checkTokenStr_tokOnly {σ : Type} (tok : String) (adv : Bool) :
    TokOnly (checkTokenStr tok adv : M σ Bool) := by
  unfold checkTokenStr
  refine TokOnly.bindT curText_tokOnly fun t => TokOnly.iteT ?_ (TokOnly.pure' _)
  exact TokOnly.iteT (TokOnly.bindT advanceT_tokOnly fun _ => TokOnly.pure' _)
    (TokOnly.bindT (TokOnly.pure' _) fun _ => TokOnly.pure' _)

theorem checkTokenMem_tokOnly {σ : Type} (toks : List String) (adv : Bool) :
    TokOnly (checkTokenMem toks adv : M σ Bool) := by
  unfold checkTokenMem
  refine TokOnly.bindT curText_tokOnly fun t => TokOnly.iteT ?_ (TokOnly.pure' _)
  exact TokOnly.iteT (TokOnly.bindT advanceT_tokOnly fun _ => TokOnly.pure' _)
    (TokOnly.bindT (TokOnly.pure' _) fun _ => TokOnly.pure' _)

theorem getAssertPlain_tokOnly {σ : Type} : TokOnly (getAssertPlain : M σ String) := by
  unfold getAssertPlain
  exact TokOnly.bindT curText_tokOnly fun v =>
    TokOnly.bindT advanceT_tokOnly fun _ => TokOnly.pure' _

theorem getAssertWith_tokOnly {σ : Type} {assertion : M σ Unit}
    (h : TokOnly assertion) : TokOnly (getAssertWith assertion) := by
  unfold getAssertWith
  exact TokOnly.bindT curText_tokOnly fun v =>
    TokOnly.bindT h fun _ => TokOnly.pure' _

theorem getVarE_tokOnly {σ : Type} (ops : TableOps σ) (name : String)
    (prev : Bool) : TokOnly (getVarE ops name prev) := by
  unfold getVarE
  refine TokOnly.bindT getTable_tokOnly fun t =>
    TokOnly.bindT (liftE_tokOnly _) fun v => ?_
  cases v with
  | none => exact raiseErr_tokOnly _ _ _
  | some var => exact TokOnly.pure' _

/-- Runs that emit only plain instructions and keep the branch counter
and the symbol table unchanged: the expression compilers and the
statement compilers that contain no branches. -/
def PlainRun {σ α : Type} (m : M σ α) : Prop :=
  ∀ s a out s', m s = .ok (a, out, s') →
    plainOut out ∧ s'.branch = s.branch ∧ s'.table = s.table

theorem PlainRun.ofTok {σ α : Type} {m : M σ α} (h : TokOnly m) :
    PlainRun m := by
  intro s a out s' hr
  obtain ⟨rfl, hb, ht⟩ := h _ _ _ _ hr
  exact ⟨by intro i hm; simp at hm, hb, ht⟩

theorem PlainRun.bindP {σ α β : Type} {m : M σ α} {f : α → M σ β}
    (hm : PlainRun m) (hf : ∀ a, PlainRun (f a)) : PlainRun (m >>= f) := by
  intro s a out s' h
  rcases bind_eq_ok.mp h with ⟨x, o₁, s₁, o₂, h₁, h₂, rfl⟩
  obtain ⟨hp₁, hb₁, ht₁⟩ := hm _ _ _ _ h₁
  obtain ⟨hp₂, hb₂, ht₂⟩ := hf _ _ _ _ _ h₂
  exact ⟨plainOut_append hp₁ hp₂, by rw [hb₂, hb₁], by rw [ht₂, ht₁]⟩

theorem PlainRun.iteP {σ α : Type} {c : Prop} [Decidable c] {m₁ m₂ : M σ α}
    (h₁ : PlainRun m₁) (h₂ : PlainRun m₂) : PlainRun (if c then m₁ else m₂) := by
  split <;> assumption

theorem PlainRun.emit' {σ : Type} {i : VMInstr} (h : i.isPlain = true) :
    PlainRun (emit i : M σ Unit) := by
  intro s a out s' hr
  rw [emit_run] at hr
  simp only [Except.ok.injEq, Prod.mk.injEq] at hr
  obtain ⟨-, rfl, rfl⟩ := hr
  exact ⟨by intro j hm; simp at hm; subst hm; exact h, rfl, rfl⟩

theorem PlainRun.throwP {σ α : Type} (e : PyExc) : PlainRun (M.throw e : M σ α) :=
  .ofTok (TokOnly.throwT e)

theorem emitStringChars_plainRun {σ : Type} (cs : List Char) :
    PlainRun (emitStringChars cs : M σ Unit) := by
  induction cs with
  | nil => exact .ofTok (TokOnly.pure' _)
  | cons c cs ih =>
      show PlainRun (emit _ >>= fun _ => emit _ >>= fun _ => emitStringChars cs)
      exact .bindP (.emit' rfl) fun _ => .bindP (.emit' rfl) fun _ => ih

/-- Runs of statement compilers: the output satisfies the branch-label
invariant between the starting and final counter values, contains no
`function` directive, and the symbol table is unchanged. -/
def StmtRun {σ α : Type} (m : M σ α) : Prop :=
  ∀ s a out s', m s = .ok (a, out, s') →
    StInv s.branch s'.branch out ∧ funcFree out ∧ s'.table = s.table

theorem StmtRun.of_plainRun {σ α : Type} {m : M σ α} (h : PlainRun m) :
    StmtRun m := by
  intro s a out s' hr
  obtain ⟨hp, hb, ht⟩ := h _ _ _ _ hr
  refine ⟨?_, plainOut_funcFree hp, ht⟩
  rw [hb]
  exact StInv_plain hp _

theorem StmtRun.bindS {σ α β : Type} {m : M σ α} {f : α → M σ β}
    (hm : StmtRun m) (hf : ∀ a, StmtRun (f a)) : StmtRun (m >>= f) := by
  intro s a out s' h
  rcases bind_eq_ok.mp h with ⟨x, o₁, s₁, o₂, h₁, h₂, rfl⟩
  obtain ⟨hi₁, hff₁, ht₁⟩ := hm _ _ _ _ h₁
  obtain ⟨hi₂, hff₂, ht₂⟩ := hf _ _ _ _ _ h₂
  exact ⟨StInv_append hi₁ hi₂, funcFree_append hff₁ hff₂, by rw [ht₂, ht₁]⟩

theorem StmtRun.iteS {σ α : Type} {c : Prop} [Decidable c] {m₁ m₂ : M σ α}
    (h₁ : StmtRun m₁) (h₂ : StmtRun m₂) : StmtRun (if c then m₁ else m₂) := by
  split <;> assumption

end Eng

namespace Eng

/-! ### Stepwise decomposition helpers for successful runs -/

theorem step_tokOnly {σ α β : Type} {m : M σ α} (hm : TokOnly m)
    {f : α → M σ β} {s s' : EngState σ} {a : β} {out : List VMInstr}
    (h : (m >>= f) s = .ok (a, out, s')) :
    ∃ x s₁, s₁.branch = s.branch ∧ s₁.table = s.table
      ∧ f x s₁ = .ok (a, out, s') := by
  rcases bind_eq_ok.mp h with ⟨x, o₁, s₁, o₂, h₁, h₂, rfl⟩
  obtain ⟨rfl, hb, ht⟩ := hm _ _ _ _ h₁
  exact ⟨x, s₁, hb, ht, by simpa using h₂⟩

theorem step_emit {σ β : Type} {i : VMInstr} {f : Unit → M σ β}
    {s s' : EngState σ} {a : β} {out : List VMInstr}
    (h : (emit i >>= f) s = .ok (a, out, s')) :
    ∃ o₂, f () s = .ok (a, o₂, s') ∧ out = i :: o₂ := by
  rcases bind_eq_ok.mp h with ⟨x, o₁, s₁, o₂, h₁, h₂, rfl⟩
  rw [emit_run] at h₁
  simp only [Except.ok.injEq, Prod.mk.injEq] at h₁
  obtain ⟨-, rfl, rfl⟩ := h₁
  exact ⟨o₂, h₂, rfl⟩

theorem step_incBranch {σ β : Type} {f : Nat → M σ β}
    {s s' : EngState σ} {a : β} {out : List VMInstr}
    (h : (incBranch >>= f) s = .ok (a, out, s')) :
    f (s.branch + 1) { s with branch := s.branch + 1 } = .ok (a, out, s') := by
  rcases bind_eq_ok.mp h with ⟨x, o₁, s₁, o₂, h₁, h₂, rfl⟩
  rw [incBranch_run] at h₁
  simp only [Except.ok.injEq, Prod.mk.injEq] at h₁
  obtain ⟨rfl, rfl, rfl⟩ := h₁
  simpa using h₂

theorem emit_eq_ok {σ : Type} {i : VMInstr} {s s' : EngState σ} {a : Unit}
    {out : List VMInstr} (h : (emit i : M σ Unit) s = .ok (a, out, s')) :
    out = [i] ∧ s' = s := by
  rw [emit_run] at h
  simp only [Except.ok.injEq, Prod.mk.injEq] at h
  exact ⟨h.2.1.symm, h.2.2.symm⟩

/-! ### The master invariant of the expression and statement compilers

By induction on the fuel: every expression-level compiler emits plain
instructions only and preserves the branch counter and the symbol
table; `let`, `do` and `return` likewise (their output adds `pop`,
`push` and `return`, all plain); `if`, `while` and the statement list
satisfy the branch-label invariant `StInv` between the starting and
final counter values, emit no `function` directive, and preserve the
symbol table. -/

theorem engineStmtInv {σ : Type} (ops : TableOps σ) : ∀ fuel : Nat,
    PlainRun (compileExpression ops fuel)
    ∧ PlainRun (exprOpLoop ops fuel)
    ∧ PlainRun (compileTerm ops fuel)
    ∧ (∀ nm asrt, PlainRun (compileSubroutineCall ops nm asrt fuel))
    ∧ PlainRun (compileExpressionList ops fuel)
    ∧ PlainRun (exprListCommaLoop ops fuel)
    ∧ PlainRun (compileLet ops fuel)
    ∧ PlainRun (compileDo ops fuel)
    ∧ PlainRun (compileReturn ops fuel)
    ∧ StmtRun (compileIf ops fuel)
    ∧ StmtRun (compileWhile ops fuel)
    ∧ StmtRun (compileStatements ops fuel) := by
  intro fuel
  induction fuel with
  | zero =>
      exact ⟨.throwP _, .throwP _, .throwP _, fun _ _ => .throwP _, .throwP _,
        .throwP _, .throwP _, .throwP _, .throwP _,
        .of_plainRun (.throwP _), .of_plainRun (.throwP _),
        .of_plainRun (.throwP _)⟩
  | succ fuel ih =>
      obtain ⟨ihE, ihOp, ihT, ihSC, ihEL, ihCL, ihLet, ihDo, ihRet, ihIf,
        ihWh, ihSt⟩ := ih
      refine ⟨?_, ?_, ?_, ?_, ?_, ?_, ?_, ?_, ?_, ?_, ?_, ?_⟩
      · -- compileExpression
        rw [compileExpression_succ]
        unfold compileExpressionStep
        simp only [engine_compileTerm, engine_exprOpLoop]
        exact .bindP ihT fun _ => ihOp
      · -- exprOpLoop
        rw [exprOpLoop_succ]
        unfold exprOpLoopStep
        simp only [engine_compileTerm, engine_exprOpLoop]
        refine PlainRun.bindP (.ofTok (checkTokenMem_tokOnly _ _)) fun b => ?_
        refine PlainRun.iteP ?_ (.ofTok (TokOnly.pure' _))
        refine PlainRun.bindP (.ofTok getAssertPlain_tokOnly) fun op => ?_
        refine PlainRun.bindP ihT fun _ => ?_
        refine PlainRun.iteP (.bindP (.emit' rfl) fun _ => ihOp) ?_
        refine PlainRun.iteP (.bindP (.emit' rfl) fun _ => ihOp) ?_
        exact .bindP (.ofTok (liftE_tokOnly _)) fun cmd =>
          .bindP (.emit' rfl) fun _ => ihOp
      · -- compileTerm
        rw [compileTerm_succ]
        unfold compileTermStep
        simp only [engine_compileTerm, engine_compileExpression,
          engine_compileSubroutineCall]
        refine PlainRun.bindP (.ofTok curType_tokOnly) fun ty => ?_
        refine PlainRun.iteP ?_ ?_
        · exact .bindP (.ofTok curText_tokOnly) fun t =>
            .bindP (.emit' rfl) fun _ => .ofTok advanceT_tokOnly
        refine PlainRun.iteP ?_ ?_
        · exact .bindP (.ofTok getAssertPlain_tokOnly) fun str =>
            .bindP (.emit' rfl) fun _ => .bindP (.emit' rfl) fun _ =>
              emitStringChars_plainRun _
        refine PlainRun.bindP (.ofTok (checkTokenStr_tokOnly _ _)) fun bT => ?_
        refine PlainRun.iteP (.bindP (.emit' rfl) fun _ => .emit' rfl) ?_
        refine PlainRun.bindP (.ofTok (checkTokenMem_tokOnly _ _)) fun bZ => ?_
        refine PlainRun.iteP (.emit' rfl) ?_
        refine PlainRun.bindP (.ofTok (checkTokenStr_tokOnly _ _)) fun bTh => ?_
        refine PlainRun.iteP (.emit' rfl) ?_
        refine PlainRun.iteP ?_ ?_
        · refine PlainRun.bindP (.ofTok getAssertPlain_tokOnly) fun name => ?_
          refine PlainRun.bindP (ihSC _ _) fun r => ?_
          refine PlainRun.iteP (.ofTok (TokOnly.pure' _)) ?_
          refine PlainRun.bindP (.ofTok (checkTokenStr_tokOnly _ _)) fun bB => ?_
          refine PlainRun.iteP ?_ ?_
          · exact .bindP (.ofTok (getVarE_tokOnly _ _ _)) fun arr =>
              .bindP (.ofTok advanceT_tokOnly) fun _ =>
                .bindP (.emit' rfl) fun _ => .bindP ihE fun _ =>
                  .bindP (.emit' rfl) fun _ => .bindP (.emit' rfl) fun _ =>
                    .bindP (.emit' rfl) fun _ =>
                      .ofTok (assertToken_tokOnly _ _ _)
          · exact .bindP (.ofTok (getVarE_tokOnly _ _ _)) fun var => .emit' rfl
        · refine PlainRun.bindP (.ofTok (checkTokenStr_tokOnly _ _)) fun bP => ?_
          refine PlainRun.iteP
            (.bindP ihE fun _ => .ofTok (assertToken_tokOnly _ _ _)) ?_
          refine PlainRun.bindP (.ofTok (checkTokenStr_tokOnly _ _)) fun bN => ?_
          refine PlainRun.iteP (.bindP ihT fun _ => .emit' rfl) ?_
          refine PlainRun.bindP (.ofTok (checkTokenStr_tokOnly _ _)) fun bNot => ?_
          exact PlainRun.iteP (.bindP ihT fun _ => .emit' rfl)
            (.ofTok (TokOnly.pure' _))
      · -- compileSubroutineCall
        intro nm asrt
        rw [compileSubroutineCall_succ]
        unfold compileSubroutineCallStep
        simp only [engine_compileExpressionList]
        refine PlainRun.bindP (.ofTok (checkTokenStr_tokOnly _ _)) fun hD => ?_
        refine PlainRun.iteP ?_ ?_
        · refine PlainRun.bindP (.ofTok (getAssertWith_tokOnly
            (assertIdentifier_tokOnly _ _))) fun sub => ?_
          refine PlainRun.bindP (.ofTok getTable_tokOnly) fun t => ?_
          refine PlainRun.bindP (.ofTok (liftE_tokOnly _)) fun v => ?_
          cases v with
          | none =>
              refine PlainRun.bindP (.ofTok (TokOnly.pure' _)) fun y => ?_
              refine PlainRun.bindP (.ofTok (checkTokenStr_tokOnly _ _)) fun hP => ?_
              refine PlainRun.iteP ?_ (PlainRun.iteP
                (.ofTok (raiseErr_tokOnly _ _ _))
                (.ofTok (TokOnly.pure' _)))
              refine PlainRun.iteP ?_ ?_
              · refine PlainRun.bindP (.ofTok getClassName_tokOnly) fun cls => ?_
                refine PlainRun.bindP (.emit' rfl) fun _ => ?_
                refine PlainRun.bindP (.ofTok (TokOnly.pure' _)) fun y2 => ?_
                exact .bindP (.ofTok advanceT_tokOnly) fun _ =>
                  .bindP ihEL fun nE =>
                    .bindP (.ofTok (assertToken_tokOnly _ _ _)) fun _ =>
                      .bindP (.emit' rfl) fun _ => .ofTok (TokOnly.pure' _)
              · refine PlainRun.bindP (.ofTok (TokOnly.pure' _)) fun y2 => ?_
                exact .bindP (.ofTok advanceT_tokOnly) fun _ =>
                  .bindP ihEL fun nE =>
                    .bindP (.ofTok (assertToken_tokOnly _ _ _)) fun _ =>
                      .bindP (.emit' rfl) fun _ => .ofTok (TokOnly.pure' _)
          | some var =>
              refine PlainRun.bindP (.emit' rfl) fun _ => ?_
              refine PlainRun.bindP (.ofTok (TokOnly.pure' _)) fun y => ?_
              refine PlainRun.bindP (.ofTok (checkTokenStr_tokOnly _ _)) fun hP => ?_
              refine PlainRun.iteP ?_ (PlainRun.iteP
                (.ofTok (raiseErr_tokOnly _ _ _))
                (.ofTok (TokOnly.pure' _)))
              refine PlainRun.iteP ?_ ?_
              · refine PlainRun.bindP (.ofTok getClassName_tokOnly) fun cls => ?_
                refine PlainRun.bindP (.emit' rfl) fun _ => ?_
                refine PlainRun.bindP (.ofTok (TokOnly.pure' _)) fun y2 => ?_
                exact .bindP (.ofTok advanceT_tokOnly) fun _ =>
                  .bindP ihEL fun nE =>
                    .bindP (.ofTok (assertToken_tokOnly _ _ _)) fun _ =>
                      .bindP (.emit' rfl) fun _ => .ofTok (TokOnly.pure' _)
              · refine PlainRun.bindP (.ofTok (TokOnly.pure' _)) fun y2 => ?_
                exact .bindP (.ofTok advanceT_tokOnly) fun _ =>
                  .bindP ihEL fun nE =>
                    .bindP (.ofTok (assertToken_tokOnly _ _ _)) fun _ =>
                      .bindP (.emit' rfl) fun _ => .ofTok (TokOnly.pure' _)
        · refine PlainRun.bindP (.ofTok (TokOnly.pure' _)) fun y => ?_
          refine PlainRun.bindP (.ofTok (checkTokenStr_tokOnly _ _)) fun hP => ?_
          refine PlainRun.iteP ?_ (PlainRun.iteP
            (.ofTok (raiseErr_tokOnly _ _ _))
            (.ofTok (TokOnly.pure' _)))
          refine PlainRun.iteP ?_ ?_
          · refine PlainRun.bindP (.ofTok getClassName_tokOnly) fun cls => ?_
            refine PlainRun.bindP (.emit' rfl) fun _ => ?_
            refine PlainRun.bindP (.ofTok (TokOnly.pure' _)) fun y2 => ?_
            exact .bindP (.ofTok advanceT_tokOnly) fun _ =>
              .bindP ihEL fun nE =>
                .bindP (.ofTok (assertToken_tokOnly _ _ _)) fun _ =>
                  .bindP (.emit' rfl) fun _ => .ofTok (TokOnly.pure' _)
          · refine PlainRun.bindP (.ofTok (TokOnly.pure' _)) fun y2 => ?_
            exact .bindP (.ofTok advanceT_tokOnly) fun _ =>
              .bindP ihEL fun nE =>
                .bindP (.ofTok (assertToken_tokOnly _ _ _)) fun _ =>
                  .bindP (.emit' rfl) fun _ => .ofTok (TokOnly.pure' _)
      · -- compileExpressionList
        rw [compileExpressionList_succ]
        unfold compileExpressionListStep
        simp only [engine_compileExpression, engine_exprListCommaLoop]
        refine PlainRun.bindP (.ofTok curText_tokOnly) fun t => ?_
        refine PlainRun.bindP (.ofTok curType_tokOnly) fun ty => ?_
        refine PlainRun.iteP ?_ (.ofTok (TokOnly.pure' _))
        exact .bindP ihE fun _ => .bindP ihCL fun n => .ofTok (TokOnly.pure' _)
      · -- exprListCommaLoop
        rw [exprListCommaLoop_succ]
        unfold exprListCommaLoopStep
        simp only [engine_compileExpression, engine_exprListCommaLoop]
        refine PlainRun.bindP (.ofTok (checkTokenStr_tokOnly _ _)) fun b => ?_
        refine PlainRun.iteP ?_ (.ofTok (TokOnly.pure' _))
        exact .bindP ihE fun _ => .bindP ihCL fun n => .ofTok (TokOnly.pure' _)
      · -- compileLet
        rw [compileLet_succ]
        unfold compileLetStep
        simp only [engine_compileExpression]
        refine PlainRun.bindP (.ofTok (getAssertWith_tokOnly
          (assertIdentifier_tokOnly _ _))) fun name => ?_
        refine PlainRun.bindP (.ofTok (getVarE_tokOnly _ _ _)) fun var => ?_
        refine PlainRun.bindP (.ofTok (checkTokenStr_tokOnly _ _)) fun isArr => ?_
        refine PlainRun.iteP ?_ ?_
        · refine PlainRun.bindP (.emit' rfl) fun _ => ?_
          refine PlainRun.bindP ihE fun _ => ?_
          refine PlainRun.bindP (.emit' rfl) fun _ => ?_
          refine PlainRun.bindP (.ofTok (assertToken_tokOnly _ _ _)) fun _ => ?_
          refine PlainRun.bindP (.ofTok (assertToken_tokOnly _ _ _)) fun _ => ?_
          refine PlainRun.bindP ihE fun _ => ?_
          refine PlainRun.iteP ?_ ?_
          · exact .bindP (.emit' rfl) fun _ => .bindP (.emit' rfl) fun _ =>
              .bindP (.emit' rfl) fun _ => .bindP (.emit' rfl) fun _ =>
                .ofTok (assertToken_tokOnly _ _ _)
          · exact .bindP (.emit' rfl) fun _ =>
              .ofTok (assertToken_tokOnly _ _ _)
        · refine PlainRun.bindP (.ofTok (TokOnly.pure' _)) fun _ => ?_
          refine PlainRun.bindP (.ofTok (assertToken_tokOnly _ _ _)) fun _ => ?_
          refine PlainRun.bindP ihE fun _ => ?_
          refine PlainRun.iteP ?_ ?_
          · exact .bindP (.emit' rfl) fun _ => .bindP (.emit' rfl) fun _ =>
              .bindP (.emit' rfl) fun _ => .bindP (.emit' rfl) fun _ =>
                .ofTok (assertToken_tokOnly _ _ _)
          · exact .bindP (.emit' rfl) fun _ =>
              .ofTok (assertToken_tokOnly _ _ _)
      · -- compileDo
        rw [compileDo_succ]
        unfold compileDoStep
        simp only [engine_compileSubroutineCall]
        refine PlainRun.bindP (.ofTok (getAssertWith_tokOnly
          (assertIdentifier_tokOnly _ _))) fun name => ?_
        exact .bindP (ihSC _ _) fun _ => .bindP (.emit' rfl) fun _ =>
          .ofTok (assertToken_tokOnly _ _ _)
      · -- compileReturn
        rw [compileReturn_succ]
        unfold compileReturnStep
        simp only [engine_compileExpression]
        refine PlainRun.bindP (.ofTok curText_tokOnly) fun t => ?_
        refine PlainRun.iteP ?_ ?_
        · exact .bindP (.emit' rfl) fun _ => .bindP (.emit' rfl) fun _ =>
            .ofTok (assertToken_tokOnly _ _ _)
        · exact .bindP ihE fun _ => .bindP (.emit' rfl) fun _ =>
            .ofTok (assertToken_tokOnly _ _ _)
      · -- compileIf
        rw [compileIf_succ]
        unfold compileIfStep
        simp only [engine_compileExpression, engine_compileStatements]
        intro s a out s' h
        have h0 := step_incBranch h
        obtain ⟨x₂, s₂, hb₂, ht₂, h1⟩ := step_tokOnly (assertToken_tokOnly _ _ _) h0
        rcases bind_eq_ok.mp h1 with ⟨u₁, cond, s₃, o₃, hc, h2, rfl⟩
        obtain ⟨hcP, hb₃, ht₃⟩ := ihE _ _ _ _ hc
        obtain ⟨x₄, s₄, hb₄, ht₄, h3⟩ := step_tokOnly (assertToken_tokOnly _ _ _) h2
        obtain ⟨o, h4, rfl⟩ := step_emit h3
        obtain ⟨o2, h5, rfl⟩ := step_emit h4
        obtain ⟨x₅, s₅, hb₅, ht₅, h6⟩ := step_tokOnly (assertToken_tokOnly _ _ _) h5
        rcases bind_eq_ok.mp h6 with ⟨u₂, thn, s₆, o₄, hthn, h7, rfl⟩
        obtain ⟨hthnI, hthnF, ht₆⟩ := ihSt _ _ _ _ hthn
        obtain ⟨x₇, s₇, hb₇, ht₇, h8⟩ := step_tokOnly (assertToken_tokOnly _ _ _) h7
        obtain ⟨o3, h9, rfl⟩ := step_emit h8
        obtain ⟨o4, h10, rfl⟩ := step_emit h9
        obtain ⟨bE, s₈, hb₈, ht₈, h11⟩ := step_tokOnly (checkTokenStr_tokOnly _ _) h10
        have key : ∃ els, o4 = els ++ [VMInstr.label (endLabel (s.branch + 1))]
            ∧ StInv s₈.branch s'.branch els ∧ funcFree els
            ∧ s'.table = s₈.table := by
          cases bE with
          | false =>
              rw [if_neg (by simp)] at h11
              obtain ⟨x, s₉, hb₉, ht₉, h12⟩ := step_tokOnly (TokOnly.pure' ()) h11
              obtain ⟨rfl, rfl⟩ := emit_eq_ok h12
              refine ⟨[], rfl, ?_, by intro i hm; simp at hm, ht₉⟩
              rw [hb₉]
              exact StInv_nil _
          | true =>
              rw [if_pos rfl] at h11
              obtain ⟨y₁, t₁, hbt₁, htt₁, h12⟩ :=
                step_tokOnly (assertToken_tokOnly _ _ _) h11
              rcases bind_eq_ok.mp h12 with ⟨u₄, els, t₂, e₂, he₁, h13, rfl⟩
              obtain ⟨heI, heF, htt₂⟩ := ihSt _ _ _ _ he₁
              obtain ⟨y₂, t₃, hbt₃, htt₃, h14⟩ :=
                step_tokOnly (assertToken_tokOnly _ _ _) h13
              obtain ⟨rfl, rfl⟩ := emit_eq_ok h14
              refine ⟨els, rfl, ?_, heF, by rw [htt₃, htt₂, htt₁]⟩
              rw [hbt₃, ← hbt₁]
              exact heI
        obtain ⟨els, rfl, helsI, helsF, htFin⟩ := key
        have hb5 : s₅.branch = s.branch + 1 := by rw [hb₅, hb₄, hb₃, hb₂]
        have h86 : s₈.branch = s₆.branch := by rw [hb₈, hb₇]
        refine ⟨?_, ?_, ?_⟩
        · show StInv s.branch s'.branch (ifSkel (s.branch + 1) cond thn els)
          refine @StInv_if_wrap s.branch s₆.branch s'.branch cond thn els hcP ?_ ?_
          · rw [← hb5]
            exact hthnI
          · rw [h86] at helsI
            exact helsI
        · exact ifSkel_funcFree (plainOut_funcFree hcP) hthnF helsF
        · rw [htFin, ht₈, ht₇, ht₆, ht₅, ht₄, ht₃, ht₂]
      · -- compileWhile
        rw [compileWhile_succ]
        unfold compileWhileStep
        simp only [engine_compileExpression, engine_compileStatements]
        intro s a out s' h
        have h0 := step_incBranch h
        obtain ⟨o, h1, rfl⟩ := step_emit h0
        obtain ⟨x₂, s₂, hb₂, ht₂, h2⟩ := step_tokOnly (assertToken_tokOnly _ _ _) h1
        rcases bind_eq_ok.mp h2 with ⟨u₁, cond, s₃, o₃, hc, h3, rfl⟩
        obtain ⟨hcP, hb₃, ht₃⟩ := ihE _ _ _ _ hc
        obtain ⟨x₄, s₄, hb₄, ht₄, h4⟩ := step_tokOnly (assertToken_tokOnly _ _ _) h3
        obtain ⟨o2, h5, rfl⟩ := step_emit h4
        obtain ⟨o3, h6, rfl⟩ := step_emit h5
        obtain ⟨x₅, s₅, hb₅, ht₅, h7⟩ := step_tokOnly (assertToken_tokOnly _ _ _) h6
        rcases bind_eq_ok.mp h7 with ⟨u₂, bod, s₆, o₄, hbod, h8, rfl⟩
        obtain ⟨hbodI, hbodF, ht₆⟩ := ihSt _ _ _ _ hbod
        obtain ⟨x₇, s₇, hb₇, ht₇, h9⟩ := step_tokOnly (assertToken_tokOnly _ _ _) h8
        obtain ⟨o5, h10, rfl⟩ := step_emit h9
        obtain ⟨rfl, rfl⟩ := emit_eq_ok h10
        have hb5 : s₅.branch = s.branch + 1 := by rw [hb₅, hb₄, hb₃, hb₂]
        refine ⟨?_, ?_, ?_⟩
        · show StInv s.branch s'.branch (whileSkel (s.branch + 1) cond bod)
          refine StInv_while_wrap hcP ?_
          rw [hb₇, ← hb5]
          exact hbodI
        · exact whileSkel_funcFree (plainOut_funcFree hcP) hbodF
        · rw [ht₇, ht₆, ht₅, ht₄, ht₃, ht₂]
      · -- compileStatements
        rw [compileStatements_succ]
        unfold compileStatementsStep
        simp only [engine_compileLet, engine_compileIf, engine_compileWhile,
          engine_compileDo, engine_compileReturn, engine_compileStatements]
        refine StmtRun.bindS (.of_plainRun (.ofTok (checkTokenStr_tokOnly _ _)))
          fun bLet => ?_
        refine StmtRun.iteS (.bindS (.of_plainRun ihLet) fun _ => ihSt) ?_
        refine StmtRun.bindS (.of_plainRun (.ofTok (checkTokenStr_tokOnly _ _)))
          fun bIf => ?_
        refine StmtRun.iteS (.bindS ihIf fun _ => ihSt) ?_
        refine StmtRun.bindS (.of_plainRun (.ofTok (checkTokenStr_tokOnly _ _)))
          fun bWh => ?_
        refine StmtRun.iteS (.bindS ihWh fun _ => ihSt) ?_
        refine StmtRun.bindS (.of_plainRun (.ofTok (checkTokenStr_tokOnly _ _)))
          fun bDo => ?_
        refine StmtRun.iteS (.bindS (.of_plainRun ihDo) fun _ => ihSt) ?_
        refine StmtRun.bindS (.of_plainRun (.ofTok (checkTokenStr_tokOnly _ _)))
          fun bRet => ?_
        exact StmtRun.iteS (.bindS (.of_plainRun ihRet) fun _ => ihSt)
          (.of_plainRun (.ofTok (TokOnly.pure' _)))

end Eng

namespace Eng

/-! ### Class-level invariant: labels stay unique across subroutines -/

theorem StInv_single {i : VMInstr} (hL : ∀ lab, i ≠ VMInstr.label lab)
    (hG : ∀ lab, i ≠ VMInstr.ifGoto lab) (b : Nat) : StInv b b [i] := by
  have hcl : ∀ lab, cntL [i] lab = 0 := by
    intro lab
    rw [cntL, List.count_eq_zero]
    intro hm
    rw [List.mem_singleton] at hm
    exact hL lab hm.symm
  have hcg : ∀ lab, cntIG [i] lab = 0 := by
    intro lab
    rw [cntIG, List.count_eq_zero]
    intro hm
    rw [List.mem_singleton] at hm
    exact hG lab hm.symm
  refine ⟨le_refl b, ?_, ?_, ?_⟩
  · intro k _
    exact ⟨hcl _, hcl _, hcl _, hcl _, hcg _, hcg _⟩
  · intro k h1 h2
    omega
  · intro lab hm
    rw [List.mem_singleton] at hm
    exact absurd hm.symm (hG lab)

/-- Runs that emit nothing and keep the branch counter (the declaration
compilers: they only consume tokens and update the symbol table). -/
def QuietRun {σ α : Type} (m : M σ α) : Prop :=
  ∀ s a out s', m s = .ok (a, out, s') → out = [] ∧ s'.branch = s.branch

theorem QuietRun.ofTokQ {σ α : Type} {m : M σ α} (h : TokOnly m) :
    QuietRun m := fun s a out s' hr =>
  ⟨(h _ _ _ _ hr).1, (h _ _ _ _ hr).2.1⟩

theorem QuietRun.bindQ {σ α β : Type} {m : M σ α} {f : α → M σ β}
    (hm : QuietRun m) (hf : ∀ a, QuietRun (f a)) : QuietRun (m >>= f) := by
  intro s a out s' h
  rcases bind_eq_ok.mp h with ⟨x, o₁, s₁, o₂, h₁, h₂, rfl⟩
  obtain ⟨rfl, hb₁⟩ := hm _ _ _ _ h₁
  obtain ⟨rfl, hb₂⟩ := hf _ _ _ _ _ h₂
  exact ⟨rfl, by rw [hb₂, hb₁]⟩

theorem QuietRun.iteQ {σ α : Type} {c : Prop} [Decidable c] {m₁ m₂ : M σ α}
    (h₁ : QuietRun m₁) (h₂ : QuietRun m₂) : QuietRun (if c then m₁ else m₂) := by
  split <;> assumption

theorem setTable_quiet {σ : Type} (t : σ) : QuietRun (setTable t) := by
  intro s a out s' h
  simp only [setTable, Except.ok.injEq, Prod.mk.injEq] at h
  obtain ⟨-, rfl, rfl⟩ := h
  exact ⟨rfl, rfl⟩

theorem setClassName_quiet {σ : Type} (c : String) :
    QuietRun (setClassName c : M σ Unit) := by
  intro s a out s' h
  simp only [setClassName, Except.ok.injEq, Prod.mk.injEq] at h
  obtain ⟨-, rfl, rfl⟩ := h
  exact ⟨rfl, rfl⟩

theorem defineVar_quiet {σ : Type} (ops : TableOps σ) (type_ kind : String) :
    QuietRun (defineVar ops type_ kind) := by
  unfold defineVar
  exact .bindQ (.ofTokQ (getAssertWith_tokOnly (assertIdentifier_tokOnly _ _)))
    fun name => .bindQ (.ofTokQ getTable_tokOnly) fun tb =>
      .bindQ (.ofTokQ (liftE_tokOnly _)) fun t2 => setTable_quiet _

/-- Runs whose output satisfies the branch-label invariant between the
starting and final counter values (no constraint on the table or on
`function` directives: this holds of whole classes). -/
def BrRun {σ α : Type} (m : M σ α) : Prop :=
  ∀ s a out s', m s = .ok (a, out, s') → StInv s.branch s'.branch out

theorem BrRun.of_quiet {σ α : Type} {m : M σ α} (h : QuietRun m) : BrRun m := by
  intro s a out s' hr
  obtain ⟨rfl, hb⟩ := h _ _ _ _ hr
  rw [hb]
  exact StInv_nil _

theorem BrRun.of_stmtRun {σ α : Type} {m : M σ α} (h : StmtRun m) : BrRun m :=
  fun s a out s' hr => ((h _ _ _ _ hr).1)

theorem BrRun.bindB {σ α β : Type} {m : M σ α} {f : α → M σ β}
    (hm : BrRun m) (hf : ∀ a, BrRun (f a)) : BrRun (m >>= f) := by
  intro s a out s' h
  rcases bind_eq_ok.mp h with ⟨x, o₁, s₁, o₂, h₁, h₂, rfl⟩
  exact StInv_append (hm _ _ _ _ h₁) (hf _ _ _ _ _ h₂)

theorem BrRun.iteB {σ α : Type} {c : Prop} [Decidable c] {m₁ m₂ : M σ α}
    (h₁ : BrRun m₁) (h₂ : BrRun m₂) : BrRun (if c then m₁ else m₂) := by
  split <;> assumption

theorem BrRun.emitBr {σ : Type} {i : VMInstr}
    (hL : ∀ lab, i ≠ VMInstr.label lab) (hG : ∀ lab, i ≠ VMInstr.ifGoto lab) :
    BrRun (emit i : M σ Unit) := by
  intro s a out s' h
  obtain ⟨rfl, rfl⟩ := emit_eq_ok h
  exact StInv_single hL hG _

/-- The declaration compilers are quiet; the subroutine and class
compilers satisfy the branch-label invariant end to end. -/
theorem engineClassInv {σ : Type} (ops : TableOps σ) : ∀ fuel : Nat,
    (∀ t k, QuietRun (commaDefineLoop ops t k fuel))
    ∧ QuietRun (compileVarDec ops fuel)
    ∧ QuietRun (paramCommaLoop ops fuel)
    ∧ QuietRun (compileParameterList ops fuel)
    ∧ QuietRun (compileClassVarDec ops fuel)
    ∧ BrRun (compileSubroutineBody ops fuel)
    ∧ BrRun (compileSubroutine ops fuel)
    ∧ BrRun (compileClass ops fuel) := by
  intro fuel
  induction fuel with
  | zero =>
      exact ⟨fun t k => .ofTokQ (TokOnly.throwT _),
        .ofTokQ (TokOnly.throwT _), .ofTokQ (TokOnly.throwT _),
        .ofTokQ (TokOnly.throwT _), .ofTokQ (TokOnly.throwT _),
        .of_quiet (.ofTokQ (TokOnly.throwT _)),
        .of_quiet (.ofTokQ (TokOnly.throwT _)),
        .of_quiet (.ofTokQ (TokOnly.throwT _))⟩
  | succ fuel ih =>
      obtain ⟨ihCDL, ihVD, ihPCL, ihPL, ihCVD, ihSB, ihS, ihC⟩ := ih
      have hstmts : BrRun (compileStatements ops fuel) :=
        .of_stmtRun (engineStmtInv ops fuel).2.2.2.2.2.2.2.2.2.2.2
      refine ⟨?_, ?_, ?_, ?_, ?_, ?_, ?_, ?_⟩
      · intro t k
        rw [commaDefineLoop_succ]
        unfold commaDefineLoopStep
        simp only [engine_commaDefineLoop]
        refine QuietRun.bindQ (.ofTokQ (checkTokenStr_tokOnly _ _)) fun b => ?_
        exact QuietRun.iteQ
          (.bindQ (defineVar_quiet _ _ _) fun _ => ihCDL _ _)
          (.ofTokQ (TokOnly.pure' _))
      · rw [compileVarDec_succ]
        unfold compileVarDecStep
        simp only [engine_commaDefineLoop, engine_compileVarDec]
        refine QuietRun.bindQ (.ofTokQ (checkTokenStr_tokOnly _ _)) fun b => ?_
        refine QuietRun.iteQ ?_ (.ofTokQ (TokOnly.pure' _))
        exact .bindQ (.ofTokQ (getAssertWith_tokOnly (assertType_tokOnly _ _)))
          fun ty => .bindQ (defineVar_quiet _ _ _) fun _ =>
            .bindQ (ihCDL _ _) fun _ =>
              .bindQ (.ofTokQ (assertToken_tokOnly _ _ _)) fun _ => ihVD
      · rw [paramCommaLoop_succ]
        unfold paramCommaLoopStep
        simp only [engine_paramCommaLoop]
        refine QuietRun.bindQ (.ofTokQ (checkTokenStr_tokOnly _ _)) fun b => ?_
        refine QuietRun.iteQ ?_ (.ofTokQ (TokOnly.pure' _))
        exact .bindQ (.ofTokQ getAssertPlain_tokOnly) fun ty =>
          .bindQ (defineVar_quiet _ _ _) fun _ => ihPCL
      · rw [compileParameterList_succ]
        unfold compileParameterListStep
        simp only [engine_paramCommaLoop]
        refine QuietRun.bindQ (.ofTokQ curText_tokOnly) fun t => ?_
        refine QuietRun.bindQ (.ofTokQ curType_tokOnly) fun ty => ?_
        refine QuietRun.iteQ ?_ (.ofTokQ (TokOnly.pure' _))
        exact .bindQ (.ofTokQ getAssertPlain_tokOnly) fun tp =>
          .bindQ (defineVar_quiet _ _ _) fun _ => ihPCL
      · rw [compileClassVarDec_succ]
        unfold compileClassVarDecStep
        simp only [engine_commaDefineLoop, engine_compileClassVarDec]
        refine QuietRun.bindQ (.ofTokQ curText_tokOnly) fun t => ?_
        refine QuietRun.iteQ ?_ (.ofTokQ (TokOnly.pure' _))
        exact .bindQ (.ofTokQ getAssertPlain_tokOnly) fun kind =>
          .bindQ (.ofTokQ (getAssertWith_tokOnly (assertType_tokOnly _ _)))
            fun ty => .bindQ (defineVar_quiet _ _ _) fun _ =>
              .bindQ (ihCDL _ _) fun _ =>
                .bindQ (.ofTokQ (assertToken_tokOnly _ _ _)) fun _ => ihCVD
      · rw [compileSubroutineBody_succ]
        unfold compileSubroutineBodyStep
        simp only [engine_compileParameterList, engine_compileVarDec,
          engine_compileStatements]
        repeat first
          | exact hstmts
          | exact BrRun.of_quiet (ihPL)
          | exact BrRun.of_quiet (ihVD)
          | exact BrRun.emitBr (by rintro lab ⟨⟩) (by rintro lab ⟨⟩)
          | exact BrRun.of_quiet (.ofTokQ (assertToken_tokOnly _ _ _))
          | exact BrRun.of_quiet (.ofTokQ (getAssertWith_tokOnly
              (assertIdentifier_tokOnly _ _)))
          | exact BrRun.of_quiet (.ofTokQ (getAssertWith_tokOnly
              (assertSubroutineType_tokOnly _ _)))
          | exact BrRun.of_quiet (.ofTokQ getAssertPlain_tokOnly)
          | exact BrRun.of_quiet (.ofTokQ getTable_tokOnly)
          | exact BrRun.of_quiet (.ofTokQ getClassName_tokOnly)
          | exact BrRun.of_quiet (.ofTokQ (liftE_tokOnly _))
          | exact BrRun.of_quiet (.ofTokQ (TokOnly.pure' _))
          | exact BrRun.of_quiet (setTable_quiet _)
          | refine BrRun.bindB ?_ fun _ => ?_
          | apply BrRun.iteB
      · rw [compileSubroutine_succ]
        unfold compileSubroutineStep
        simp only [engine_compileSubroutineBody, engine_compileSubroutine]
        refine BrRun.bindB (.of_quiet (.ofTokQ curText_tokOnly)) fun t => ?_
        exact BrRun.iteB (.bindB ihSB fun _ => ihS)
          (.of_quiet (.ofTokQ (TokOnly.pure' _)))
      · rw [compileClass_succ]
        unfold compileClassStep
        simp only [engine_compileClassVarDec, engine_compileSubroutine]
        refine BrRun.bindB (.of_quiet (setTable_quiet _)) fun _ => ?_
        refine BrRun.bindB (.of_quiet (.ofTokQ (assertToken_tokOnly _ _ _)))
          fun _ => ?_
        refine BrRun.bindB (.of_quiet (.ofTokQ (getAssertWith_tokOnly
          (assertIdentifier_tokOnly _ _)))) fun cn => ?_
        refine BrRun.bindB (.of_quiet (setClassName_quiet _)) fun _ => ?_
        refine BrRun.bindB (.of_quiet (.ofTokQ (assertToken_tokOnly _ _ _)))
          fun _ => ?_
        refine BrRun.bindB (.of_quiet ihCVD) fun _ => ?_
        refine BrRun.bindB ihS fun _ => ?_
        refine BrRun.bindB (.of_quiet (.ofTokQ (assertToken_tokOnly _ _ _)))
          fun _ => ?_
        refine BrRun.bindB (.of_quiet (.ofTokQ hasMoreT_tokOnly)) fun hm => ?_
        exact BrRun.iteB (.of_quiet (.ofTokQ (raiseErr_tokOnly _ _ _)))
          (.of_quiet (.ofTokQ (TokOnly.pure' _)))

/-- The invariant carried to `run`: in a successful run the branch
counter moves from `b` to `b'` and the emitted file satisfies `StInv`,
so every `if-goto` has exactly one matching label. -/
theorem runVM_StInv {σ : Type} (ops : TableOps σ) (fuel : Nat)
    (toks : List Token) (b : Nat) (out : List VMInstr) (b' : Nat)
    (h : runVM ops fuel toks b = .success out b') : StInv b b' out := by
  cases toks with
  | nil =>
      simp only [runVM, RunResult.success.injEq] at h
      obtain ⟨rfl, rfl⟩ := h
      exact StInv_nil b
  | cons t ts =>
      simp only [runVM] at h
      cases hr : compileClass ops fuel
          { cur := some t, rest := ts, branch := b,
            table := ops.fresh, className := "" } with
      | error e =>
          cases e <;> rw [hr] at h <;> simp at h
      | ok r =>
          obtain ⟨u, o, s'⟩ := r
          rw [hr] at h
          dsimp only at h
          by_cases hc : s'.cur.isSome = true
          · rw [if_pos hc] at h
            simp at h
          · rw [if_neg hc] at h
            simp only [RunResult.success.injEq] at h
            obtain ⟨rfl, rfl⟩ := h
            exact (engineClassInv ops fuel).2.2.2.2.2.2.2 _ _ _ _ hr

end Eng

namespace Eng

/-! ### Exact-state characterization of the token helpers

For the local-variable bookkeeping of the subroutine compiler we track
the stream position exactly.  `curTextOf`/`tadv` mirror
`self._tokenizer.token` and `advance` on the pair
(current token, remaining stream). -/

def curTextOf (c : Option Token) : String := (c.map Token.text).getD ""

/-- One `advance` on the (current, rest) pair. -/
def tadv : Option Token × List Token → Option Token × List Token :=
  fun p => (p.2.head?, p.2.tail)

theorem step_pre {σ α β : Type} {m : M σ α} {s s₁ : EngState σ} {x : α}
    (hrun : m s = .ok (x, [], s₁)) {f : α → M σ β} {s' : EngState σ}
    {a : β} {out : List VMInstr}
    (h : (m >>= f) s = .ok (a, out, s')) : f x s₁ = .ok (a, out, s') := by
  rcases bind_eq_ok.mp h with ⟨x2, o₁, s₂, o₂, h₁, h₂, rfl⟩
  rw [hrun] at h₁
  simp only [Except.ok.injEq, Prod.mk.injEq] at h₁
  obtain ⟨rfl, rfl, rfl⟩ := h₁
  simpa using h₂

theorem assertHasMore_ok {σ : Type} {p : Bool} {s s' : EngState σ} {a : Unit}
    {out : List VMInstr} (h : assertHasMore p s = .ok (a, out, s')) :
    out = [] ∧ s' = s := by
  unfold assertHasMore at h
  rcases bind_eq_ok.mp h with ⟨hm, o₁, s₁, o₂, h₁, h₂, rfl⟩
  simp only [hasMoreT, Except.ok.injEq, Prod.mk.injEq] at h₁
  obtain ⟨rfl, rfl, rfl⟩ := h₁
  split at h₂
  · obtain ⟨-, rfl, rfl⟩ := pure_eq_ok.mp h₂
    exact ⟨rfl, rfl⟩
  · exact absurd h₂ throw_not_ok

theorem assertToken_adv_ok {σ : Type} {tok : String} {p : Bool}
    {s s' : EngState σ} {a : Unit} {out : List VMInstr}
    (h : assertToken tok true p s = .ok (a, out, s')) :
    out = [] ∧ s' = { s with cur := s.rest.head?, rest := s.rest.tail } := by
  unfold assertToken at h
  rcases bind_eq_ok.mp h with ⟨u, o₁, s₁, o₂, h₁, h₂, rfl⟩
  obtain ⟨rfl, rfl⟩ := assertHasMore_ok h₁
  rcases bind_eq_ok.mp h₂ with ⟨t, o₃, s₂, o₄, h₃, h₄, rfl⟩
  simp only [curText, Except.ok.injEq, Prod.mk.injEq] at h₃
  obtain ⟨rfl, rfl, rfl⟩ := h₃
  split at h₄
  · rw [if_pos rfl, advanceT_run] at h₄
    simp only [Except.ok.injEq, Prod.mk.injEq] at h₄
    obtain ⟨-, rfl, rfl⟩ := h₄
    exact ⟨rfl, rfl⟩
  · exact absurd h₄ throw_not_ok

theorem assertIdentifier_adv_ok {σ : Type} {p : Bool}
    {s s' : EngState σ} {a : Unit} {out : List VMInstr}
    (h : assertIdentifier true p s = .ok (a, out, s')) :
    out = [] ∧ s' = { s with cur := s.rest.head?, rest := s.rest.tail } := by
  unfold assertIdentifier at h
  rcases bind_eq_ok.mp h with ⟨u, o₁, s₁, o₂, h₁, h₂, rfl⟩
  obtain ⟨rfl, rfl⟩ := assertHasMore_ok h₁
  rcases bind_eq_ok.mp h₂ with ⟨ty, o₃, s₂, o₄, h₃, h₄, rfl⟩
  simp only [curType, Except.ok.injEq, Prod.mk.injEq] at h₃
  obtain ⟨rfl, rfl, rfl⟩ := h₃
  split at h₄
  · rw [if_pos rfl, advanceT_run] at h₄
    simp only [Except.ok.injEq, Prod.mk.injEq] at h₄
    obtain ⟨-, rfl, rfl⟩ := h₄
    exact ⟨rfl, rfl⟩
  · exact absurd h₄ throw_not_ok

theorem assertType_adv_ok {σ : Type} {p : Bool}
    {s s' : EngState σ} {a : Unit} {out : List VMInstr}
    (h : assertType true p s = .ok (a, out, s')) :
    out = [] ∧ s' = { s with cur := s.rest.head?, rest := s.rest.tail } := by
  unfold assertType at h
  rcases bind_eq_ok.mp h with ⟨u, o₁, s₁, o₂, h₁, h₂, rfl⟩
  obtain ⟨rfl, rfl⟩ := assertHasMore_ok h₁
  rcases bind_eq_ok.mp h₂ with ⟨t, o₃, s₂, o₄, h₃, h₄, rfl⟩
  simp only [curText, Except.ok.injEq, Prod.mk.injEq] at h₃
  obtain ⟨rfl, rfl, rfl⟩ := h₃
  rcases bind_eq_ok.mp h₄ with ⟨ty, o₅, s₃, o₆, h₅, h₆, rfl⟩
  simp only [curType, Except.ok.injEq, Prod.mk.injEq] at h₅
  obtain ⟨rfl, rfl, rfl⟩ := h₅
  split at h₆
  · rw [if_pos rfl, advanceT_run] at h₆
    simp only [Except.ok.injEq, Prod.mk.injEq] at h₆
    obtain ⟨-, rfl, rfl⟩ := h₆
    exact ⟨rfl, rfl⟩
  · exact absurd h₆ throw_not_ok

theorem assertSubroutineType_adv_ok {σ : Type} {p : Bool}
    {s s' : EngState σ} {a : Unit} {out : List VMInstr}
    (h : assertSubroutineType true p s = .ok (a, out, s')) :
    out = [] ∧ s' = { s with cur := s.rest.head?, rest := s.rest.tail } := by
  unfold assertSubroutineType at h
  rcases bind_eq_ok.mp h with ⟨u, o₁, s₁, o₂, h₁, h₂, rfl⟩
  obtain ⟨rfl, rfl⟩ := assertHasMore_ok h₁
  rcases bind_eq_ok.mp h₂ with ⟨t, o₃, s₂, o₄, h₃, h₄, rfl⟩
  simp only [curText, Except.ok.injEq, Prod.mk.injEq] at h₃
  obtain ⟨rfl, rfl, rfl⟩ := h₃
  rcases bind_eq_ok.mp h₄ with ⟨ty, o₅, s₃, o₆, h₅, h₆, rfl⟩
  simp only [curType, Except.ok.injEq, Prod.mk.injEq] at h₅
  obtain ⟨rfl, rfl, rfl⟩ := h₅
  split at h₆
  · rw [if_pos rfl, advanceT_run] at h₆
    simp only [Except.ok.injEq, Prod.mk.injEq] at h₆
    obtain ⟨-, rfl, rfl⟩ := h₆
    exact ⟨rfl, rfl⟩
  · exact absurd h₆ throw_not_ok

theorem getAssertWith_ok {σ : Type} {assertion : M σ Unit}
    (hA : ∀ s a out s', assertion s = .ok (a, out, s') →
      out = [] ∧ s' = { s with cur := s.rest.head?, rest := s.rest.tail })
    {s s' : EngState σ} {v : String} {out : List VMInstr}
    (h : getAssertWith assertion s = .ok (v, out, s')) :
    v = curTextOf s.cur ∧ out = []
      ∧ s' = { s with cur := s.rest.head?, rest := s.rest.tail } := by
  unfold getAssertWith at h
  rcases bind_eq_ok.mp h with ⟨t, o₁, s₁, o₂, h₁, h₂, rfl⟩
  simp only [curText, Except.ok.injEq, Prod.mk.injEq] at h₁
  obtain ⟨rfl, rfl, rfl⟩ := h₁
  rcases bind_eq_ok.mp h₂ with ⟨u, o₃, s₂, o₄, h₃, h₄, rfl⟩
  obtain ⟨rfl, rfl⟩ := hA _ _ _ _ h₃
  obtain ⟨rfl, rfl, rfl⟩ := pure_eq_ok.mp h₄
  exact ⟨rfl, rfl, rfl⟩

theorem checkTokenStr_ok {σ : Type} {tok : String} {s s' : EngState σ}
    {b : Bool} {out : List VMInstr}
    (h : checkTokenStr tok true s = .ok (b, out, s')) :
    out = [] ∧ ((b = true ∧ curTextOf s.cur = tok
        ∧ s' = { s with cur := s.rest.head?, rest := s.rest.tail })
      ∨ (b = false ∧ ¬ curTextOf s.cur = tok ∧ s' = s)) := by
  unfold checkTokenStr at h
  rcases bind_eq_ok.mp h with ⟨t, o₁, s₁, o₂, h₁, h₂, rfl⟩
  simp only [curText, Except.ok.injEq, Prod.mk.injEq] at h₁
  obtain ⟨rfl, rfl, rfl⟩ := h₁
  by_cases ht : (s.cur.map Token.text).getD "" = tok
  · rw [if_pos ht, if_pos rfl] at h₂
    rcases bind_eq_ok.mp h₂ with ⟨u, p₁, s₂, p₂, h₃, h₄, rfl⟩
    rw [advanceT_run] at h₃
    simp only [Except.ok.injEq, Prod.mk.injEq] at h₃
    obtain ⟨-, rfl, rfl⟩ := h₃
    obtain ⟨rfl, rfl, rfl⟩ := pure_eq_ok.mp h₄
    exact ⟨rfl, .inl ⟨rfl, ht, rfl⟩⟩
  · rw [if_neg ht] at h₂
    obtain ⟨rfl, rfl, rfl⟩ := pure_eq_ok.mp h₂
    exact ⟨rfl, .inr ⟨rfl, ht, rfl⟩⟩

end Eng

namespace Eng

/-! ### Counting the variables a varDec block declares

`commaNamesCount`/`varDecsCount` read the declaration count straight
off the token stream, mirroring the loops of `_compile_var_dec`: one
variable per `var` keyword plus one per following comma. -/

def commaNamesCount : Nat → Option Token × List Token →
    Nat × (Option Token × List Token)
  | 0, st => (0, st)
  | fuel + 1, st =>
      if curTextOf st.1 = "," then
        let r := commaNamesCount fuel (tadv (tadv st))
        (r.1 + 1, r.2)
      else (0, st)

def varDecsCount : Nat → Option Token × List Token → Nat
  | 0, _ => 0
  | fuel + 1, st =>
      if curTextOf st.1 = "var" then
        let r := commaNamesCount fuel (tadv (tadv (tadv st)))
        r.1 + 1 + varDecsCount fuel (tadv r.2)
      else 0

theorem step_liftE {σ α β : Type} {x : Except PyExc α} {f : α → M σ β}
    {s s' : EngState σ} {a : β} {out : List VMInstr}
    (h : (liftE x >>= f) s = .ok (a, out, s')) :
    ∃ v, x = .ok v ∧ f v s = .ok (a, out, s') := by
  rcases bind_eq_ok.mp h with ⟨v, o₁, s₁, o₂, h₁, h₂, rfl⟩
  cases x with
  | error e => exact absurd h₁ (by simp [liftE])
  | ok w =>
      simp only [liftE, Except.ok.injEq, Prod.mk.injEq] at h₁
      obtain ⟨rfl, rfl, rfl⟩ := h₁
      exact ⟨w, rfl, by simpa using h₂⟩

/-- A successful `_define` call at the spec table: the name is the
current token, the stream advances once, the table is replaced by the
`define` result. -/
theorem defineVar_ok_spec {type_ kind : String} {s s' : EngState SpecTable}
    {a : Unit} {out : List VMInstr}
    (h : defineVar specOps type_ kind s = .ok (a, out, s')) :
    ∃ t', SpecTable.define s.table (curTextOf s.cur) type_ kind = .ok t'
      ∧ out = []
      ∧ s' = { s with cur := s.rest.head?, rest := s.rest.tail, table := t' } := by
  unfold defineVar at h
  rcases bind_eq_ok.mp h with ⟨name, o₁, s₁, o₂, h₁, h₂, rfl⟩
  obtain ⟨rfl, rfl, rfl⟩ :=
    getAssertWith_ok (fun s a out s' hh => assertIdentifier_adv_ok hh) h₁
  rcases bind_eq_ok.mp h₂ with ⟨t, o₃, s₂, o₄, h₃, h₄, rfl⟩
  simp only [getTable, Except.ok.injEq, Prod.mk.injEq] at h₃
  obtain ⟨rfl, rfl, rfl⟩ := h₃
  obtain ⟨t', hdef, h₅⟩ := step_liftE h₄
  simp only [setTable, Except.ok.injEq, Prod.mk.injEq] at h₅
  obtain ⟨-, rfl, rfl⟩ := h₅
  exact ⟨t', hdef, rfl, rfl⟩

theorem define_local_countLocal {t : SpecTable} {n ty : String} {t' : SpecTable}
    (h : SpecTable.define t n ty "local" = .ok t') :
    t'.countLocal = t.countLocal + 1 := by
  rw [SpecTable.define, if_neg (by decide), if_neg (by decide), if_neg (by decide),
    if_pos (by decide)] at h
  cases h
  rfl

theorem define_argument_countLocal {t : SpecTable} {n ty : String}
    {t' : SpecTable} (h : SpecTable.define t n ty "argument" = .ok t') :
    t'.countLocal = t.countLocal := by
  rw [SpecTable.define, if_neg (by decide), if_neg (by decide),
    if_pos (by decide)] at h
  cases h
  rfl

/-- The comma loop of `_compile_var_dec` with kind `local` at the spec
table: it emits nothing, keeps the branch counter, declares exactly
`commaNamesCount` locals, and leaves the stream where the mirror
says. -/
theorem commaDefineLoop_local (ty : String) : ∀ fuel : Nat,
    ∀ (s : EngState SpecTable) a out s',
    commaDefineLoop specOps ty "local" fuel s = .ok (a, out, s') →
    out = [] ∧ s'.branch = s.branch
      ∧ s'.table.countLocal
          = s.table.countLocal + (commaNamesCount fuel (s.cur, s.rest)).1
      ∧ (s'.cur, s'.rest) = (commaNamesCount fuel (s.cur, s.rest)).2 := by
  intro fuel
  induction fuel with
  | zero =>
      intro s a out s' h
      exact absurd (show (M.throw PyExc.fuel : M SpecTable Unit) s
        = .ok (a, out, s') from h) throw_not_ok
  | succ fuel ih =>
      intro s a out s' h
      rw [commaDefineLoop_succ] at h
      unfold commaDefineLoopStep at h
      simp only [engine_commaDefineLoop] at h
      rcases bind_eq_ok.mp h with ⟨b, o₁, s₁, o₂, h₁, h₂, rfl⟩
      obtain ⟨rfl, hcase⟩ := checkTokenStr_ok h₁
      rcases hcase with ⟨rfl, hcomma, rfl⟩ | ⟨rfl, hncomma, rfl⟩
      · rw [if_pos rfl] at h₂
        rcases bind_eq_ok.mp h₂ with ⟨u, p₁, s₂, p₂, h₃, h₄, rfl⟩
        obtain ⟨t', hdef, rfl, rfl⟩ := defineVar_ok_spec h₃
        obtain ⟨rfl, hbr, hcount, hstream⟩ := ih _ _ _ _ h₄
        have hm : commaNamesCount (fuel + 1) (s.cur, s.rest)
            = ((commaNamesCount fuel (tadv (tadv (s.cur, s.rest)))).1 + 1,
               (commaNamesCount fuel (tadv (tadv (s.cur, s.rest)))).2) := by
          simp only [commaNamesCount]
          rw [if_pos hcomma]
        have hc1 : t'.countLocal = s.table.countLocal + 1 :=
          define_local_countLocal hdef
        have hcount' : s'.table.countLocal
            = t'.countLocal + (commaNamesCount fuel (tadv (tadv (s.cur, s.rest)))).1 :=
          hcount
        have hstream' : (s'.cur, s'.rest)
            = (commaNamesCount fuel (tadv (tadv (s.cur, s.rest)))).2 := hstream
        refine ⟨rfl, ?_, ?_, ?_⟩
        · rw [hbr]
        · rw [hm]
          omega
        · rw [hm]
          exact hstream'
      · rw [if_neg (by simp)] at h₂
        obtain ⟨rfl, rfl, rfl⟩ := pure_eq_ok.mp h₂
        have hm : commaNamesCount (fuel + 1) (s'.cur, s'.rest)
            = (0, (s'.cur, s'.rest)) := by
          simp only [commaNamesCount]
          rw [if_neg hncomma]
        rw [hm]
        exact ⟨rfl, rfl, rfl, rfl⟩

/-- `_compile_var_dec` at the spec table: emits nothing, keeps the
branch counter, and declares exactly `varDecsCount` locals. -/
theorem compileVarDec_local : ∀ fuel : Nat,
    ∀ (s : EngState SpecTable) a out s',
    compileVarDec specOps fuel s = .ok (a, out, s') →
    out = [] ∧ s'.branch = s.branch
      ∧ s'.table.countLocal
          = s.table.countLocal + varDecsCount fuel (s.cur, s.rest) := by
  intro fuel
  induction fuel with
  | zero =>
      intro s a out s' h
      exact absurd (show (M.throw PyExc.fuel : M SpecTable Unit) s
        = .ok (a, out, s') from h) throw_not_ok
  | succ fuel ih =>
      intro s a out s' h
      rw [compileVarDec_succ] at h
      unfold compileVarDecStep at h
      simp only [engine_commaDefineLoop, engine_compileVarDec] at h
      rcases bind_eq_ok.mp h with ⟨b, o₁, s₁, o₂, h₁, h₂, rfl⟩
      obtain ⟨rfl, hcase⟩ := checkTokenStr_ok h₁
      rcases hcase with ⟨rfl, hvar, rfl⟩ | ⟨rfl, hnvar, rfl⟩
      · rw [if_pos rfl] at h₂
        rcases bind_eq_ok.mp h₂ with ⟨ty, p₁, s₂, p₂, h₃, h₄, rfl⟩
        obtain ⟨rfl, rfl, rfl⟩ :=
          getAssertWith_ok (fun s a out s' hh => assertType_adv_ok hh) h₃
        rcases bind_eq_ok.mp h₄ with ⟨u, q₁, s₃, q₂, h₅, h₆, rfl⟩
        obtain ⟨t', hdef, rfl, rfl⟩ := defineVar_ok_spec h₅
        rcases bind_eq_ok.mp h₆ with ⟨u₂, r₁, s₄, r₂, h₇, h₈, rfl⟩
        obtain ⟨rfl, hbr₄, hcnt₄, hstr₄⟩ := commaDefineLoop_local _ fuel _ _ _ _ h₇
        rcases bind_eq_ok.mp h₈ with ⟨u₃, w₁, s₅, w₂, h₉, h₁₀, rfl⟩
        obtain ⟨rfl, rfl⟩ := assertToken_adv_ok h₉
        obtain ⟨rfl, hbr', hcnt'⟩ := ih _ _ _ _ h₁₀
        have hc1 : t'.countLocal = s.table.countLocal + 1 :=
          define_local_countLocal hdef
        have hcnt₄' : s₄.table.countLocal
            = t'.countLocal
              + (commaNamesCount fuel (tadv (tadv (tadv (s.cur, s.rest))))).1 :=
          hcnt₄
        have hstr₄' : (s₄.cur, s₄.rest)
            = (commaNamesCount fuel (tadv (tadv (tadv (s.cur, s.rest))))).2 :=
          hstr₄
        have hnext : ((s₄.rest.head? : Option Token), s₄.rest.tail)
            = tadv ((commaNamesCount fuel (tadv (tadv (tadv (s.cur, s.rest))))).2) := by
          rw [← hstr₄']
          rfl
        have hcnt'' : s'.table.countLocal
            = s₄.table.countLocal
              + varDecsCount fuel
                  (tadv ((commaNamesCount fuel (tadv (tadv (tadv (s.cur, s.rest))))).2)) := by
          rw [← hnext]
          exact hcnt'
        have hm : varDecsCount (fuel + 1) (s.cur, s.rest)
            = (commaNamesCount fuel (tadv (tadv (tadv (s.cur, s.rest))))).1 + 1
              + varDecsCount fuel
                  (tadv ((commaNamesCount fuel (tadv (tadv (tadv (s.cur, s.rest))))).2)) := by
          simp only [varDecsCount]
          rw [if_pos hvar]
        refine ⟨rfl, ?_, ?_⟩
        · rw [hbr', hbr₄]
        · rw [hm]
          omega
      · rw [if_neg (by simp)] at h₂
        obtain ⟨rfl, rfl, rfl⟩ := pure_eq_ok.mp h₂
        have hm : varDecsCount (fuel + 1) (s'.cur, s'.rest) = 0 := by
          simp only [varDecsCount]
          rw [if_neg hnvar]
        rw [hm]
        exact ⟨rfl, rfl, rfl⟩

/-- The parameter-list compilers only declare `argument` variables:
`count(Local)` is untouched. -/
theorem paramCommaLoop_countLocal : ∀ fuel : Nat,
    ∀ (s : EngState SpecTable) a out s',
    paramCommaLoop specOps fuel s = .ok (a, out, s') →
    s'.table.countLocal = s.table.countLocal := by
  intro fuel
  induction fuel with
  | zero =>
      intro s a out s' h
      exact absurd (show (M.throw PyExc.fuel : M SpecTable Unit) s
        = .ok (a, out, s') from h) throw_not_ok
  | succ fuel ih =>
      intro s a out s' h
      rw [paramCommaLoop_succ] at h
      unfold paramCommaLoopStep at h
      simp only [engine_paramCommaLoop] at h
      rcases bind_eq_ok.mp h with ⟨b, o₁, s₁, o₂, h₁, h₂, rfl⟩
      obtain ⟨rfl, hcase⟩ := checkTokenStr_ok h₁
      rcases hcase with ⟨rfl, hcm, rfl⟩ | ⟨rfl, hncm, rfl⟩
      · rw [if_pos rfl] at h₂
        rcases bind_eq_ok.mp h₂ with ⟨ty, p₁, s₂, p₂, h₃, h₄, rfl⟩
        rcases bind_eq_ok.mp h₄ with ⟨u, q₁, s₃, q₂, h₅, h₆, rfl⟩
        obtain ⟨t', hdef, rfl, rfl⟩ := defineVar_ok_spec h₅
        have hc1 : t'.countLocal = s₂.table.countLocal :=
          define_argument_countLocal hdef
        have := ih _ _ _ _ h₆
        rw [getAssertPlain_run] at h₃
        simp only [Except.ok.injEq, Prod.mk.injEq] at h₃
        obtain ⟨rfl, rfl, rfl⟩ := h₃
        rw [this]
        exact hc1
      · rw [if_neg (by simp)] at h₂
        obtain ⟨rfl, rfl, rfl⟩ := pure_eq_ok.mp h₂
        rfl

theorem compileParameterList_countLocal (fuel : Nat)
    (s : EngState SpecTable) (a : Unit) (out : List VMInstr)
    (s' : EngState SpecTable)
    (h : compileParameterList specOps fuel s = .ok (a, out, s')) :
    s'.table.countLocal = s.table.countLocal := by
  cases fuel with
  | zero =>
      exact absurd (show (M.throw PyExc.fuel : M SpecTable Unit) s
        = .ok (a, out, s') from h) throw_not_ok
  | succ fuel =>
      rw [compileParameterList_succ] at h
      unfold compileParameterListStep at h
      simp only [engine_paramCommaLoop] at h
      rcases bind_eq_ok.mp h with ⟨t, o₁, s₁, o₂, h₁, h₂, rfl⟩
      simp only [curText, Except.ok.injEq, Prod.mk.injEq] at h₁
      obtain ⟨rfl, rfl, rfl⟩ := h₁
      rcases bind_eq_ok.mp h₂ with ⟨ty, o₃, s₂, o₄, h₃, h₄, rfl⟩
      simp only [curType, Except.ok.injEq, Prod.mk.injEq] at h₃
      obtain ⟨rfl, rfl, rfl⟩ := h₃
      split at h₄
      · rcases bind_eq_ok.mp h₄ with ⟨tp, p₁, s₃, p₂, h₅, h₆, rfl⟩
        rw [getAssertPlain_run] at h₅
        simp only [Except.ok.injEq, Prod.mk.injEq] at h₅
        obtain ⟨rfl, rfl, rfl⟩ := h₅
        rcases bind_eq_ok.mp h₆ with ⟨u, q₁, s₄, q₂, h₇, h₈, rfl⟩
        obtain ⟨t', hdef, rfl, rfl⟩ := defineVar_ok_spec h₇
        have hc1 : t'.countLocal = s.table.countLocal :=
          define_argument_countLocal hdef
        have := paramCommaLoop_countLocal fuel _ _ _ _ h₈
        rw [this]
        exact hc1
      · obtain ⟨rfl, rfl, rfl⟩ := pure_eq_ok.mp h₄
        rfl

end Eng

namespace Eng

/-! ### The shape of one compiled subroutine -/

theorem funcFree_nil : funcFree [] := by
  intro i hm
  simp at hm

theorem funcFree_cons {i : VMInstr} {out : List VMInstr}
    (hi : i.isFunc = false) (h : funcFree out) : funcFree (i :: out) := by
  intro j hm
  rcases List.mem_cons.mp hm with rfl | hm
  · exact hi
  · exact h _ hm

theorem spec_count_local (t : SpecTable) :
    specOps.varCount t "local" = .ok t.countLocal := by
  rw [show specOps.varCount = SpecTable.count from rfl, SpecTable.count,
    if_neg (by decide), if_neg (by decide), if_neg (by decide),
    if_pos (by decide)]

theorem spec_count_this (t : SpecTable) :
    specOps.varCount t "this" = .ok t.countThis := by
  rw [show specOps.varCount = SpecTable.count from rfl, SpecTable.count,
    if_neg (by decide), if_pos (by decide)]

/-- One subroutine declaration at the spec table: the output starts
with the `function <ClassName>.<name> <nLocals>` directive — so the
directive comes after the varDecs (which emit nothing) and before the
prologue and every statement instruction — where `nLocals` is the
final `count(local)` of the subroutine table; and nothing after it is
another `function` directive. -/
theorem compileSubroutineBody_shape (fuel : Nat) :
    ∀ (s : EngState SpecTable) a out s',
    compileSubroutineBody specOps fuel s = .ok (a, out, s') →
    ∃ nm rest, out = VMInstr.func (s.className ++ "." ++ nm)
        (natStr s'.table.countLocal) :: rest ∧ funcFree rest := by
  cases fuel with
  | zero =>
      intro s a out s' h
      exact absurd (show (M.throw PyExc.fuel : M SpecTable Unit) s
        = .ok (a, out, s') from h) throw_not_ok
  | succ fuel =>
      intro s a out s' h
      have hstmt : StmtRun (compileStatements specOps fuel) :=
        (engineStmtInv specOps fuel).2.2.2.2.2.2.2.2.2.2.2
      rw [compileSubroutineBody_succ] at h
      unfold compileSubroutineBodyStep at h
      simp only [engine_compileParameterList, engine_compileVarDec,
        engine_compileStatements] at h
      rcases bind_eq_ok.mp h with ⟨tb0, a₁, q₁, b₁, e₁, g₁, rfl⟩
      simp only [getTable, Except.ok.injEq, Prod.mk.injEq] at e₁
      obtain ⟨rfl, rfl, rfl⟩ := e₁
      rcases bind_eq_ok.mp g₁ with ⟨u₁, a₂, q₂, b₂, e₂, g₂, rfl⟩
      simp only [setTable, Except.ok.injEq, Prod.mk.injEq] at e₂
      obtain ⟨-, rfl, rfl⟩ := e₂
      rcases bind_eq_ok.mp g₂ with ⟨kind, a₃, q₃, b₃, e₃, g₃, rfl⟩
      rw [getAssertPlain_run] at e₃
      simp only [Except.ok.injEq, Prod.mk.injEq] at e₃
      obtain ⟨rfl, rfl, rfl⟩ := e₃
      rcases bind_eq_ok.mp g₃ with ⟨ty, a₄, q₄, b₄, e₄, g₄, rfl⟩
      obtain ⟨rfl, rfl, rfl⟩ :=
        getAssertWith_ok (fun s a out s' hh => assertSubroutineType_adv_ok hh) e₄
      rcases bind_eq_ok.mp g₄ with ⟨nm, a₅, q₅, b₅, e₅, g₅, rfl⟩
      obtain ⟨rfl, rfl, rfl⟩ :=
        getAssertWith_ok (fun s a out s' hh => assertIdentifier_adv_ok hh) e₅
      rcases bind_eq_ok.mp g₅ with ⟨cls, a₆, q₆, b₆, e₆, g₆, rfl⟩
      simp only [getClassName, Except.ok.injEq, Prod.mk.injEq] at e₆
      obtain ⟨rfl, rfl, rfl⟩ := e₆
      split at g₆ <;>
        first
          | (rcases bind_eq_ok.mp g₆ with ⟨tt, c1, d1, c2, f1, f2, rfl⟩
             simp only [getTable, Except.ok.injEq, Prod.mk.injEq] at f1
             obtain ⟨rfl, rfl, rfl⟩ := f1
             obtain ⟨tt2, hdd, f3⟩ := step_liftE f2
             rcases bind_eq_ok.mp f3 with ⟨u3, c3, d2, c4, f4, f5, rfl⟩
             simp only [setTable, Except.ok.injEq, Prod.mk.injEq] at f4
             obtain ⟨-, rfl, rfl⟩ := f4)
          | (rcases bind_eq_ok.mp g₆ with ⟨u3, c3, d2, c4, f4, f5, rfl⟩
             obtain ⟨-, rfl, rfl⟩ := pure_eq_ok.mp f4)
      all_goals
        (rcases bind_eq_ok.mp f5 with ⟨y₁, m₁, p₁, n₁, k₁, l₁, rfl⟩
         obtain ⟨rfl, rfl⟩ := assertToken_adv_ok k₁
         rcases bind_eq_ok.mp l₁ with ⟨y₂, m₂, p₂, n₂, k₂, l₂, rfl⟩
         obtain ⟨rfl, -⟩ := (engineClassInv specOps fuel).2.2.2.1 _ _ _ _ k₂
         rcases bind_eq_ok.mp l₂ with ⟨y₃, m₃, p₃, n₃, k₃, l₃, rfl⟩
         obtain ⟨rfl, rfl⟩ := assertToken_adv_ok k₃
         rcases bind_eq_ok.mp l₃ with ⟨y₄, m₄, p₄, n₄, k₄, l₄, rfl⟩
         obtain ⟨rfl, rfl⟩ := assertToken_adv_ok k₄
         rcases bind_eq_ok.mp l₄ with ⟨y₅, m₅, p₅, n₅, k₅, l₅, rfl⟩
         obtain ⟨rfl, -⟩ := (engineClassInv specOps fuel).2.1 _ _ _ _ k₅
         rcases bind_eq_ok.mp l₅ with ⟨tb, m₆, p₆, n₆, k₆, l₆, rfl⟩
         simp only [getTable, Except.ok.injEq, Prod.mk.injEq] at k₆
         obtain ⟨rfl, rfl, rfl⟩ := k₆
         obtain ⟨nloc, hcnt, l₇⟩ := step_liftE l₆
         rw [spec_count_local] at hcnt
         cases hcnt
         obtain ⟨oR, l₈, rfl⟩ := step_emit l₇
         split at l₈ <;>
           first
             | (rcases bind_eq_ok.mp l₈ with ⟨tb2, c₆, r₁, c₇, f₆', f₇', rfl⟩
                simp only [getTable, Except.ok.injEq, Prod.mk.injEq] at f₆'
                obtain ⟨rfl, rfl, rfl⟩ := f₆'
                obtain ⟨nf, hcnt2, f₃'⟩ := step_liftE f₇'
                rw [spec_count_this] at hcnt2
                cases hcnt2
                obtain ⟨oR2, f₄', rfl⟩ := step_emit f₃'
                obtain ⟨oR3, f₅', rfl⟩ := step_emit f₄'
                obtain ⟨oR4, f₆'', rfl⟩ := step_emit f₅'
                rcases bind_eq_ok.mp f₆'' with ⟨u₆, oS, r₂, c₅, f₇, f₈, rfl⟩)
             | (obtain ⟨oR2, f₄', rfl⟩ := step_emit l₈
                obtain ⟨oR3, f₅', rfl⟩ := step_emit f₄'
                rcases bind_eq_ok.mp f₅' with ⟨u₆, oS, r₂, c₅, f₇, f₈, rfl⟩)
             | (rcases bind_eq_ok.mp l₈ with ⟨u₇, c₆, r₁, c₇, f₆', f₂', rfl⟩
                obtain ⟨-, rfl, hpp⟩ := pure_eq_ok.mp f₆'
                rw [hpp] at f₂'
                rcases bind_eq_ok.mp f₂' with ⟨u₆, oS, r₂, c₅, f₇, f₈, rfl⟩)
         all_goals
           (obtain ⟨-, hffS, htS⟩ := hstmt _ _ _ _ f₇
            obtain ⟨rfl, hs'⟩ := assertToken_adv_ok f₈
            have hft : s'.table = p₅.table := by
              rw [hs']
              exact htS
            simp only [List.nil_append]
            rw [hft]
            refine ⟨_, _, rfl, ?_⟩
            repeat
              first
                | exact funcFree_append hffS funcFree_nil
                | refine funcFree_cons rfl ?_))

end Eng

/-! ## Claims about the emitted code: branch labels and the function
directive -/

/-- [C6] Every while statement emits, in this order:
`label LOOP_BRANCH.k`, the condition, `not`, `if-goto BREAK_BRANCH.k`,
the body, `goto LOOP_BRANCH.k`, `label BREAK_BRANCH.k` (this is
`whileSkel k cond bod`), where `k = branch counter + 1` is obtained by
incrementing the counter (`_compile_while`, `engines/vm.py`
lines 187-205).  Distinctness of `k` from the index of every other
`if`/`while` of the file is carried by the `StInv` invariant, whose
file-level consequence is the second conjunct: in any successful `run`,
every emitted `if-goto L` has exactly one matching `label L` in the
output. -/
theorem c6_while_labels {σ : Type} (ops : Eng.TableOps σ) (fuel : Nat) :
    (∀ (s : Eng.EngState σ) (a : Unit) out s',
      Eng.compileWhile ops fuel s = .ok (a, out, s') →
      ∃ cond bod, out = Eng.whileSkel (s.branch + 1) cond bod
        ∧ Eng.plainOut cond ∧ Eng.StInv (s.branch + 1) s'.branch bod)
    ∧ (∀ toks b out b', Eng.runVM ops fuel toks b = .success out b' →
        ∀ lab, Eng.VMInstr.ifGoto lab ∈ out → Eng.cntL out lab = 1) := by
  constructor
  · cases fuel with
    | zero =>
        intro s a out s' h
        exact absurd (show (Eng.M.throw Eng.PyExc.fuel : Eng.M σ Unit) s
          = .ok (a, out, s') from h) Eng.throw_not_ok
    | succ fuel =>
        have ihE := (Eng.engineStmtInv ops fuel).1
        have ihSt := (Eng.engineStmtInv ops fuel).2.2.2.2.2.2.2.2.2.2.2
        intro s a out s' h
        rw [Eng.compileWhile_succ] at h
        unfold Eng.compileWhileStep at h
        simp only [Eng.engine_compileExpression, Eng.engine_compileStatements] at h
        have h0 := Eng.step_incBranch h
        obtain ⟨o, h1, rfl⟩ := Eng.step_emit h0
        obtain ⟨x₂, s₂, hb₂, ht₂, h2⟩ :=
          Eng.step_tokOnly (Eng.assertToken_tokOnly _ _ _) h1
        rcases Eng.bind_eq_ok.mp h2 with ⟨u₁, cond, s₃, o₃, hc, h3, rfl⟩
        obtain ⟨hcP, hb₃, ht₃⟩ := ihE _ _ _ _ hc
        obtain ⟨x₄, s₄, hb₄, ht₄, h4⟩ :=
          Eng.step_tokOnly (Eng.assertToken_tokOnly _ _ _) h3
        obtain ⟨o2, h5, rfl⟩ := Eng.step_emit h4
        obtain ⟨o3, h6, rfl⟩ := Eng.step_emit h5
        obtain ⟨x₅, s₅, hb₅, ht₅, h7⟩ :=
          Eng.step_tokOnly (Eng.assertToken_tokOnly _ _ _) h6
        rcases Eng.bind_eq_ok.mp h7 with ⟨u₂, bod, s₆, o₄, hbod, h8, rfl⟩
        obtain ⟨hbodI, hbodF, ht₆⟩ := ihSt _ _ _ _ hbod
        obtain ⟨x₇, s₇, hb₇, ht₇, h9⟩ :=
          Eng.step_tokOnly (Eng.assertToken_tokOnly _ _ _) h8
        obtain ⟨o5, h10, rfl⟩ := Eng.step_emit h9
        obtain ⟨rfl, rfl⟩ := Eng.emit_eq_ok h10
        have hb5 : s₅.branch = s.branch + 1 := by rw [hb₅, hb₄, hb₃, hb₂]
        refine ⟨cond, bod, rfl, hcP, ?_⟩
        rw [hb₇, ← hb5]
        exact hbodI
  · intro toks b out b' h lab hm
    exact Eng.StInv_unique_label (Eng.runVM_StInv ops fuel toks b out b' h) lab hm

set_option maxHeartbeats 4000000 in
/-- [C6, witness] The concrete while-file: the run emits exactly one
`label BREAK_BRANCH.1` for its `if-goto BREAK_BRANCH.1`. -/
theorem c6_while_labels_witness :
    Eng.cntL (whileClassOut 1) (Jack.breakLabel 1) = 1 :=
  (c6_while_labels Eng.specOps 80).2 whileClassTokens 0 (whileClassOut 1) 1 rfl
    (Jack.breakLabel 1) (by simp [whileClassOut])

/-- [C1] Conjunct 1 (from `compileSubroutineBody_shape`): for every
successfully compiled subroutine declaration, the output is exactly one
`function <ClassName>.<name> <nLocals>` directive followed by
directive-free code — so the directive appears after all varDecs (they
emit nothing, conjunct 3) and before any prologue or statement
instruction — with `nLocals` the final `count(local)` of the
subroutine's table.  Conjuncts 2-4 pin that count to the number of
variables the varDecs declare: `start_subroutine` zeroes it, the
parameter list leaves it unchanged, and `_compile_var_dec` adds exactly
`varDecsCount` (one per `var` keyword plus one per comma), read off the
token stream (`engines/vm.py` lines 58-90, 106-116). -/
theorem c1_function_directive (fuel : Nat) :
    (∀ (s : Eng.EngState Eng.SpecTable) (a : Unit) out s',
      Eng.compileSubroutineBody Eng.specOps fuel s = .ok (a, out, s') →
      ∃ nm rest, out = Eng.VMInstr.func (s.className ++ "." ++ nm)
          (natStr s'.table.countLocal) :: rest ∧ Eng.funcFree rest)
    ∧ (∀ t : Eng.SpecTable, (Eng.specOps.startSubroutine t).countLocal = 0)
    ∧ (∀ (s : Eng.EngState Eng.SpecTable) (a : Unit) out s',
        Eng.compileVarDec Eng.specOps fuel s = .ok (a, out, s') →
        out = [] ∧ s'.table.countLocal
          = s.table.countLocal + Eng.varDecsCount fuel (s.cur, s.rest))
    ∧ (∀ (s : Eng.EngState Eng.SpecTable) (a : Unit) out s',
        Eng.compileParameterList Eng.specOps fuel s = .ok (a, out, s') →
        out = [] ∧ s'.table.countLocal = s.table.countLocal) := by
  refine ⟨Eng.compileSubroutineBody_shape fuel, fun t => rfl, ?_, ?_⟩
  · intro s a out s' h
    obtain ⟨ho, -, hc⟩ := Eng.compileVarDec_local fuel s a out s' h
    exact ⟨ho, hc⟩
  · intro s a out s' h
    exact ⟨((Eng.engineClassInv Eng.specOps fuel).2.2.2.1 _ _ _ _ h).1,
      Eng.compileParameterList_countLocal fuel s a out s' h⟩

set_option maxHeartbeats 4000000 in
/-- [C1, witness] `function void main() { var int x, y; return; }` in
class `Main`: one directive `function Main.main 2`, with the two
locals counted and nothing but plain code after the directive. -/
theorem c1_function_directive_witness :
    ∃ nm rest,
      [Eng.VMInstr.func "Main.main" (natStr 2),
       Eng.VMInstr.push "constant" (natStr 0), Eng.VMInstr.ret]
        = Eng.VMInstr.func ("Main" ++ "." ++ nm) (natStr 2) :: rest
      ∧ Eng.funcFree rest :=
  (c1_function_directive 30).1
    { cur := some (Eng.kw "function"),
      rest := [Eng.kw "void", Eng.ident "main", Eng.sy "(", Eng.sy ")",
        Eng.sy "\x7b", Eng.kw "var", Eng.kw "int", Eng.ident "x", Eng.sy ",",
        Eng.ident "y", Eng.sy ";", Eng.kw "return", Eng.sy ";", Eng.sy "\x7d"],
      branch := 0, table := Eng.SpecTable.fresh, className := "Main" }
    ()
    [Eng.VMInstr.func "Main.main" (natStr 2),
     Eng.VMInstr.push "constant" (natStr 0), Eng.VMInstr.ret]
    { cur := none, rest := [], branch := 0,
      table := { classTable := [],
                 subroutineTable := [("x", ⟨"local", "int", 0⟩),
                                     ("y", ⟨"local", "int", 1⟩)],
                 countStatic := 0, countThis := 0,
                 countArgument := 0, countLocal := 2 },
      className := "Main" }
    rfl
